import Mathlib

/-!
# Sysrepo shared-memory substrate — shallow embedding of `src/shm_main.c`

This file embeds the Main SHM / Ext SHM coordination substrate of the sysrepo
daemon (`src/shm_main.c`) into Lean 4 and proves / refutes the frozen claims
about it.

Modelling conventions:
* Ext SHM objects are modelled structurally.  A string stored in Ext SHM is a
  pair `ShmStr` of its byte offset and its contents (offset `0` means "absent",
  as in the C code, where the value component is irrelevant junk).  An array
  stored in Ext SHM is a pair `ShmArr` of the offset of its first element and
  the list of its elements (the C `count` field is the list length).
* Machine integers (`size_t`, `off_t`, `uint32_t`, ...) are modelled as `Nat`;
  none of the claims concerns wrap-around of size arithmetic.
* `sizeof` of the fixed C records are fixed layout constants below; every claim
  is generic in their actual values.
* Helpers that `shm_main.c` uses but whose definitions are not part of the
  sources (`sr_shmcpy`, `sr_strshmlen`, the `sr_shmmod_*_subscription_del`
  family from `shm_mod.c`, the operational-store interface, the process-shared
  rwlock internals) are modelled from the spec; each such definition carries a
  doc comment starting with `Modelled from the spec:`.
-/

namespace Sysrepo

/-- `sizeof(size_t)` — the wasted counter word at Ext SHM offset 0. -/
def szWord : Nat := 8

/-- `sizeof(uint32_t)` — one event-pipe id. -/
def szU32 : Nat := 4

/-- `sizeof(off_t)` — one Ext SHM offset. -/
def szOff : Nat := 8

/-- `sizeof(sr_conn_state_t)`. -/
def szConn : Nat := 40

/-- `sizeof(sr_rpc_t)`. -/
def szRpc : Nat := 24

/-- `sizeof(sr_rpc_sub_t)`. -/
def szRpcSub : Nat := 32

/-- `sizeof(sr_mod_data_dep_t)`. -/
def szDataDep : Nat := 24

/-- `sizeof(sr_mod_op_dep_t)`. -/
def szOpDep : Nat := 32

/-- `sizeof(sr_mod_change_sub_t)`. -/
def szChangeSub : Nat := 32

/-- `sizeof(sr_mod_oper_sub_t)`. -/
def szOperSub : Nat := 24

/-- `sizeof(sr_mod_notif_sub_t)`. -/
def szNotifSub : Nat := 8

/-- Modelled from the spec: `sr_strshmlen` (common.h, not in src/) — the number
of bytes a zero-terminated string occupies in Ext SHM: `strlen + 1`. -/
def shmlen (s : String) : Nat := s.length + 1

/-- A string stored in Ext SHM: its byte offset and its contents.  Offset `0`
denotes "absent"; the C code only ever tests the offset, so for an absent
string the `val` component is unobservable junk. -/
structure ShmStr where
  off : Nat
  val : String
deriving DecidableEq, Repr

/-- Bytes occupied by an optional Ext SHM string (0 when absent). -/
def strBytes (s : ShmStr) : Nat := if s.off = 0 then 0 else shmlen s.val

/-- An array stored in Ext SHM: offset of its first element plus its elements.
The C `count` field is `items.length`. -/
structure ShmArr (α : Type) where
  off : Nat
  items : List α
deriving DecidableEq, Repr

/-- `sr_dep_type_t`: `SR_DEP_REF` or `SR_DEP_INSTID`. -/
inductive DepType
  | ref
  | instid
deriving DecidableEq, Repr

/-- `sr_mod_data_dep_t`.  `module` is the Ext offset of the referenced
module's name (0 = none) paired with that name; `xpath` is optional. -/
structure DataDep where
  typ : DepType
  module : ShmStr
  xpath : ShmStr
deriving DecidableEq, Repr

/-- `sr_mod_op_dep_t`: xpath plus input and output data-dependency arrays. -/
structure OpDep where
  xpath : ShmStr
  in_deps : ShmArr DataDep
  out_deps : ShmArr DataDep
deriving DecidableEq, Repr

/-- `sr_mod_change_sub_t`. -/
structure ChangeSub where
  xpath : ShmStr
  priority : Nat
  opts : Nat
  evpipe_num : Nat
deriving DecidableEq, Repr

/-- `sr_mod_oper_sub_t`. -/
structure OperSub where
  xpath : ShmStr
  opts : Nat
  evpipe_num : Nat
deriving DecidableEq, Repr

/-- `sr_mod_notif_sub_t` (only its evpipe id is relevant here).  In this code
base notification subscriptions occupy no Ext SHM storage: the defragmenter
(lines 518-588) and the layout printer (lines 110-351) both walk every Ext
object and neither touches them, and the spec's Ext heap object list (§3)
omits them; the module record carries their count. -/
structure NotifSub where
  evpipe_num : Nat
deriving DecidableEq, Repr

/-- `sr_mod_t` — one fixed-stride Main SHM module record.  `change_sub` is the
per-datastore array `change_sub[SR_DS_COUNT]`. -/
structure SrMod where
  name : ShmStr
  rev : String
  flags : Nat
  ver : Nat
  features : ShmArr ShmStr
  data_deps : ShmArr DataDep
  inv_data_deps : ShmArr ShmStr
  op_deps : ShmArr OpDep
  change_sub : List (ShmArr ChangeSub)
  oper_subs : ShmArr OperSub
  notif_subs : List NotifSub
deriving DecidableEq, Repr

/-- `sr_lock_mode_t`. -/
inductive LMode
  | noLock
  | rdLock
  | wrLock
  | wrNoState
deriving DecidableEq, Repr

/-- The held-lock summary inside a connection record. -/
structure ConnLock where
  main : LMode
  main_rcount : Nat
deriving DecidableEq, Repr

/-- `sr_conn_state_t` — one connection record (the opaque `conn_ctx` pointer is
modelled as a `Nat` handle). -/
structure ConnState where
  conn_ctx : Nat
  pid : Nat
  evpipes : ShmArr Nat
  lock : ConnLock
deriving DecidableEq, Repr

/-- `sr_rpc_sub_t`. -/
structure RpcSub where
  xpath : ShmStr
  priority : Nat
  opts : Nat
  evpipe_num : Nat
deriving DecidableEq, Repr

/-- `sr_rpc_t`. -/
structure Rpc where
  op_path : ShmStr
  subs : ShmArr RpcSub
deriving DecidableEq, Repr

/-- The parts of `sr_main_shm_t` the claims are about: the main rwlock's reader
counter, the RPC anchor (`rpc_subs`/`rpc_sub_count`) and the connection-state
anchor (`conn_state.conns`/`conn_state.conn_count`). -/
structure MainShm where
  readers : Nat
  rpc : ShmArr Rpc
  conn_state : ShmArr ConnState
deriving DecidableEq, Repr

/-- The whole shared-memory state: Main SHM header + module records, the Ext
SHM geometry (mapped size and wasted counter), and the externally stored
operational-data overlay owners (conn_ctx, pid). -/
structure St where
  main : MainShm
  mods : List SrMod
  ext_size : Nat
  wasted : Nat
  oper_data : List (Nat × Nat)
deriving DecidableEq, Repr

/-- Typed error kinds surfaced by the substrate. -/
inductive SrErr
  | internal
  | notFound
deriving DecidableEq, Repr

/-! ## Live-byte accounting (invariant I2) -/

/-- Ext SHM bytes owned by a data-dependency array: the records plus each
present xpath string. -/
def dataDepsBytes (a : ShmArr DataDep) : Nat :=
  a.items.length * szDataDep + (a.items.map (fun d => strBytes d.xpath)).sum

/-- Ext SHM bytes owned by one op dependency beyond its record: its xpath and
its input and output dependency arrays. -/
def opDepBytes (o : OpDep) : Nat :=
  strBytes o.xpath + dataDepsBytes o.in_deps + dataDepsBytes o.out_deps

/-- Ext SHM bytes owned by one change-subscription array. -/
def changeSubsBytes (a : ShmArr ChangeSub) : Nat :=
  a.items.length * szChangeSub + (a.items.map (fun c => strBytes c.xpath)).sum

/-- Ext SHM bytes owned by one module record beyond its name string: feature
array and feature names, dependency arrays and their strings, subscription
arrays and their xpaths. -/
def modBodyBytes (m : SrMod) : Nat :=
  m.features.items.length * szOff + (m.features.items.map strBytes).sum
  + dataDepsBytes m.data_deps
  + m.inv_data_deps.items.length * szOff
  + m.op_deps.items.length * szOpDep + (m.op_deps.items.map opDepBytes).sum
  + (m.change_sub.map changeSubsBytes).sum
  + m.oper_subs.items.length * szOperSub
    + (m.oper_subs.items.map (fun c => strBytes c.xpath)).sum

/-- Ext SHM bytes owned by one module record: its name string plus the rest. -/
def modLiveBytes (m : SrMod) : Nat :=
  shmlen m.name.val + modBodyBytes m

/-- Ext SHM bytes owned by one connection record. -/
def connLiveBytes (c : ConnState) : Nat :=
  szConn + c.evpipes.items.length * szU32

/-- Ext SHM bytes owned by one RPC record. -/
def rpcLiveBytes (r : Rpc) : Nat :=
  szRpc + strBytes r.op_path + r.subs.items.length * szRpcSub
    + (r.subs.items.map (fun u => strBytes u.xpath)).sum

/-- The sum of the bytes of all live (reachable) Ext SHM objects. -/
def liveBytes (s : St) : Nat :=
  (s.mods.map modLiveBytes).sum
  + (s.main.conn_state.items.map connLiveBytes).sum
  + (s.main.rpc.items.map rpcLiveBytes).sum

/-- Invariant I2 of the spec: live bytes plus the wasted counter equal
`ext_size - sizeof(size_t)` (stated without truncated subtraction). -/
def I2 (s : St) : Prop :=
  szWord + liveBytes s + s.wasted = s.ext_size

instance (s : St) : Decidable (I2 s) := by unfold I2; infer_instance

/-! ## Offset/count coupling (claim C9) -/

/-- An array anchor is coupled: its offset is zero exactly when it is empty. -/
def arrOk {α : Type} (a : ShmArr α) : Bool :=
  (a.off == 0) == a.items.isEmpty

def opDepOk (o : OpDep) : Bool :=
  arrOk o.in_deps && arrOk o.out_deps

def modOk (m : SrMod) : Bool :=
  arrOk m.features && arrOk m.data_deps && arrOk m.inv_data_deps
  && arrOk m.op_deps && m.op_deps.items.all opDepOk
  && m.change_sub.all arrOk && arrOk m.oper_subs

def connOk (c : ConnState) : Bool := arrOk c.evpipes

def rpcOk (r : Rpc) : Bool := arrOk r.subs

/-- All array anchors of the shared regions are coupled (offset 0 ⟷ count 0):
the connection-state array, each connection's evpipe array, the RPC array,
each RPC's subscription array, and each module's arrays. -/
def coupled (s : St) : Bool :=
  s.mods.all modOk
  && arrOk s.main.conn_state && s.main.conn_state.items.all connOk
  && arrOk s.main.rpc && s.main.rpc.items.all rpcOk

/-! ## The swap-remove discipline

Every delete in `shm_main.c` replaces the removed element with the last one and
decrements the count (`memcpy(&a[i], &a[count], sizeof *a)`). -/

/-- Remove the element at index `i` by overwriting it with the last element and
dropping the last slot (identity semantics on out-of-range `i` never arise:
the callers establish `i < l.length`). -/
def swapRemove {α : Type} (l : List α) (i : Nat) : List α :=
  match l.getLast? with
  | Option.none => []
  | Option.some x => (l.set i x).dropLast

/-! ## Linear scans -/

/-- First index (and element) satisfying `p` — the C linear scans. -/
def idxOf? {α : Type} (p : α → Bool) : List α → Option (Nat × α)
  | [] => Option.none
  | a :: t =>
    if p a then Option.some (0, a)
    else (idxOf? p t).map (fun q => (q.1 + 1, q.2))

/-! ## Connection state & event pipes (`shm_main.c` lines 711-891) -/

/-- The match used by the connection-state scans: same client handle, same PID. -/
def connMatch (ctx pid : Nat) (c : ConnState) : Bool :=
  c.conn_ctx == ctx && c.pid == pid

/-- `sr_shmmain_state_find_conn`: linear scan of the connection array for the
first record with the given client handle and PID. -/
def sr_shmmain_state_find_conn (s : St) (ctx pid : Nat) : Option (Nat × ConnState) :=
  idxOf? (connMatch ctx pid) s.main.conn_state.items

/-- `sr_shmmain_state_add_conn`: remap Ext to hold the moved connection array
plus one record, waste the old array, move it to the old Ext end, append the
new record (fresh memory is zeroed, so its evpipe array and lock summary are
null). -/
def sr_shmmain_state_add_conn (s : St) (ctx pid : Nat) : St :=
  let n := s.main.conn_state.items.length
  let conn_state_off := s.ext_size
  let new_ext_size := conn_state_off + (n + 1) * szConn
  { s with
    ext_size := new_ext_size
    wasted := s.wasted + n * szConn
    main := { s.main with conn_state :=
      ⟨conn_state_off,
       s.main.conn_state.items ++ [⟨ctx, pid, ⟨0, []⟩, ⟨LMode.noLock, 0⟩⟩]⟩ } }

/-- `sr_shmmain_state_del_conn`: find (conn, pid); when absent, log an internal
error and change nothing; otherwise waste the record and its evpipe array and
swap-remove it, clearing the anchor when the array becomes empty. -/
def sr_shmmain_state_del_conn (s : St) (ctx pid : Nat) : St :=
  match idxOf? (connMatch ctx pid) s.main.conn_state.items with
  | Option.none => s
  | Option.some (i, c) =>
    let items := swapRemove s.main.conn_state.items i
    { s with
      wasted := s.wasted + c.evpipes.items.length * szU32 + szConn
      main := { s.main with conn_state :=
        ⟨if items.isEmpty then 0 else s.main.conn_state.off, items⟩ } }

/-- `sr_shmmain_state_add_evpipe`: when no record matches (conn, PID of the
caller) fail with `SR_ERR_NOT_FOUND` before any remap; otherwise remap, find
the connection again (the array could have moved), waste the old evpipe array,
move it to the old Ext end and append the new id. -/
def sr_shmmain_state_add_evpipe (s : St) (ctx pid ev : Nat) : St × Option SrErr :=
  match idxOf? (connMatch ctx pid) s.main.conn_state.items with
  | Option.none => (s, Option.some SrErr.notFound)
  | Option.some _ =>
    let evpipes_off := s.ext_size
    match idxOf? (connMatch ctx pid) s.main.conn_state.items with
    | Option.none => (s, Option.some SrErr.internal)
    | Option.some (i, c) =>
      let cnt := c.evpipes.items.length
      ({ s with
         ext_size := evpipes_off + (cnt + 1) * szU32
         wasted := s.wasted + cnt * szU32
         main := { s.main with conn_state :=
           ⟨s.main.conn_state.off,
            s.main.conn_state.items.set i
              { c with evpipes := ⟨evpipes_off, c.evpipes.items ++ [ev]⟩ }⟩ } },
       Option.none)

/-- `sr_shmmain_state_del_evpipe`: silently a no-op when the connection or the
evpipe id is not found; otherwise waste one id and swap-remove it. -/
def sr_shmmain_state_del_evpipe (s : St) (ctx pid ev : Nat) : St :=
  match idxOf? (connMatch ctx pid) s.main.conn_state.items with
  | Option.none => s
  | Option.some (i, c) =>
    match idxOf? (fun e => e == ev) c.evpipes.items with
    | Option.none => s
    | Option.some (j, _) =>
      let items := swapRemove c.evpipes.items j
      { s with
        wasted := s.wasted + szU32
        main := { s.main with conn_state :=
          ⟨s.main.conn_state.off,
           s.main.conn_state.items.set i
             { c with evpipes :=
               ⟨if items.isEmpty then 0 else c.evpipes.off, items⟩ }⟩ } }

/-! ## RPCs and their subscriptions (`shm_main.c` lines 1690-2018) -/

/-- `sr_shmmain_find_module` searching by name string. -/
def sr_shmmain_find_module (mods : List SrMod) (name : String) : Option SrMod :=
  mods.find? (fun m => m.name.val == name)

/-- `sr_shmmain_find_rpc` searching by op-path string. -/
def sr_shmmain_find_rpc_by_path (s : St) (op : String) : Option (Nat × Rpc) :=
  idxOf? (fun r => r.op_path.val == op) s.main.rpc.items

/-- `sr_shmmain_find_rpc` searching by op-path offset. -/
def sr_shmmain_find_rpc_by_off (s : St) (off : Nat) : Option (Nat × Rpc) :=
  idxOf? (fun r => r.op_path.off == off) s.main.rpc.items

/-- `sr_shmmain_add_rpc`: remap Ext for the moved RPC array plus one record and
the op-path string, waste the old array, move it, append the new RPC with no
subscriptions. -/
def sr_shmmain_add_rpc (s : St) (op_path : String) : St :=
  let n := s.main.rpc.items.length
  let rpc_subs_off := s.ext_size
  let op_path_off := rpc_subs_off + (n + 1) * szRpc
  { s with
    ext_size := op_path_off + shmlen op_path
    wasted := s.wasted + n * szRpc
    main := { s.main with rpc :=
      ⟨rpc_subs_off, s.main.rpc.items ++ [⟨⟨op_path_off, op_path⟩, ⟨0, []⟩⟩]⟩ } }

/-- `sr_shmmain_del_rpc` (by op-path offset, as the recovery sweep calls it):
waste the record and its op path, swap-remove it, clear the anchor at zero. -/
def sr_shmmain_del_rpc_by_off (s : St) (op_path_off : Nat) : St × Option SrErr :=
  match idxOf? (fun r => r.op_path.off == op_path_off) s.main.rpc.items with
  | Option.none => (s, Option.some SrErr.internal)
  | Option.some (i, r) =>
    let items := swapRemove s.main.rpc.items i
    ({ s with
       wasted := s.wasted + szRpc + shmlen r.op_path.val
       main := { s.main with rpc :=
         ⟨if items.isEmpty then 0 else s.main.rpc.off, items⟩ } },
     Option.none)

/-- `sr_shmmain_rpc_subscription_add` (the RPC record is identified by its
index in the RPC array; the C caller passes its Ext offset): remap for the
moved subscription array plus the new entry and its xpath, waste the old
array, move it, append the new subscription. -/
def sr_shmmain_rpc_subscription_add (s : St) (ri : Nat) (xpath : String)
    (priority opts ev : Nat) : St :=
  match s.main.rpc.items[ri]? with
  | Option.none => s
  | Option.some r =>
    let subs_off := s.ext_size
    let xpath_off := subs_off + (r.subs.items.length + 1) * szRpcSub
    { s with
      ext_size := xpath_off + shmlen xpath
      wasted := s.wasted + r.subs.items.length * szRpcSub
      main := { s.main with rpc :=
        ⟨s.main.rpc.off,
         s.main.rpc.items.set ri { r with subs :=
           ⟨subs_off,
            r.subs.items ++ [⟨⟨xpath_off, xpath⟩, priority, opts, ev⟩]⟩ }⟩ } }

/-- The scan-and-swap-remove loop of `sr_shmmain_rpc_subscription_del` in
`all_evpipe` mode (the `continue_loop` goto): test index `i`; on a match
swap-remove and retest the element moved into the hole, otherwise advance.
Returns the kept list and the removed elements. -/
def sweepDel {α : Type} (p : α → Bool) (l : List α) (i : Nat) : List α × List α :=
  if h : i < l.length then
    if p l[i] then
      let r := sweepDel p (swapRemove l i) i
      (r.1, l[i] :: r.2)
    else sweepDel p l (i + 1)
  else (l, [])
termination_by (l.length, l.length - i)
decreasing_by
  · have hne : l ≠ [] := by
      intro hc; subst hc; simp at h
    have hlen : (swapRemove l i).length = l.length - 1 := by
      cases hx : l.getLast? with
      | none => exact absurd (List.getLast?_eq_none_iff.mp hx) hne
      | some x => simp [swapRemove, hx]
    exact Prod.Lex.left _ _ (by omega)
  · exact Prod.Lex.right _ (by omega)

/-- Wasted bytes of one removed RPC subscription: the record plus its xpath. -/
def rpcSubWasted (u : RpcSub) : Nat := szRpcSub + shmlen u.xpath.val

/-- `sr_shmmain_rpc_subscription_del`.  In `all_evpipe` mode every subscription
of the RPC with the given evpipe id is removed (scan-and-swap loop) and a
missing match is success; otherwise the first subscription with the given
xpath and priority is removed and a missing match is an internal error.
Returns (state, `last_removed`, error). -/
def sr_shmmain_rpc_subscription_del (s : St) (ri : Nat) (xpath : String)
    (priority ev : Nat) (all_evpipe : Bool) : St × Bool × Option SrErr :=
  match s.main.rpc.items[ri]? with
  | Option.none => (s, false, Option.some SrErr.internal)
  | Option.some r =>
    if all_evpipe then
      let kr := sweepDel (fun u => u.evpipe_num == ev) r.subs.items 0
      if kr.2.isEmpty then (s, false, Option.none)
      else
        let last := kr.1.isEmpty
        ({ s with
           wasted := s.wasted + (kr.2.map rpcSubWasted).sum
           main := { s.main with rpc :=
             ⟨s.main.rpc.off,
              s.main.rpc.items.set ri { r with subs :=
                ⟨if last then 0 else r.subs.off, kr.1⟩ }⟩ } },
         last, Option.none)
    else
      match idxOf? (fun u => u.xpath.val == xpath && u.priority == priority) r.subs.items with
      | Option.none => (s, false, Option.some SrErr.internal)
      | Option.some (j, u) =>
        let items := swapRemove r.subs.items j
        let last := items.isEmpty
        ({ s with
           wasted := s.wasted + rpcSubWasted u
           main := { s.main with rpc :=
             ⟨s.main.rpc.off,
              s.main.rpc.items.set ri { r with subs :=
                ⟨if last then 0 else r.subs.off, items⟩ }⟩ } },
         last, Option.none)

/-! ## Main lock bookkeeping (`shm_main.c` lines 1728-1836)

The process-shared rwlock itself (`sr_rwlock`, `sr_rwlock_with_recovery`) is
not part of the sources.  Modelled from the spec: a successful shared
acquisition increments the Main lock's reader counter and a shared release
decrements it; write acquisition leaves it untouched.  The per-connection
bookkeeping is translated from the code. -/

/-- `sr_shmmain_lock_remap` (bookkeeping part; `remap`/`lydmods` do not touch
the state modelled here).  `wrNoState` skips the per-connection bookkeeping;
shared mode records the recursive read lock in the caller's connection
record.  When the caller has no connection record the locks are released
again and an internal error is returned. -/
def sr_shmmain_lock_remap (s : St) (ctx pid : Nat) (mode : LMode) : St × Option SrErr :=
  let s1 := if mode = LMode.rdLock then
      { s with main := { s.main with readers := s.main.readers + 1 } }
    else s
  if mode = LMode.wrNoState then (s1, Option.none)
  else
    match idxOf? (connMatch ctx pid) s1.main.conn_state.items with
    | Option.none => (s, Option.some SrErr.internal)
    | Option.some (i, c) =>
      let c' := if mode = LMode.rdLock then
          { c with lock := ⟨LMode.rdLock, c.lock.main_rcount + 1⟩ }
        else { c with lock := ⟨mode, c.lock.main_rcount⟩ }
      ({ s1 with main := { s1.main with conn_state :=
          ⟨s1.main.conn_state.off, s1.main.conn_state.items.set i c'⟩ } },
       Option.none)

/-- `sr_shmmain_unlock` (bookkeeping part): shared mode decrements the
caller's `main_rcount`, clearing the summary exactly at zero, and releases one
reader of the Main lock; `wrNoState` performs no per-connection bookkeeping. -/
def sr_shmmain_unlock (s : St) (ctx pid : Nat) (mode : LMode) : St :=
  let s1 := if mode = LMode.wrNoState then s
    else
      match idxOf? (connMatch ctx pid) s.main.conn_state.items with
      | Option.none => s
      | Option.some (i, c) =>
        let c' := if mode = LMode.rdLock then
            { c with lock :=
              ⟨if c.lock.main_rcount - 1 = 0 then LMode.noLock else LMode.rdLock,
               c.lock.main_rcount - 1⟩ }
          else { c with lock := ⟨LMode.noLock, c.lock.main_rcount⟩ }
        { s with main := { s.main with conn_state :=
            ⟨s.main.conn_state.off, s.main.conn_state.items.set i c'⟩ } }
  if mode = LMode.rdLock then
    { s1 with main := { s1.main with readers := s1.main.readers - 1 } }
  else s1

/-! ## Defragmentation (`shm_main.c` lines 353-599)

The defragmenter walks every typed Ext object in a fixed order and rewrites it
into a fresh dense buffer, threading a cursor (`ext_buf_cur`).  `sr_shmcpy` /
`sr_shmstrcpy` (common.c, not in src/) are modelled from the spec's offset
allocator (§4.4): append at the cursor, return the old cursor as the offset; a
zero-byte copy yields the null offset (offset 0 = "absent", §3). -/

/-- Modelled from the spec: `sr_shmcpy` — returns (offset of the copy, new
cursor); a zero-byte allocation yields offset 0. -/
def shmAlloc (cur size : Nat) : Nat × Nat :=
  if size = 0 then (0, cur) else (cur, cur + size)

/-- One record of the inner loop of `sr_shmmain_defrag_copy_data_deps`: a
present module reference is re-pointed at the (already re-copied) name of the
module it names, found by name lookup (lines 383-393).  A failing lookup
would dereference NULL in C; it is unreachable under the well-formedness
hypotheses of the theorems and the model keeps the old reference. -/
def dataDepPoint (mods : List SrMod) (d : DataDep) : DataDep :=
  if d.module.off ≠ 0 then
    match sr_shmmain_find_module mods d.module.val with
    | Option.some m => { d with module := m.name }
    | Option.none => d
  else d

/-- One record of the loop: a present xpath is copied at the cursor
(lines 395-399). -/
def dataDepXpath (d : DataDep) (cur : Nat) : DataDep × Nat :=
  if d.xpath.off ≠ 0
  then ({ d with xpath := ⟨cur, d.xpath.val⟩ }, cur + shmlen d.xpath.val)
  else (d, cur)

/-- The inner loop of `sr_shmmain_defrag_copy_data_deps`: after the records
were copied wholesale, re-point each module reference and copy each xpath. -/
def copyDataDepItems (mods : List SrMod) : List DataDep → Nat → List DataDep × Nat
  | [], cur => ([], cur)
  | d :: t, cur =>
    let s2 := dataDepXpath (dataDepPoint mods d) cur
    let rest := copyDataDepItems mods t s2.2
    (s2.1 :: rest.1, rest.2)

/-- `sr_shmmain_defrag_copy_data_deps` (lines 364-405). -/
def sr_shmmain_defrag_copy_data_deps (mods : List SrMod) (a : ShmArr DataDep)
    (cur : Nat) : ShmArr DataDep × Nat :=
  if a.off = 0 ∧ a.items.length = 0 then (⟨0, []⟩, cur)
  else
    let r := copyDataDepItems mods a.items (cur + a.items.length * szDataDep)
    (⟨cur, r.1⟩, r.2)

/-- `sr_shmmain_defrag_copy_inv_data_deps`, inner loop: each entry is re-pointed
at the re-copied name of the module it references. -/
def copyInvDepItems (mods : List SrMod) : List ShmStr → List ShmStr
  | [] => []
  | d :: t =>
    (match sr_shmmain_find_module mods d.val with
     | Option.some m => m.name
     | Option.none => d) :: copyInvDepItems mods t

/-- `sr_shmmain_defrag_copy_inv_data_deps` (lines 418-450). -/
def sr_shmmain_defrag_copy_inv_data_deps (mods : List SrMod) (a : ShmArr ShmStr)
    (cur : Nat) : ShmArr ShmStr × Nat :=
  if a.off = 0 ∧ a.items.length = 0 then (⟨0, []⟩, cur)
  else (⟨cur, copyInvDepItems mods a.items⟩, cur + a.items.length * szOff)

/-- `sr_shmmain_defrag_copy_array_with_string`, inner loop: the first word of
each record is a string offset (generically accessed through `getS`/`setS`);
each present string is copied at the cursor. -/
def copyStrItems {α : Type} (getS : α → ShmStr) (setS : α → ShmStr → α) :
    List α → Nat → List α × Nat
  | [], cur => ([], cur)
  | x :: t, cur =>
    let s1 := if (getS x).off ≠ 0
      then (setS x ⟨cur, (getS x).val⟩, cur + shmlen (getS x).val)
      else (x, cur)
    let rest := copyStrItems getS setS t s1.2
    (s1.1 :: rest.1, rest.2)

/-- `sr_shmmain_defrag_copy_array_with_string` (lines 463-493): copy the whole
array, then the string of each item. -/
def sr_shmmain_defrag_copy_array_with_string {α : Type} (getS : α → ShmStr)
    (setS : α → ShmStr → α) (sz : Nat) (a : ShmArr α) (cur : Nat) : ShmArr α × Nat :=
  if a.off = 0 ∧ a.items.length = 0 then (⟨0, []⟩, cur)
  else
    let r := copyStrItems getS setS a.items (cur + a.items.length * sz)
    (⟨cur, r.1⟩, r.2)

/-- Defrag's second pass over one module's op deps: after the op-dep array and
all its xpaths were copied, copy the input and output data-dep arrays of each
op dep in order. -/
def copyOpDepDeps (mods : List SrMod) : List OpDep → Nat → List OpDep × Nat
  | [], cur => ([], cur)
  | o :: t, cur =>
    let rin := sr_shmmain_defrag_copy_data_deps mods o.in_deps cur
    let rout := sr_shmmain_defrag_copy_data_deps mods o.out_deps rin.2
    let rest := copyOpDepDeps mods t rout.2
    ({ o with in_deps := rin.1, out_deps := rout.1 } :: rest.1, rest.2)

/-- Defrag of the per-datastore change subscription arrays (`change_sub[i]`,
`i < SR_DS_COUNT`, in order). -/
def copyChangeSubLists : List (ShmArr ChangeSub) → Nat → List (ShmArr ChangeSub) × Nat
  | [], cur => ([], cur)
  | a :: t, cur =>
    let r := sr_shmmain_defrag_copy_array_with_string
        (fun c => c.xpath) (fun c x => { c with xpath := x }) szChangeSub a cur
    let rest := copyChangeSubLists t r.2
    (r.1 :: rest.1, rest.2)

/-- Defrag pass 2 for one module (lines 526-562): features, data deps, inverse
data deps, op-dep array with xpaths, then each op dep's input/output arrays,
change subscriptions per datastore, operational subscriptions. -/
def defragMod (mods : List SrMod) (m : SrMod) (cur : Nat) : SrMod × Nat :=
  let rf := sr_shmmain_defrag_copy_array_with_string
      (fun f => f) (fun _ f => f) szOff m.features cur
  let rd := sr_shmmain_defrag_copy_data_deps mods m.data_deps rf.2
  let ri := sr_shmmain_defrag_copy_inv_data_deps mods m.inv_data_deps rd.2
  let rosh := sr_shmmain_defrag_copy_array_with_string
      (fun o => o.xpath) (fun o x => { o with xpath := x }) szOpDep m.op_deps ri.2
  let rod := copyOpDepDeps mods rosh.1.items rosh.2
  let rcs := copyChangeSubLists m.change_sub rod.2
  let ros := sr_shmmain_defrag_copy_array_with_string
      (fun c => c.xpath) (fun c x => { c with xpath := x }) szOperSub m.oper_subs rcs.2
  ({ m with
      features := rf.1
      data_deps := rd.1
      inv_data_deps := ri.1
      op_deps := ⟨rosh.1.off, rod.1⟩
      change_sub := rcs.1
      oper_subs := ros.1 },
   ros.2)

/-- Defrag pass 1 (lines 519-523): copy every module's name and re-point the
record's name offset. -/
def defragNames : List SrMod → Nat → List SrMod × Nat
  | [], cur => ([], cur)
  | m :: t, cur =>
    let rest := defragNames t (cur + shmlen m.name.val)
    ({ m with name := ⟨cur, m.name.val⟩ } :: rest.1, rest.2)

/-- Defrag pass 2 over all modules. -/
def defragModList (mods : List SrMod) : List SrMod → Nat → List SrMod × Nat
  | [], cur => ([], cur)
  | m :: t, cur =>
    let r := defragMod mods m cur
    let rest := defragModList mods t r.2
    (r.1 :: rest.1, rest.2)

/-- Defrag pass 3, per-connection evpipe arrays (lines 572-577). -/
def defragEvpipes : List ConnState → Nat → List ConnState × Nat
  | [], cur => ([], cur)
  | c :: t, cur =>
    let r := shmAlloc cur (c.evpipes.items.length * szU32)
    let rest := defragEvpipes t r.2
    ({ c with evpipes := ⟨r.1, c.evpipes.items⟩ } :: rest.1, rest.2)

/-- Defrag pass 4, per-RPC subscription arrays with their xpaths (lines 584-588). -/
def defragRpcSubs : List Rpc → Nat → List Rpc × Nat
  | [], cur => ([], cur)
  | r :: t, cur =>
    let rs := sr_shmmain_defrag_copy_array_with_string
        (fun u => u.xpath) (fun u x => { u with xpath := x }) szRpcSub r.subs cur
    let rest := defragRpcSubs t rs.2
    ({ r with subs := rs.1 } :: rest.1, rest.2)

/-- `sr_shmmain_ext_defrag` (lines 495-599): write a fresh wasted counter 0,
copy all module names, then all per-module arrays, then the connection state
array and each connection's evpipes, then the RPC array with each op path and
each RPC's subscriptions; fail with an internal error (freeing the buffer) if
the bytes written differ from `ext_size - wasted`; the caller swaps the buffer
in, so on success the new Ext size is `ext_size - wasted` and the new wasted
counter is 0. -/
def defragBuild (s : St) : St × Nat :=
  let cur := szWord
  let rn := defragNames s.mods cur
  let rm := defragModList rn.1 rn.1 rn.2
  let rc := shmAlloc rm.2 (s.main.conn_state.items.length * szConn)
  let re := defragEvpipes s.main.conn_state.items rc.2
  let rr := sr_shmmain_defrag_copy_array_with_string
      (fun r => r.op_path) (fun r x => { r with op_path := x }) szRpc s.main.rpc re.2
  let rs := defragRpcSubs rr.1.items rr.2
  ({ s with
      mods := rm.1
      main := { s.main with
        conn_state := ⟨rc.1, re.1⟩
        rpc := ⟨rr.1.off, rs.1⟩ }
      ext_size := s.ext_size - s.wasted
      wasted := 0 },
   rs.2)

/-- The final size assertion (lines 590-595) and the swap-in. -/
def sr_shmmain_ext_defrag (s : St) : Except SrErr St :=
  if (defragBuild s).2 = s.ext_size - s.wasted then Except.ok (defragBuild s).1
  else Except.error SrErr.internal

/-! ## Module installation (`shm_main.c` lines 988-1124, 1189-1607) -/

/-- `SR_DS_COUNT` — number of datastores (startup, running, operational). -/
def SR_DS_COUNT : Nat := 3

/-- One dependency in the internal sysrepo module data (`sr_mods` lyd tree):
either a reference to a module or an instance-identifier with an xpath and an
optional default module. -/
inductive LydDep
  | ref (module : String)
  | instid (xpath : String) (default_module : Option String)
deriving DecidableEq, Repr

/-- One op dependency in the internal module data: xpath plus input and output
dependency lists. -/
structure LydOpDep where
  xpath : String
  in_deps : List LydDep
  out_deps : List LydDep
deriving DecidableEq, Repr

/-- One module of the internal sysrepo module data. -/
structure LydMod where
  name : String
  rev : String
  replay : Bool
  features : List String
  data_deps : List LydDep
  inv_deps : List String
  op_deps : List LydOpDep
deriving DecidableEq, Repr

/-- Ext bytes one lyd data dependency will need (record + inst-id xpath),
`sr_shmmain_ext_get_lydmods_size` lines 1077-1091. -/
def lydDepSize (d : LydDep) : Nat :=
  szDataDep + (match d with
    | LydDep.ref _ => 0
    | LydDep.instid x _ => shmlen x)

/-- Ext bytes one lyd op dependency will need, lines 1095-1118. -/
def lydOpDepSize (o : LydOpDep) : Nat :=
  szOpDep + shmlen o.xpath
  + (o.in_deps.map lydDepSize).sum + (o.out_deps.map lydDepSize).sum

/-- Ext bytes one lyd module will need: name, features (offset + name each),
data deps, inverse deps, op deps. -/
def lydModSize (m : LydMod) : Nat :=
  shmlen m.name
  + (m.features.map (fun f => szOff + shmlen f)).sum
  + (m.data_deps.map lydDepSize).sum
  + m.inv_deps.length * szOff
  + (m.op_deps.map lydOpDepSize).sum

/-- `sr_shmmain_ext_get_lydmods_size` (lines 1059-1124). -/
def sr_shmmain_ext_get_lydmods_size (ms : List LydMod) : Nat :=
  (ms.map lydModSize).sum

/-- The per-RPC contribution of `sr_shmmain_ext_get_size_main_shm` (lines
1011-1022): op path, each subscription xpath, the subscription array. -/
def rpcSizeOf (r : Rpc) : Nat :=
  shmlen r.op_path.val
  + (r.subs.items.map (fun u => shmlen u.xpath.val)).sum
  + r.subs.items.length * szRpcSub

/-- The per-module contribution of `sr_shmmain_ext_get_size_main_shm` (lines
1026-1048).  Note line 1044: the code multiplies `shm_mod->oper_subs` — the
Ext OFFSET of the oper subscription array (dereferenced as an offset at line
1039) — by the record size, where the surrounding lines use the counts; the
faithful translation is `m.oper_subs.off * szOperSub`. -/
def modSizeOf (m : SrMod) : Nat :=
  (m.change_sub.map changeSubsBytes).sum
  + (m.oper_subs.items.map (fun u => shmlen u.xpath.val)).sum
  + m.oper_subs.off * szOperSub
  + m.notif_subs.length * szNotifSub

/-- `sr_shmmain_ext_get_size_main_shm` (lines 988-1051): Ext space taken by
connection state, RPCs and their subscriptions, and existing module
subscriptions. -/
def sr_shmmain_ext_get_size_main_shm (s : St) : Nat :=
  (s.main.conn_state.items.map connLiveBytes).sum
  + (s.main.rpc.items.map rpcSizeOf).sum + s.main.rpc.items.length * szRpc
  + (s.mods.map modSizeOf).sum

/-- The intended per-module size (what lines 1026-1048 compute with the count
fields, as the neighbouring lines and the asserts use them). -/
def modSizeOfIntended (m : SrMod) : Nat :=
  (m.change_sub.map changeSubsBytes).sum
  + (m.oper_subs.items.map (fun u => shmlen u.xpath.val)).sum
  + m.oper_subs.items.length * szOperSub
  + m.notif_subs.length * szNotifSub

/-- First add pass, feature names (lines 1310-1318): copy each feature name at
the cursor. -/
def copyFeatNames : List String → Nat → List ShmStr × Nat
  | [], cur => ([], cur)
  | f :: t, cur =>
    let rest := copyFeatNames t (cur + shmlen f)
    (⟨cur, f⟩ :: rest.1, rest.2)

/-- `sr_shmmain_add_modules` (lines 1260-1327): for each new module copy its
name, revision and replay flag, allocate the feature array and copy the
feature names; dependency arrays stay null (the record is zeroed). -/
def sr_shmmain_add_modules : List LydMod → Nat → List SrMod × Nat
  | [], cur => ([], cur)
  | m :: t, cur =>
    let nameOff := cur
    let rfeat := shmAlloc (cur + shmlen m.name) (m.features.length * szOff)
    let rnames := copyFeatNames m.features rfeat.2
    let newMod : SrMod :=
      { name := ⟨nameOff, m.name⟩
        rev := m.rev
        flags := if m.replay then 1 else 0
        ver := 1
        features := ⟨rfeat.1, rnames.1⟩
        data_deps := ⟨0, []⟩
        inv_data_deps := ⟨0, []⟩
        op_deps := ⟨0, []⟩
        change_sub := List.replicate SR_DS_COUNT ⟨0, []⟩
        oper_subs := ⟨0, []⟩
        notif_subs := [] }
    let rest := sr_shmmain_add_modules t rnames.2
    (newMod :: rest.1, rest.2)

/-- Wasted bytes freed by `sr_shmmain_del_modules_deps` for one module (lines
1483-1535): data-dep records and their xpaths, the inverse array, op-dep
records with their xpaths and input/output arrays. -/
def delModDepsWasted (m : SrMod) : Nat :=
  dataDepsBytes m.data_deps
  + m.inv_data_deps.items.length * szOff
  + m.op_deps.items.length * szOpDep + (m.op_deps.items.map opDepBytes).sum

/-- `sr_shmmain_del_modules_deps` (lines 1472-1540): free every module's
dependency arrays, returning the cleared modules and the bytes added to
wasted. -/
def sr_shmmain_del_modules_deps (mods : List SrMod) : List SrMod × Nat :=
  (mods.map (fun m =>
     { m with data_deps := ⟨0, []⟩, inv_data_deps := ⟨0, []⟩, op_deps := ⟨0, []⟩ }),
   (mods.map delModDepsWasted).sum)

/-- `sr_shmmain_fill_data_deps` (lines 1189-1249): build the data-dep records,
resolving module references by name lookup (an unresolvable name is an
internal error) and copying inst-id xpaths at the cursor. -/
def sr_shmmain_fill_data_deps (mods : List SrMod) :
    List LydDep → Nat → Except SrErr (List DataDep × Nat)
  | [], cur => Except.ok ([], cur)
  | LydDep.ref mn :: t, cur =>
    match sr_shmmain_find_module mods mn with
    | Option.none => Except.error SrErr.internal
    | Option.some rm => do
      let rest ← sr_shmmain_fill_data_deps mods t cur
      Except.ok (⟨DepType.ref, rm.name, ⟨0, ""⟩⟩ :: rest.1, rest.2)
  | LydDep.instid x dm :: t, cur => do
    let mref ← match dm with
      | Option.none => Except.ok (⟨0, ""⟩ : ShmStr)
      | Option.some n =>
        match sr_shmmain_find_module mods n with
        | Option.none => Except.error SrErr.internal
        | Option.some rm => Except.ok rm.name
    let rest ← sr_shmmain_fill_data_deps mods t (cur + shmlen x)
    Except.ok (⟨DepType.instid, mref, ⟨cur, x⟩⟩ :: rest.1, rest.2)

/-- Inverse-dep entries (lines 1397-1404): each names an existing module. -/
def fillInvDeps (mods : List SrMod) : List String → Except SrErr (List ShmStr)
  | [] => Except.ok []
  | n :: t =>
    match sr_shmmain_find_module mods n with
    | Option.none => Except.error SrErr.internal
    | Option.some m => do
      let rest ← fillInvDeps mods t
      Except.ok (m.name :: rest)

/-- Op-dep filling (lines 1405-1451): per op dep, copy its xpath, then
allocate and fill the input array, then the output array. -/
def fillOpDeps (mods : List SrMod) : List LydOpDep → Nat → Except SrErr (List OpDep × Nat)
  | [], cur => Except.ok ([], cur)
  | o :: t, cur => do
    let xOff := cur
    let rin := shmAlloc (cur + shmlen o.xpath) (o.in_deps.length * szDataDep)
    let ind ← sr_shmmain_fill_data_deps mods o.in_deps rin.2
    let rout := shmAlloc ind.2 (o.out_deps.length * szDataDep)
    let outd ← sr_shmmain_fill_data_deps mods o.out_deps rout.2
    let rest ← fillOpDeps mods t outd.2
    Except.ok (⟨⟨xOff, o.xpath⟩, ⟨rin.1, ind.1⟩, ⟨rout.1, outd.1⟩⟩ :: rest.1, rest.2)

/-- `sr_shmmain_add_modules_deps` (lines 1339-1463): for every module (paired
with its lyd data) allocate the three dependency arrays back to back, then
fill them, copying xpaths at the cursor. -/
def sr_shmmain_add_modules_deps (allMods : List SrMod) :
    List (LydMod × SrMod) → Nat → Except SrErr (List SrMod × Nat)
  | [], cur => Except.ok ([], cur)
  | (ly, m) :: t, cur => do
    let rdd := shmAlloc cur (ly.data_deps.length * szDataDep)
    let rinv := shmAlloc rdd.2 (ly.inv_deps.length * szOff)
    let rod := shmAlloc rinv.2 (ly.op_deps.length * szOpDep)
    let dd ← sr_shmmain_fill_data_deps allMods ly.data_deps rod.2
    let inv ← fillInvDeps allMods ly.inv_deps
    let od ← fillOpDeps allMods ly.op_deps dd.2
    let rest ← sr_shmmain_add_modules_deps allMods t od.2
    Except.ok
      ({ m with
          data_deps := ⟨rdd.1, dd.1⟩
          inv_data_deps := ⟨rinv.1, inv⟩
          op_deps := ⟨rod.1, od.1⟩ } :: rest.1, rest.2)

/-- `sr_shmmain_add` (lines 1542-1607): install the new modules of `allLyd`
(the suffix after the current module count; the prefix describes the already
installed modules).  Grow Main by one record per new module; precompute the
required Ext size as `sizeof(size_t)` + current main-SHM content + lyd
content and grow Ext to it plus wasted; run the first add pass at the old Ext
end; free all dependency arrays of all modules; re-grow Ext for the newly
wasted bytes; rebuild every module's dependencies; fail with an internal
error unless the final Ext end equals the precomputed size plus wasted.
On an unresolvable dependency the C code returns leaving Ext partially
written; the model returns the pre-rebuild state (the theorems' hypotheses
rule this path out). -/
def sr_shmmain_add (s : St) (allLyd : List LydMod) : St × Option SrErr :=
  let newLyd := allLyd.drop s.mods.length
  let ext_end0 := s.ext_size
  let new_ext_size := szWord + sr_shmmain_ext_get_size_main_shm s
      + sr_shmmain_ext_get_lydmods_size allLyd
  let ra := sr_shmmain_add_modules newLyd ext_end0
  let rd := sr_shmmain_del_modules_deps (s.mods ++ ra.1)
  let wasted2 := s.wasted + rd.2
  let s2 := { s with
    mods := rd.1
    wasted := wasted2
    ext_size := new_ext_size + wasted2 }
  match sr_shmmain_add_modules_deps rd.1 (allLyd.zip rd.1) ra.2 with
  | Except.error e => (s2, Option.some e)
  | Except.ok rb =>
    let s3 := { s2 with mods := rb.1 }
    if rb.2 = new_ext_size + wasted2 then (s3, Option.none)
    else (s3, Option.some SrErr.internal)

/-! ## Recovery sweep (`shm_main.c` lines 893-978) -/

/-- Modelled from the spec: `sr_shmmod_change_subscription_del` (shm_mod.c,
not in src/) in bulk by-evpipe mode, §4.8: delete every matching entry, bump
wasted by the record plus its present xpath for each, clear the anchor when
the array empties (iteration order is not preserved).  Returns the new array
and the wasted bytes. -/
def sr_shmmod_change_subscription_del (a : ShmArr ChangeSub) (ev : Nat) :
    ShmArr ChangeSub × Nat :=
  let kept := a.items.filter (fun c => c.evpipe_num != ev)
  let removed := a.items.filter (fun c => c.evpipe_num == ev)
  (⟨if kept.length = 0 ∧ removed.length ≠ 0 then 0 else a.off, kept⟩,
   (removed.map (fun c => szChangeSub + strBytes c.xpath)).sum)

/-- Modelled from the spec: `sr_shmmod_oper_subscription_del` (shm_mod.c, not
in src/) in bulk by-evpipe mode, §4.8. -/
def sr_shmmod_oper_subscription_del (a : ShmArr OperSub) (ev : Nat) :
    ShmArr OperSub × Nat :=
  let kept := a.items.filter (fun c => c.evpipe_num != ev)
  let removed := a.items.filter (fun c => c.evpipe_num == ev)
  (⟨if kept.length = 0 ∧ removed.length ≠ 0 then 0 else a.off, kept⟩,
   (removed.map (fun c => szOperSub + strBytes c.xpath)).sum)

/-- Modelled from the spec: `sr_shmmod_notif_subscription_del` (shm_mod.c, not
in src/) in bulk by-evpipe mode; notification subscriptions occupy no Ext
bytes, so only the count changes. -/
def sr_shmmod_notif_subscription_del (l : List NotifSub) (ev : Nat) : List NotifSub :=
  l.filter (fun n => n.evpipe_num != ev)

/-- Modelled from the spec: `sr_shmmod_oper_stored_del_conn` — the external
operational-store interface `erase_for_connection(conn_ctx, pid)` (§6). -/
def sr_shmmod_oper_stored_del_conn (s : St) (ctx pid : Nat) : St :=
  { s with oper_data := s.oper_data.filter (fun p => !(p.1 == ctx && p.2 == pid)) }

/-- Stale-subscription removal in one module for one dead evpipe (lines
929-946): change subscriptions of every datastore, then operational, then
notification subscriptions (`sr_module_update_oper_diff` touches only the
external operational datastore and is not modelled). -/
def modDelEvpipe (m : SrMod) (ev : Nat) : SrMod × Nat :=
  let rcs := m.change_sub.map (fun a => sr_shmmod_change_subscription_del a ev)
  let ros := sr_shmmod_oper_subscription_del m.oper_subs ev
  ({ m with
      change_sub := rcs.map Prod.fst
      oper_subs := ros.1
      notif_subs := sr_shmmod_notif_subscription_del m.notif_subs ev },
   (rcs.map Prod.snd).sum + ros.2)

/-- The RPC walk of the recovery sweep for one dead evpipe (lines 949-962):
`for (k = 0; k < main_shm->rpc_sub_count; ++k)` delete matching subscriptions
of RPC `k` in bulk; when the last one was removed, delete the RPC record (by
its op-path offset) — the RPC swapped into slot `k` is then skipped by the
`++k`.  `fuel` bounds the iterations (the C loop terminates because `k`
strictly increases while the count never grows). -/
def recoverRpcLoop (s : St) (ev : Nat) : Nat → Nat → St
  | _, 0 => s
  | k, Nat.succ fuel =>
    if h : k < s.main.rpc.items.length then
      let r := s.main.rpc.items[k]
      let rdel := sr_shmmain_rpc_subscription_del s k "" 0 ev true
      let s2 := if rdel.2.1 then (sr_shmmain_del_rpc_by_off rdel.1 r.op_path.off).1
        else rdel.1
      recoverRpcLoop s2 ev (k + 1) fuel
    else s

/-- Recovery work for one dead evpipe (lines 928-962): walk every module, then
walk the RPC array. -/
def recoverEvpipe (s : St) (ev : Nat) : St :=
  let mr := s.mods.map (fun m => modDelEvpipe m ev)
  let s1 := { s with
    mods := mr.map Prod.fst
    wasted := s.wasted + (mr.map Prod.snd).sum }
  recoverRpcLoop s1 ev 0 s1.main.rpc.items.length

/-- Recovery of one dead connection record at index `i` (lines 909-971):
roll back its recorded read locks from the Main lock reader counter (only a
held read lock is supported; otherwise an internal error is logged and
nothing is subtracted), delete its stale subscriptions for each owned evpipe,
delete the connection record, then erase stored operational data — keyed by
re-reading slot `i` AFTER the deletion (lines 966-969), i.e. by the record
swapped into the hole (when the deleted record was the last one the stale
slot still holds it). -/
def recoverDeadConn (s : St) (i : Nat) (c : ConnState) : St :=
  let readers1 := match c.lock.main with
    | LMode.rdLock => s.main.readers - c.lock.main_rcount
    | _ => s.main.readers
  let s1 := { s with main := { s.main with readers := readers1 } }
  let s2 := c.evpipes.items.foldl recoverEvpipe s1
  let s3 := sr_shmmain_state_del_conn s2 c.conn_ctx c.pid
  let key := match s3.main.conn_state.items[i]? with
    | Option.some c2 => (c2.conn_ctx, c2.pid)
    | Option.none => (c.conn_ctx, c.pid)
  sr_shmmod_oper_stored_del_conn s3 key.1 key.2

/-- The sweep loop (lines 907-975): `while (i < conn_count)` — a live record
advances `i`, a dead record is recovered and the loop retests slot `i` (now
holding the swapped-in record).  The guard `h2` is the loop variant: the C
loop relies on the dead record being found and removed, which its callers
guarantee; were it not, the C code would loop forever. -/
def recoverLoop (live : Nat → Bool) (s : St) (i : Nat) : St :=
  if h : i < s.main.conn_state.items.length then
    let c := s.main.conn_state.items[i]
    if live c.pid then recoverLoop live s (i + 1)
    else
      let s2 := recoverDeadConn s i c
      if h2 : s2.main.conn_state.items.length < s.main.conn_state.items.length then
        recoverLoop live s2 i
      else s2
  else s
termination_by (s.main.conn_state.items.length, s.main.conn_state.items.length - i)
decreasing_by
  · exact Prod.Lex.right _ (by omega)
  · exact Prod.Lex.left _ _ h2

/-- `sr_shmmain_state_recover` (lines 893-978); `live` is the liveness probe
`sr_process_exists` (signal 0 to the PID). -/
def sr_shmmain_state_recover (live : Nat → Bool) (s : St) : St :=
  recoverLoop live s 0

/-! ## Concrete fixtures (witness states) -/

/-- A connection with no evpipes and no held lock. -/
def wConn1 : ConnState := ⟨1, 100, ⟨0, []⟩, ⟨LMode.noLock, 0⟩⟩

/-- A connection owning evpipe 7. -/
def wConn2 : ConnState := ⟨2, 200, ⟨16, [7]⟩, ⟨LMode.noLock, 0⟩⟩

/-- An RPC with one subscription for evpipe 7. -/
def wRpc : Rpc := ⟨⟨40, "/m:op"⟩, ⟨60, [⟨⟨80, "/m:op/x"⟩, 3, 0, 7⟩]⟩⟩

/-- A small witness state: two connections, one RPC, no modules. -/
def wSt : St :=
  { main := { readers := 0, rpc := ⟨30, [wRpc]⟩, conn_state := ⟨8, [wConn1, wConn2]⟩ }
    mods := []
    ext_size := 200
    wasted := 0
    oper_data := [(1, 100), (2, 200)] }

/-- A compact, well-formed fixture: `wSt` with `ext_size` chosen so that the
accounting invariant `I2` holds (`szWord + liveBytes + wasted = ext_size`). -/
def w2St : St := { wSt with ext_size := szWord + liveBytes wSt }

/-- A module with one operational subscription, for exercising the install
size computation: the oper-subscription array anchor sits at Ext offset 10
while its count is 1. -/
def bMod : SrMod :=
  { name := ⟨8, "m"⟩
    rev := ""
    flags := 0
    ver := 1
    features := ⟨0, []⟩
    data_deps := ⟨0, []⟩
    inv_data_deps := ⟨0, []⟩
    op_deps := ⟨0, []⟩
    change_sub := List.replicate SR_DS_COUNT ⟨0, []⟩
    oper_subs := ⟨10, [⟨⟨34, "/x"⟩, 0, 5⟩]⟩
    notif_subs := [] }

/-- The lyd description of the already installed module `m`. -/
def lyM : LydMod :=
  { name := "m", rev := "", replay := false, features := []
    data_deps := [], inv_deps := [], op_deps := [] }

/-- The lyd description of the new module `n` to install. -/
def lyN : LydMod :=
  { name := "n", rev := "", replay := false, features := []
    data_deps := [], inv_deps := [], op_deps := [] }

/-- A well-formed state holding only module `bMod`: invariant I2 holds
(8 + 29 live bytes + 0 wasted = 37). -/
def bSt : St :=
  { main := { readers := 0, rpc := ⟨0, []⟩, conn_state := ⟨0, []⟩ }
    mods := [bMod]
    ext_size := 37
    wasted := 0
    oper_data := [] }

/-! ## The operations of this file as one step type (claims C4 and C9) -/

/-- One mutating operation of `shm_main.c` on the modelled state. -/
inductive Op
  | addConn (ctx pid : Nat)
  | delConn (ctx pid : Nat)
  | addEvpipe (ctx pid ev : Nat)
  | delEvpipe (ctx pid ev : Nat)
  | addRpc (op_path : String)
  | delRpc (op_path_off : Nat)
  | rpcSubAdd (ri : Nat) (xpath : String) (priority opts ev : Nat)
  | rpcSubDel (ri : Nat) (xpath : String) (priority ev : Nat) (all_evpipe : Bool)
  | lock (ctx pid : Nat) (mode : LMode)
  | unlock (ctx pid : Nat) (mode : LMode)
  | defrag
  | install (allLyd : List LydMod)
  | recover (live : Nat → Bool)

/-- Apply one operation, keeping the resulting state (an operation that fails
leaves the state it produced on its error path). -/
def applyOp (s : St) : Op → St
  | Op.addConn ctx pid => sr_shmmain_state_add_conn s ctx pid
  | Op.delConn ctx pid => sr_shmmain_state_del_conn s ctx pid
  | Op.addEvpipe ctx pid ev => (sr_shmmain_state_add_evpipe s ctx pid ev).1
  | Op.delEvpipe ctx pid ev => sr_shmmain_state_del_evpipe s ctx pid ev
  | Op.addRpc p => sr_shmmain_add_rpc s p
  | Op.delRpc off => (sr_shmmain_del_rpc_by_off s off).1
  | Op.rpcSubAdd ri x pr opts ev => sr_shmmain_rpc_subscription_add s ri x pr opts ev
  | Op.rpcSubDel ri x pr ev all => (sr_shmmain_rpc_subscription_del s ri x pr ev all).1
  | Op.lock ctx pid m => (sr_shmmain_lock_remap s ctx pid m).1
  | Op.unlock ctx pid m => sr_shmmain_unlock s ctx pid m
  | Op.defrag =>
    match sr_shmmain_ext_defrag s with
    | Except.ok s2 => s2
    | Except.error _ => s
  | Op.install lyd => (sr_shmmain_add s lyd).1
  | Op.recover live => sr_shmmain_state_recover live s

/-! ## Defragmentation write order (claim C6)

Two descriptions of the op-dep section of the per-module pass: the claim's
per-op-dep grouping, and the order amended to what the code does. -/

/-- Spec-side, from claim C6's words: for each op dep, its xpath, then its
input data-dep array, then its output data-dep array. -/
def opDepItemsClaimed (mods : List SrMod) : List OpDep → Nat → List OpDep × Nat
  | [], cur => ([], cur)
  | o :: t, cur =>
    let s1 := if o.xpath.off ≠ 0
      then ((⟨cur, o.xpath.val⟩ : ShmStr), cur + shmlen o.xpath.val)
      else (o.xpath, cur)
    let rin := sr_shmmain_defrag_copy_data_deps mods o.in_deps s1.2
    let rout := sr_shmmain_defrag_copy_data_deps mods o.out_deps rin.2
    let rest := opDepItemsClaimed mods t rout.2
    ({ o with xpath := s1.1, in_deps := rin.1, out_deps := rout.1 } :: rest.1,
     rest.2)

/-- Spec-side, from claim C6's words: the op-deps array, then for each op dep
its xpath followed by its input then output data-dep arrays. -/
def opDepPassClaimed (mods : List SrMod) (a : ShmArr OpDep) (cur : Nat) :
    ShmArr OpDep × Nat :=
  if a.off = 0 ∧ a.items.length = 0 then (⟨0, []⟩, cur)
  else
    let r := opDepItemsClaimed mods a.items (cur + a.items.length * szOpDep)
    (⟨cur, r.1⟩, r.2)

/-- Spec-side, from claim C6's words: the whole per-module pass in the
claimed order (only the op-dep section differs from the code's). -/
def defragModClaimed (mods : List SrMod) (m : SrMod) (cur : Nat) : SrMod × Nat :=
  let rf := sr_shmmain_defrag_copy_array_with_string
      (fun f => f) (fun _ f => f) szOff m.features cur
  let rd := sr_shmmain_defrag_copy_data_deps mods m.data_deps rf.2
  let ri := sr_shmmain_defrag_copy_inv_data_deps mods m.inv_data_deps rd.2
  let ro := opDepPassClaimed mods m.op_deps ri.2
  let rcs := copyChangeSubLists m.change_sub ro.2
  let ros := sr_shmmain_defrag_copy_array_with_string
      (fun c => c.xpath) (fun c x => { c with xpath := x }) szOperSub m.oper_subs rcs.2
  ({ m with
      features := rf.1
      data_deps := rd.1
      inv_data_deps := ri.1
      op_deps := ro.1
      change_sub := rcs.1
      oper_subs := ros.1 },
   ros.2)

/-- Spec-side, from the AMENDED claim text: the op-deps array, then every op
dep's xpath in op-dep order, then for each op dep its input and then its
output data-dep array. -/
def opDepPassAmended (mods : List SrMod) (a : ShmArr OpDep) (cur : Nat) :
    ShmArr OpDep × Nat :=
  let rsh := sr_shmmain_defrag_copy_array_with_string
      (fun o => o.xpath) (fun o x => { o with xpath := x }) szOpDep a cur
  let rdeps := copyOpDepDeps mods rsh.1.items rsh.2
  (⟨rsh.1.off, rdeps.1⟩, rdeps.2)

/-- Spec-side, from the AMENDED claim text: the whole per-module pass. -/
def defragModAmended (mods : List SrMod) (m : SrMod) (cur : Nat) : SrMod × Nat :=
  let rf := sr_shmmain_defrag_copy_array_with_string
      (fun f => f) (fun _ f => f) szOff m.features cur
  let rd := sr_shmmain_defrag_copy_data_deps mods m.data_deps rf.2
  let ri := sr_shmmain_defrag_copy_inv_data_deps mods m.inv_data_deps rd.2
  let ro := opDepPassAmended mods m.op_deps ri.2
  let rcs := copyChangeSubLists m.change_sub ro.2
  let ros := sr_shmmain_defrag_copy_array_with_string
      (fun c => c.xpath) (fun c x => { c with xpath := x }) szOperSub m.oper_subs rcs.2
  ({ m with
      features := rf.1
      data_deps := rd.1
      inv_data_deps := ri.1
      op_deps := ro.1
      change_sub := rcs.1
      oper_subs := ros.1 },
   ros.2)

/-- Spec-side: the amended per-module pass over all modules. -/
def defragModListAmended (mods : List SrMod) : List SrMod → Nat → List SrMod × Nat
  | [], cur => ([], cur)
  | m :: t, cur =>
    let r := defragModAmended mods m cur
    let rest := defragModListAmended mods t r.2
    (r.1 :: rest.1, rest.2)

/-- Spec-side: the whole defragmentation build in the AMENDED order — names,
per-module arrays, connection-state array, evpipe arrays, RPC array with
op paths, RPC subscription arrays with xpaths. -/
def defragBuildAmended (s : St) : St × Nat :=
  let cur := szWord
  let rn := defragNames s.mods cur
  let rm := defragModListAmended rn.1 rn.1 rn.2
  let rc := shmAlloc rm.2 (s.main.conn_state.items.length * szConn)
  let re := defragEvpipes s.main.conn_state.items rc.2
  let rr := sr_shmmain_defrag_copy_array_with_string
      (fun r => r.op_path) (fun r x => { r with op_path := x }) szRpc s.main.rpc re.2
  let rs := defragRpcSubs rr.1.items rr.2
  ({ s with mods := rm.1,
            main := { s.main with conn_state := ⟨rc.1, re.1⟩, rpc := ⟨rr.1.off, rs.1⟩ },
            ext_size := s.ext_size - s.wasted, wasted := 0 }, rs.2)

/-- A module with two op deps (each with an xpath, the first with one input
dependency), exercising the defragmenter's op-dep write order. -/
def c6Mod : SrMod :=
  { name := ⟨8, "m"⟩
    rev := ""
    flags := 0
    ver := 1
    features := ⟨0, []⟩
    data_deps := ⟨0, []⟩
    inv_data_deps := ⟨0, []⟩
    op_deps := ⟨100, [⟨⟨164, "/a"⟩, ⟨170, [⟨DepType.instid, ⟨0, ""⟩, ⟨194, "/i"⟩⟩]⟩, ⟨0, []⟩⟩,
                      ⟨⟨167, "/b"⟩, ⟨0, []⟩, ⟨0, []⟩⟩]⟩
    change_sub := List.replicate SR_DS_COUNT ⟨0, []⟩
    oper_subs := ⟨0, []⟩
    notif_subs := [] }

/-- The effect of `sr_shmmain_rpc_subscription_del` in `all_evpipe` mode on a
single RPC record (lines 1868-1906): remove every subscription with the given
evpipe id via the scan-and-swap loop; when nothing matches the record and the
wasted counter are untouched, when the array empties its anchor is cleared.
Returns the new record and the bytes wasted. -/
def rpcEvDel (ev : Nat) (r : Rpc) : Rpc × Nat :=
  let kr := sweepDel (fun u => u.evpipe_num == ev) r.subs.items 0
  if kr.2.isEmpty then (r, 0)
  else ({ r with subs := ⟨if kr.1.isEmpty then 0 else r.subs.off, kr.1⟩ },
        (kr.2.map rpcSubWasted).sum)

/-- The dead connection of the C1 counterexample: client 1, PID 100, owns
evpipe 7, holds no lock. -/
def c1Dead : ConnState := ⟨1, 100, ⟨16, [7]⟩, ⟨LMode.noLock, 0⟩⟩

/-- The surviving connection of the C1 counterexample. -/
def c1Live : ConnState := ⟨2, 200, ⟨0, []⟩, ⟨LMode.noLock, 0⟩⟩

/-- The C1 counterexample state: the dead connection sits FIRST, both
connections own stored operational data, and two RPCs each carry exactly one
subscription for the dead connection's evpipe 7. -/
def c1St : St :=
  { main := { readers := 0
              rpc := ⟨30, [⟨⟨40, "/a:x"⟩, ⟨60, [⟨⟨80, "/a"⟩, 0, 0, 7⟩]⟩⟩,
                           ⟨⟨90, "/b:y"⟩, ⟨110, [⟨⟨130, "/b"⟩, 0, 0, 7⟩]⟩⟩]⟩
              conn_state := ⟨8, [c1Dead, c1Live]⟩ }
    mods := []
    ext_size := 400
    wasted := 0
    oper_data := [(1, 100), (2, 200)] }

/-- The dead connection of the C1 witness scenario: it sits last in the
connection array, owns evpipe 7 and holds a doubly-recursive read lock. -/
def wC1Dead : ConnState := ⟨1, 100, ⟨16, [7, 9]⟩, ⟨LMode.rdLock, 2⟩⟩

/-- The C1 witness state: one live connection followed by the dead one, one
RPC whose subscription array keeps a foreign-evpipe entry after the sweep. -/
def wC1St : St :=
  { main := { readers := 3
              rpc := ⟨30, [⟨⟨40, "/a:x"⟩,
                           ⟨60, [⟨⟨80, "/a"⟩, 0, 0, 7⟩, ⟨⟨96, "/c"⟩, 0, 0, 9⟩,
                                 ⟨⟨112, "/d"⟩, 0, 0, 11⟩]⟩⟩]⟩
              conn_state := ⟨8, [c1Live, wC1Dead]⟩ }
    mods := []
    ext_size := 400
    wasted := 0
    oper_data := [(1, 100), (2, 200)] }

/-- The reader-counter rollback of the recovery sweep (lines 915-921): only a
held read lock is rolled back. -/
def deadReaders (s : St) (c : ConnState) : Nat :=
  match c.lock.main with
  | LMode.rdLock => s.main.readers - c.lock.main_rcount
  | _ => s.main.readers

/-- Cumulative effect on one RPC record of the per-evpipe bulk subscription
delete, iterated over a list of dead evpipes (the outer loop of lines
926-963): the final record and the total bytes wasted. -/
def rpcEvDelList (evs : List Nat) (r : Rpc) : Rpc × Nat :=
  evs.foldl (fun q ev => ((rpcEvDel ev q.1).1, q.2 + (rpcEvDel ev q.1).2)) (r, 0)

/-- Cumulative effect on one module record of the stale-subscription removal,
iterated over a list of dead evpipes (the outer loop of lines 926-963). -/
def modEvDelList (evs : List Nat) (m : SrMod) : SrMod × Nat :=
  evs.foldl (fun q ev => ((modDelEvpipe q.1 ev).1, q.2 + (modDelEvpipe q.1 ev).2)) (m, 0)

/-! # Theorems -/

/-! ## Scan lemmas used across the claims -/

theorem idxOf?_set_match {α : Type} (p : α → Bool) (l : List α) (i : Nat) (a b : α)
    (h : idxOf? p l = Option.some (i, a)) (hb : p b = true) :
    idxOf? p (l.set i b) = Option.some (i, b) := by
  induction l generalizing i with
  | nil => simp [idxOf?] at h
  | cons x t ih =>
    by_cases hx : p x
    · rw [idxOf?, if_pos hx] at h
      have hi : i = 0 := ((Prod.ext_iff.mp (Option.some.inj h)).1).symm
      subst hi
      simp [idxOf?, hb]
    · rw [idxOf?, if_neg hx] at h
      cases hq : idxOf? p t with
      | none => rw [hq] at h; simp at h
      | some q =>
        rw [hq] at h
        simp only [Option.map_some'] at h
        have hi : i = q.1 + 1 := ((Prod.ext_iff.mp (Option.some.inj h)).1).symm
        have ha : a = q.2 := ((Prod.ext_iff.mp (Option.some.inj h)).2).symm
        subst hi
        have := ih q.1 (ha ▸ hq)
        simp [List.set, idxOf?, hx, this]

theorem sweepDel_no_match {α : Type} (p : α → Bool) (l : List α)
    (h : ∀ a ∈ l, p a = false) (i : Nat) : sweepDel p l i = (l, []) := by
  have key : ∀ n i, l.length - i ≤ n → sweepDel p l i = (l, []) := by
    intro n
    induction n with
    | zero =>
      intro i hi
      have hge : ¬ i < l.length := by omega
      rw [sweepDel]
      simp [hge]
    | succ n ih =>
      intro i hi
      rw [sweepDel]
      by_cases hlt : i < l.length
      · have hp : p l[i] = false := h _ (List.getElem_mem hlt)
        simp only [hlt, dif_pos, hp]
        simpa using ih (i + 1) (by omega)
      · simp [hlt]
  exact key _ i (Nat.le_refl _)

/-! ## List-surgery lemmas -/

theorem swapRemove_nil {α : Type} (i : Nat) : swapRemove ([] : List α) i = [] := rfl

theorem swapRemove_length {α : Type} (l : List α) (i : Nat) (h : l ≠ []) :
    (swapRemove l i).length = l.length - 1 := by
  cases hx : l.getLast? with
  | none => exact absurd (List.getLast?_eq_none_iff.mp hx) h
  | some x => simp [swapRemove, hx]

theorem swapRemove_eq_of_getLast {α : Type} (l : List α) (i : Nat) (x : α)
    (hx : l.getLast? = Option.some x) :
    swapRemove l i = (l.set i x).dropLast := by
  simp only [swapRemove, hx]

theorem swapRemove_cons_succ {α : Type} (a : α) (l : List α) (i : Nat) (h : l ≠ []) :
    swapRemove (a :: l) (i + 1) = a :: swapRemove l i := by
  cases hx : l.getLast? with
  | none => exact absurd (List.getLast?_eq_none_iff.mp hx) h
  | some x =>
    have hcons : (a :: l).getLast? = Option.some x := List.mem_getLast?_cons hx
    have hne : l.set i x ≠ [] := by
      intro hc
      have hl : l.length = 0 := by simpa using congrArg List.length hc
      exact h (List.length_eq_zero.mp hl)
    obtain ⟨y, t, ht⟩ := List.exists_cons_of_ne_nil hne
    rw [swapRemove_eq_of_getLast _ _ _ hcons, swapRemove_eq_of_getLast _ _ _ hx]
    show (a :: l.set i x).dropLast = a :: (l.set i x).dropLast
    rw [ht, List.dropLast_cons₂]

theorem swapRemove_cons_zero {α : Type} (a : α) (l : List α) (x : α)
    (hx : l.getLast? = Option.some x) :
    swapRemove (a :: l) 0 = x :: l.dropLast := by
  have hcons : (a :: l).getLast? = Option.some x := List.mem_getLast?_cons hx
  have hne : l ≠ [] := by intro hc; subst hc; simp at hx
  obtain ⟨y, t, ht⟩ := List.exists_cons_of_ne_nil hne
  rw [swapRemove_eq_of_getLast _ _ _ hcons]
  show (x :: l).dropLast = x :: l.dropLast
  rw [ht, List.dropLast_cons₂]

/-- Swap-removal is removal up to permutation. -/
theorem swapRemove_perm {α : Type} (l : List α) (i : Nat) (h : i < l.length) :
    (swapRemove l i).Perm (l.eraseIdx i) := by
  induction l generalizing i with
  | nil => simp at h
  | cons a t ih =>
    cases i with
    | zero =>
      cases ht : t.getLast? with
      | none =>
        have hnil : t = [] := List.getLast?_eq_none_iff.mp ht
        subst hnil
        simp [swapRemove]
      | some x =>
        rw [swapRemove_cons_zero a t x ht]
        have hdl : t.dropLast ++ [x] = t := List.dropLast_append_getLast? x ht
        have hperm : (x :: t.dropLast).Perm (t.dropLast ++ [x]) :=
          (List.perm_append_singleton x t.dropLast).symm
        have hfin : (x :: t.dropLast).Perm t := by rw [hdl] at hperm; exact hperm
        simpa [List.eraseIdx] using hfin
    | succ j =>
      have hne : t ≠ [] := by intro hc; subst hc; simp at h
      rw [swapRemove_cons_succ a t j hne]
      have hj : j < t.length := by simpa using h
      simpa [List.eraseIdx] using (ih j hj).cons a

theorem perm_getElem_cons_eraseIdx {α : Type} (l : List α) (i : Nat) (h : i < l.length) :
    l.Perm (l[i] :: l.eraseIdx i) := by
  induction l generalizing i with
  | nil => simp at h
  | cons a t ih =>
    cases i with
    | zero => simp
    | succ j =>
      have hj : j < t.length := by simpa using h
      have h1 : (a :: t).Perm (a :: (t[j] :: t.eraseIdx j)) := (ih j hj).cons a
      have h2 : (a :: (t[j] :: t.eraseIdx j)).Perm (t[j] :: (a :: t.eraseIdx j)) :=
        List.Perm.swap _ _ _
      simpa [List.eraseIdx] using h1.trans h2

theorem idxOf?_eq_none {α : Type} (p : α → Bool) (l : List α)
    (h : ∀ a ∈ l, p a = false) : idxOf? p l = Option.none := by
  induction l with
  | nil => rfl
  | cons a t ih =>
    have ha := h a (by simp)
    simp [idxOf?, ha, ih (fun b hb => h b (by simp [hb]))]

theorem idxOf?_some {α : Type} (p : α → Bool) (l : List α) (i : Nat) (a : α)
    (h : idxOf? p l = Option.some (i, a)) :
    i < l.length ∧ l[i]? = Option.some a ∧ p a = true := by
  induction l generalizing i with
  | nil => simp [idxOf?] at h
  | cons b t ih =>
    by_cases hb : p b
    · rw [idxOf?, if_pos hb] at h
      have h2 := Option.some.inj h
      have hi : i = 0 := ((Prod.ext_iff.mp h2).1).symm
      have ha : a = b := ((Prod.ext_iff.mp h2).2).symm
      subst hi; subst ha
      exact ⟨by simp, by simp, hb⟩
    · rw [idxOf?, if_neg hb] at h
      cases hq : idxOf? p t with
      | none => rw [hq] at h; simp at h
      | some q =>
        rw [hq] at h
        simp only [Option.map_some'] at h
        have h2 := Option.some.inj h
        have hi : i = q.1 + 1 := ((Prod.ext_iff.mp h2).1).symm
        have ha : a = q.2 := ((Prod.ext_iff.mp h2).2).symm
        subst hi; subst ha
        obtain ⟨hlt, hget, hp⟩ := ih q.1 hq
        exact ⟨Nat.succ_lt_succ hlt, by simpa using hget, hp⟩

/-! ## Defragmentation accounting

Master lemmas: each defrag copy helper advances the cursor by exactly the
live bytes of what it copies, preserves item counts, and keeps every anchor
coupled. -/

theorem copyStrItems_bytes {α : Type} (getS : α → ShmStr) (setS : α → ShmStr → α)
    (l : List α) (cur : Nat) :
    (copyStrItems getS setS l cur).2 =
      cur + (l.map (fun x => strBytes (getS x))).sum := by
  induction l generalizing cur with
  | nil => simp [copyStrItems]
  | cons x t ih =>
    by_cases hx : (getS x).off = 0
    · simp [copyStrItems, hx, strBytes, ih]
    · simp [copyStrItems, hx, strBytes, ih]
      omega

theorem copyStrItems_length {α : Type} (getS : α → ShmStr) (setS : α → ShmStr → α)
    (l : List α) (cur : Nat) :
    (copyStrItems getS setS l cur).1.length = l.length := by
  induction l generalizing cur with
  | nil => simp [copyStrItems]
  | cons x t ih =>
    by_cases hx : (getS x).off = 0 <;> simp [copyStrItems, hx, ih]

theorem copyStrItems_map {α β : Type} (getS : α → ShmStr) (setS : α → ShmStr → α)
    (f : α → β) (hf : ∀ x c, f (setS x ⟨c, (getS x).val⟩) = f x)
    (l : List α) (cur : Nat) :
    (copyStrItems getS setS l cur).1.map f = l.map f := by
  induction l generalizing cur with
  | nil => simp [copyStrItems]
  | cons x t ih =>
    by_cases hx : (getS x).off = 0 <;> simp [copyStrItems, hx, ih, hf]

theorem copy_array_with_string_spec {α : Type} (getS : α → ShmStr)
    (setS : α → ShmStr → α) (sz : Nat) (a : ShmArr α) (cur : Nat)
    (hok : arrOk a = true) (hcur : 0 < cur) :
    (arrOk (sr_shmmain_defrag_copy_array_with_string getS setS sz a cur).1 = true)
    ∧ (sr_shmmain_defrag_copy_array_with_string getS setS sz a cur).1.items.length
        = a.items.length
    ∧ (sr_shmmain_defrag_copy_array_with_string getS setS sz a cur).2 =
        cur + a.items.length * sz + (a.items.map (fun x => strBytes (getS x))).sum := by
  by_cases hemp : a.items.length = 0
  · have hi : a.items = [] := List.length_eq_zero.mp hemp
    have hoff : a.off = 0 := by
      simp [arrOk, hi] at hok
      exact hok
    simp [sr_shmmain_defrag_copy_array_with_string, hoff, hi, arrOk]
  · have hoff : a.off ≠ 0 := by
      intro hc
      rw [arrOk, hc] at hok
      simp [List.isEmpty_iff] at hok
      exact hemp (by simp [hok])
    have hcond : ¬(a.off = 0 ∧ a.items.length = 0) := fun hc => hoff hc.1
    have hlen := copyStrItems_length getS setS a.items (cur + a.items.length * sz)
    simp only [sr_shmmain_defrag_copy_array_with_string, if_neg hcond]
    refine ⟨?_, hlen, copyStrItems_bytes getS setS a.items _⟩
    have h1 : (cur == 0) = false := by
      simp [Nat.pos_iff_ne_zero.mp hcur]
    have h2 : (copyStrItems getS setS a.items (cur + a.items.length * sz)).1.isEmpty
        = false := by
      rw [List.isEmpty_eq_false_iff_exists_mem]
      have : (copyStrItems getS setS a.items (cur + a.items.length * sz)).1 ≠ [] := by
        intro hc
        rw [hc] at hlen
        exact hemp (by simpa using hlen.symm)
      exact List.exists_mem_of_ne_nil _ this
    simp [arrOk, h1, h2]

theorem copyDataDepItems_bytes (mods : List SrMod) (l : List DataDep) (cur : Nat) :
    (copyDataDepItems mods l cur).2 =
      cur + (l.map (fun d => strBytes d.xpath)).sum := by
  induction l generalizing cur with
  | nil => simp [copyDataDepItems]
  | cons d t ih =>
    by_cases hm : d.module.off = 0
    · by_cases hx : d.xpath.off = 0 <;>
        simp [copyDataDepItems, dataDepPoint, dataDepXpath, hm, hx, strBytes, ih] <;>
        omega
    · cases hfm : sr_shmmain_find_module mods d.module.val with
      | none => by_cases hx : d.xpath.off = 0 <;>
          simp [copyDataDepItems, dataDepPoint, dataDepXpath, hm, hfm, hx, strBytes,
            ih] <;> omega
      | some m => by_cases hx : d.xpath.off = 0 <;>
          simp [copyDataDepItems, dataDepPoint, dataDepXpath, hm, hfm, hx, strBytes,
            ih] <;> omega

theorem copyDataDepItems_length (mods : List SrMod) (l : List DataDep) (cur : Nat) :
    (copyDataDepItems mods l cur).1.length = l.length := by
  induction l generalizing cur with
  | nil => simp [copyDataDepItems]
  | cons d t ih =>
    by_cases hm : d.module.off = 0
    · by_cases hx : d.xpath.off = 0 <;>
        simp [copyDataDepItems, dataDepPoint, dataDepXpath, hm, hx, ih]
    · cases hfm : sr_shmmain_find_module mods d.module.val with
      | none => by_cases hx : d.xpath.off = 0 <;>
          simp [copyDataDepItems, dataDepPoint, dataDepXpath, hm, hfm, hx, ih]
      | some m => by_cases hx : d.xpath.off = 0 <;>
          simp [copyDataDepItems, dataDepPoint, dataDepXpath, hm, hfm, hx, ih]

theorem copy_data_deps_spec (mods : List SrMod) (a : ShmArr DataDep) (cur : Nat)
    (hok : arrOk a = true) (hcur : 0 < cur) :
    (arrOk (sr_shmmain_defrag_copy_data_deps mods a cur).1 = true)
    ∧ (sr_shmmain_defrag_copy_data_deps mods a cur).2 = cur + dataDepsBytes a := by
  by_cases hemp : a.items.length = 0
  · have hi : a.items = [] := List.length_eq_zero.mp hemp
    have hoff : a.off = 0 := by
      simp [arrOk, hi] at hok; exact hok
    simp [sr_shmmain_defrag_copy_data_deps, hoff, hi, arrOk, dataDepsBytes]
  · have hoff : a.off ≠ 0 := by
      intro hc
      rw [arrOk, hc] at hok
      simp [List.isEmpty_iff] at hok
      exact hemp (by simp [hok])
    have hcond : ¬(a.off = 0 ∧ a.items.length = 0) := fun hc => hoff hc.1
    have hlen := copyDataDepItems_length mods a.items (cur + a.items.length * szDataDep)
    simp only [sr_shmmain_defrag_copy_data_deps, if_neg hcond]
    constructor
    · have h1 : (cur == 0) = false := by simp [Nat.pos_iff_ne_zero.mp hcur]
      have h2 : (copyDataDepItems mods a.items (cur + a.items.length * szDataDep)).1.isEmpty
          = false := by
        rw [List.isEmpty_eq_false_iff_exists_mem]
        have : (copyDataDepItems mods a.items (cur + a.items.length * szDataDep)).1 ≠ [] := by
          intro hc
          rw [hc] at hlen
          exact hemp (by simpa using hlen.symm)
        exact List.exists_mem_of_ne_nil _ this
      simp [arrOk, h1, h2]
    · rw [copyDataDepItems_bytes]
      simp [dataDepsBytes]
      omega

theorem copy_inv_data_deps_spec (mods : List SrMod) (a : ShmArr ShmStr) (cur : Nat)
    (hok : arrOk a = true) (hcur : 0 < cur) :
    (arrOk (sr_shmmain_defrag_copy_inv_data_deps mods a cur).1 = true)
    ∧ (sr_shmmain_defrag_copy_inv_data_deps mods a cur).2 =
        cur + a.items.length * szOff := by
  have hlen : ∀ (l : List ShmStr), (copyInvDepItems mods l).length = l.length := by
    intro l
    induction l with
    | nil => simp [copyInvDepItems]
    | cons z u ih =>
      cases hfm : sr_shmmain_find_module mods z.val <;> simp [copyInvDepItems, hfm, ih]
  by_cases hemp : a.items.length = 0
  · have hi : a.items = [] := List.length_eq_zero.mp hemp
    have hoff : a.off = 0 := by
      simp [arrOk, hi] at hok; exact hok
    simp [sr_shmmain_defrag_copy_inv_data_deps, hoff, hi, arrOk]
  · have hoff : a.off ≠ 0 := by
      intro hc
      rw [arrOk, hc] at hok
      simp [List.isEmpty_iff] at hok
      exact hemp (by simp [hok])
    have hcond : ¬(a.off = 0 ∧ a.items.length = 0) := fun hc => hoff hc.1
    simp only [sr_shmmain_defrag_copy_inv_data_deps, if_neg hcond]
    constructor
    · have h1 : (cur == 0) = false := by simp [Nat.pos_iff_ne_zero.mp hcur]
      have h2 : (copyInvDepItems mods a.items).isEmpty = false := by
        rw [List.isEmpty_eq_false_iff_exists_mem]
        have hne : copyInvDepItems mods a.items ≠ [] := by
          intro hc
          have := hlen a.items
          rw [hc] at this
          exact hemp (by simpa using this.symm)
        exact List.exists_mem_of_ne_nil _ hne
      simp [arrOk, h1, h2]
    · trivial

theorem shmAlloc_snd (cur size : Nat) : (shmAlloc cur size).2 = cur + size := by
  by_cases h : size = 0 <;> simp [shmAlloc, h]

theorem isEmpty_eq_of_length_eq {α β : Type} (l1 : List α) (l2 : List β)
    (h : l1.length = l2.length) : l1.isEmpty = l2.isEmpty := by
  cases l1 <;> cases l2 <;> simp_all

theorem copyOpDepDeps_spec (mods : List SrMod) (l : List OpDep) (cur : Nat)
    (hok : ∀ o ∈ l, opDepOk o = true) (hcur : 0 < cur) :
    (∀ o ∈ (copyOpDepDeps mods l cur).1, opDepOk o = true)
    ∧ (copyOpDepDeps mods l cur).1.length = l.length
    ∧ (copyOpDepDeps mods l cur).2 = cur +
        (l.map (fun o => dataDepsBytes o.in_deps + dataDepsBytes o.out_deps)).sum := by
  induction l generalizing cur with
  | nil => simp [copyOpDepDeps]
  | cons o t ih =>
    have hoo := hok o (by simp)
    have hin : arrOk o.in_deps = true := by
      simp [opDepOk] at hoo; exact hoo.1
    have hout : arrOk o.out_deps = true := by
      simp [opDepOk] at hoo; exact hoo.2
    obtain ⟨hin1, hin2⟩ := copy_data_deps_spec mods o.in_deps cur hin hcur
    have hcur2 : 0 < (sr_shmmain_defrag_copy_data_deps mods o.in_deps cur).2 := by omega
    obtain ⟨hout1, hout2⟩ := copy_data_deps_spec mods o.out_deps _ hout hcur2
    have hcur3 : 0 <
        (sr_shmmain_defrag_copy_data_deps mods o.out_deps
          (sr_shmmain_defrag_copy_data_deps mods o.in_deps cur).2).2 := by omega
    obtain ⟨ih1, ih2, ih3⟩ := ih _ (fun x hx => hok x (by simp [hx])) hcur3
    refine ⟨?_, ?_, ?_⟩
    · intro x hx
      simp only [copyOpDepDeps, List.mem_cons] at hx
      rcases hx with hx | hx
      · subst hx
        simp [opDepOk, hin1, hout1]
      · exact ih1 x hx
    · simp [copyOpDepDeps, ih2]
    · simp only [copyOpDepDeps]
      rw [ih3, hout2, hin2]
      simp
      omega

theorem copyChangeSubLists_spec (l : List (ShmArr ChangeSub)) (cur : Nat)
    (hok : ∀ a ∈ l, arrOk a = true) (hcur : 0 < cur) :
    (∀ a ∈ (copyChangeSubLists l cur).1, arrOk a = true)
    ∧ (copyChangeSubLists l cur).1.length = l.length
    ∧ (copyChangeSubLists l cur).2 = cur + (l.map changeSubsBytes).sum := by
  induction l generalizing cur with
  | nil => simp [copyChangeSubLists]
  | cons a t ih =>
    obtain ⟨h1, h2, h3⟩ := copy_array_with_string_spec
      (fun c => c.xpath) (fun c x => { c with xpath := x }) szChangeSub a cur
      (hok a (by simp)) hcur
    have hcur2 : 0 < (sr_shmmain_defrag_copy_array_with_string
        (fun c => c.xpath) (fun c x => { c with xpath := x }) szChangeSub a cur).2 := by
      omega
    obtain ⟨ih1, ih2, ih3⟩ := ih _ (fun x hx => hok x (by simp [hx])) hcur2
    refine ⟨?_, ?_, ?_⟩
    · intro x hx
      simp only [copyChangeSubLists, List.mem_cons] at hx
      rcases hx with hx | hx
      · subst hx; exact h1
      · exact ih1 x hx
    · simp [copyChangeSubLists, ih2]
    · simp only [copyChangeSubLists]
      rw [ih3, h3]
      simp [changeSubsBytes]
      omega

theorem defragMod_spec (mods : List SrMod) (m : SrMod) (cur : Nat)
    (hok : modOk m = true) (hcur : 0 < cur) :
    modOk (defragMod mods m cur).1 = true
    ∧ (defragMod mods m cur).1.name = m.name
    ∧ (defragMod mods m cur).2 = cur + modBodyBytes m := by
  have h := hok
  simp only [modOk, Bool.and_eq_true] at h
  obtain ⟨⟨⟨⟨⟨⟨hfeat, hdd⟩, hinv⟩, hop⟩, hopall⟩, hcs⟩, hos⟩ := h
  obtain ⟨f1, f2, f3⟩ := copy_array_with_string_spec
    (fun f => f) (fun _ f => f) szOff m.features cur hfeat hcur
  have c1 : 0 < (sr_shmmain_defrag_copy_array_with_string
      (fun f => f) (fun _ f => f) szOff m.features cur).2 := by omega
  obtain ⟨d1, d2⟩ := copy_data_deps_spec mods m.data_deps _ hdd c1
  have c2 : 0 < (sr_shmmain_defrag_copy_data_deps mods m.data_deps
      (sr_shmmain_defrag_copy_array_with_string
        (fun f => f) (fun _ f => f) szOff m.features cur).2).2 := by omega
  obtain ⟨i1, i2⟩ := copy_inv_data_deps_spec mods m.inv_data_deps _ hinv c2
  have c3 : 0 < (sr_shmmain_defrag_copy_inv_data_deps mods m.inv_data_deps
      (sr_shmmain_defrag_copy_data_deps mods m.data_deps
        (sr_shmmain_defrag_copy_array_with_string
          (fun f => f) (fun _ f => f) szOff m.features cur).2).2).2 := by omega
  obtain ⟨o1, o2, o3⟩ := copy_array_with_string_spec
    (fun o => o.xpath) (fun o x => { o with xpath := x }) szOpDep m.op_deps _ hop c3
  have hshellpair : (sr_shmmain_defrag_copy_array_with_string
      (fun o => o.xpath) (fun o x => { o with xpath := x }) szOpDep m.op_deps
      (sr_shmmain_defrag_copy_inv_data_deps mods m.inv_data_deps
        (sr_shmmain_defrag_copy_data_deps mods m.data_deps
          (sr_shmmain_defrag_copy_array_with_string
            (fun f => f) (fun _ f => f) szOff m.features cur).2).2).2).1.items.map
        (fun o => (o.in_deps, o.out_deps)) =
      m.op_deps.items.map (fun o => (o.in_deps, o.out_deps)) := by
    by_cases hcond : m.op_deps.off = 0 ∧ m.op_deps.items.length = 0
    · have hnil : m.op_deps.items = [] := List.length_eq_zero.mp hcond.2
      simp [sr_shmmain_defrag_copy_array_with_string, hcond, hnil]
    · simp only [sr_shmmain_defrag_copy_array_with_string, if_neg hcond]
      exact copyStrItems_map _ _ _ (fun x c => rfl) _ _
  have hshellok : ∀ o ∈ (sr_shmmain_defrag_copy_array_with_string
      (fun o => o.xpath) (fun o x => { o with xpath := x }) szOpDep m.op_deps
      (sr_shmmain_defrag_copy_inv_data_deps mods m.inv_data_deps
        (sr_shmmain_defrag_copy_data_deps mods m.data_deps
          (sr_shmmain_defrag_copy_array_with_string
            (fun f => f) (fun _ f => f) szOff m.features cur).2).2).2).1.items,
      opDepOk o = true := by
    intro o ho
    have hmem : (o.in_deps, o.out_deps) ∈ m.op_deps.items.map
        (fun o => (o.in_deps, o.out_deps)) := by
      rw [← hshellpair]
      exact List.mem_map_of_mem _ ho
    obtain ⟨o0, ho0, hpair⟩ := List.mem_map.mp hmem
    have hok0 := List.all_eq_true.mp hopall o0 ho0
    simp only [Prod.mk.injEq] at hpair
    simp only [opDepOk, Bool.and_eq_true] at hok0 ⊢
    constructor
    · rw [← hpair.1]; exact hok0.1
    · rw [← hpair.2]; exact hok0.2
  have c4 : 0 < (sr_shmmain_defrag_copy_array_with_string
      (fun o => o.xpath) (fun o x => { o with xpath := x }) szOpDep m.op_deps
      (sr_shmmain_defrag_copy_inv_data_deps mods m.inv_data_deps
        (sr_shmmain_defrag_copy_data_deps mods m.data_deps
          (sr_shmmain_defrag_copy_array_with_string
            (fun f => f) (fun _ f => f) szOff m.features cur).2).2).2).2 := by omega
  obtain ⟨p1, p2, p3⟩ := copyOpDepDeps_spec mods _ _ hshellok c4
  have c5 : 0 < (copyOpDepDeps mods
      (sr_shmmain_defrag_copy_array_with_string
        (fun o => o.xpath) (fun o x => { o with xpath := x }) szOpDep m.op_deps
        (sr_shmmain_defrag_copy_inv_data_deps mods m.inv_data_deps
          (sr_shmmain_defrag_copy_data_deps mods m.data_deps
            (sr_shmmain_defrag_copy_array_with_string
              (fun f => f) (fun _ f => f) szOff m.features cur).2).2).2).1.items
      (sr_shmmain_defrag_copy_array_with_string
        (fun o => o.xpath) (fun o x => { o with xpath := x }) szOpDep m.op_deps
        (sr_shmmain_defrag_copy_inv_data_deps mods m.inv_data_deps
          (sr_shmmain_defrag_copy_data_deps mods m.data_deps
            (sr_shmmain_defrag_copy_array_with_string
              (fun f => f) (fun _ f => f) szOff m.features cur).2).2).2).2).2 := by
    omega
  obtain ⟨q1, q2, q3⟩ := copyChangeSubLists_spec m.change_sub _
    (fun a ha => List.all_eq_true.mp hcs a ha) c5
  have c6 : 0 < (copyChangeSubLists m.change_sub
      (copyOpDepDeps mods
        (sr_shmmain_defrag_copy_array_with_string
          (fun o => o.xpath) (fun o x => { o with xpath := x }) szOpDep m.op_deps
          (sr_shmmain_defrag_copy_inv_data_deps mods m.inv_data_deps
            (sr_shmmain_defrag_copy_data_deps mods m.data_deps
              (sr_shmmain_defrag_copy_array_with_string
                (fun f => f) (fun _ f => f) szOff m.features cur).2).2).2).1.items
        (sr_shmmain_defrag_copy_array_with_string
          (fun o => o.xpath) (fun o x => { o with xpath := x }) szOpDep m.op_deps
          (sr_shmmain_defrag_copy_inv_data_deps mods m.inv_data_deps
            (sr_shmmain_defrag_copy_data_deps mods m.data_deps
              (sr_shmmain_defrag_copy_array_with_string
                (fun f => f) (fun _ f => f) szOff m.features cur).2).2).2).2).2).2 := by
    omega
  obtain ⟨s1, s2, s3⟩ := copy_array_with_string_spec
    (fun c => c.xpath) (fun c x => { c with xpath := x }) szOperSub m.oper_subs _ hos c6
  have hbytes : (m.op_deps.items.map
      (fun o => dataDepsBytes o.in_deps + dataDepsBytes o.out_deps)).sum +
      (m.op_deps.items.map (fun o => strBytes o.xpath)).sum =
      (m.op_deps.items.map opDepBytes).sum := by
    induction m.op_deps.items with
    | nil => simp
    | cons x t ihx =>
      simp [opDepBytes] at ihx ⊢
      omega
  have hshellbytes : (sr_shmmain_defrag_copy_array_with_string
      (fun o => o.xpath) (fun o x => { o with xpath := x }) szOpDep m.op_deps
      (sr_shmmain_defrag_copy_inv_data_deps mods m.inv_data_deps
        (sr_shmmain_defrag_copy_data_deps mods m.data_deps
          (sr_shmmain_defrag_copy_array_with_string
            (fun f => f) (fun _ f => f) szOff m.features cur).2).2).2).1.items.map
        (fun o => dataDepsBytes o.in_deps + dataDepsBytes o.out_deps) =
      m.op_deps.items.map (fun o => dataDepsBytes o.in_deps + dataDepsBytes o.out_deps) := by
    have h1 := congrArg (List.map (fun p : ShmArr DataDep × ShmArr DataDep =>
      dataDepsBytes p.1 + dataDepsBytes p.2)) hshellpair
    simpa [List.map_map, Function.comp] using h1
  refine ⟨?_, ?_, ?_⟩
  · simp only [defragMod, modOk, Bool.and_eq_true]
    refine ⟨⟨⟨⟨⟨⟨f1, d1⟩, i1⟩, ?_⟩, ?_⟩, ?_⟩, s1⟩
    · have he := isEmpty_eq_of_length_eq _ _ p2
      simp only [arrOk] at o1 ⊢
      rw [he]
      exact o1
    · exact List.all_eq_true.mpr p1
    · exact List.all_eq_true.mpr q1
  · simp [defragMod]
  · simp only [defragMod]
    have hsum := congrArg List.sum hshellbytes
    have heta : (List.map (fun x => strBytes x) m.features.items).sum =
        (List.map strBytes m.features.items).sum := rfl
    simp only [modBodyBytes]
    omega

/-- Pass 1 leaves every field but the name untouched. -/
theorem defragNames_map {β : Type} (f : SrMod → β)
    (hf : ∀ (m : SrMod) (x : ShmStr), f { m with name := x } = f m)
    (l : List SrMod) (cur : Nat) :
    (defragNames l cur).1.map f = l.map f := by
  induction l generalizing cur with
  | nil => simp [defragNames]
  | cons m t ih => simp [defragNames, ih, hf]

theorem defragNames_bytes (l : List SrMod) (cur : Nat) :
    (defragNames l cur).2 = cur + (l.map (fun m => shmlen m.name.val)).sum := by
  induction l generalizing cur with
  | nil => simp [defragNames]
  | cons m t ih =>
    simp [defragNames, ih]
    omega

theorem defragModList_spec (mods : List SrMod) (l : List SrMod) (cur : Nat)
    (hok : ∀ m ∈ l, modOk m = true) (hcur : 0 < cur) :
    (∀ m ∈ (defragModList mods l cur).1, modOk m = true)
    ∧ (defragModList mods l cur).1.map (fun m => m.name) = l.map (fun m => m.name)
    ∧ (defragModList mods l cur).2 = cur + (l.map modBodyBytes).sum := by
  induction l generalizing cur with
  | nil => simp [defragModList]
  | cons m t ih =>
    obtain ⟨h1, h2, h3⟩ := defragMod_spec mods m cur (hok m (by simp)) hcur
    have hcur2 : 0 < (defragMod mods m cur).2 := by omega
    obtain ⟨ih1, ih2, ih3⟩ := ih _ (fun x hx => hok x (by simp [hx])) hcur2
    refine ⟨?_, ?_, ?_⟩
    · intro x hx
      simp only [defragModList, List.mem_cons] at hx
      rcases hx with hx | hx
      · subst hx; exact h1
      · exact ih1 x hx
    · simp [defragModList, ih2, h2]
    · simp only [defragModList]
      rw [ih3, h3]
      simp only [List.map_cons, List.sum_cons]
      omega

theorem defragEvpipes_spec (l : List ConnState) (cur : Nat) (hcur : 0 < cur) :
    (∀ c ∈ (defragEvpipes l cur).1, connOk c = true)
    ∧ (defragEvpipes l cur).1.map
        (fun c => (c.conn_ctx, c.pid, c.evpipes.items, c.lock)) =
      l.map (fun c => (c.conn_ctx, c.pid, c.evpipes.items, c.lock))
    ∧ (defragEvpipes l cur).2 =
        cur + (l.map (fun c => c.evpipes.items.length * szU32)).sum := by
  induction l generalizing cur with
  | nil => simp [defragEvpipes]
  | cons c t ih =>
    have hcur2 : 0 < (shmAlloc cur (c.evpipes.items.length * szU32)).2 := by
      rw [shmAlloc_snd]; omega
    obtain ⟨ih1, ih2, ih3⟩ := ih _ hcur2
    refine ⟨?_, ?_, ?_⟩
    · intro x hx
      simp only [defragEvpipes, List.mem_cons] at hx
      rcases hx with hx | hx
      · subst hx
        by_cases hz : c.evpipes.items.length * szU32 = 0
        · have hnil : c.evpipes.items = [] := by
            have hlz : c.evpipes.items.length = 0 := by
              rcases Nat.mul_eq_zero.mp hz with h | h
              · exact h
              · exact absurd h (by decide)
            exact List.length_eq_zero.mp hlz
          simp [connOk, arrOk, shmAlloc, hz, hnil]
        · have hnn : c.evpipes.items ≠ [] := by
            intro hc; rw [hc] at hz; simp at hz
          have h2 : c.evpipes.items.isEmpty = false := by
            cases hcc : c.evpipes.items with
            | nil => exact absurd hcc hnn
            | cons a t2 => rfl
          simp [connOk, arrOk, shmAlloc, hz, Nat.pos_iff_ne_zero.mp hcur, h2]
      · exact ih1 x hx
    · simp [defragEvpipes, ih2]
    · simp only [defragEvpipes]
      rw [ih3, shmAlloc_snd]
      simp only [List.map_cons, List.sum_cons]
      omega

theorem defragRpcSubs_spec (l : List Rpc) (cur : Nat)
    (hok : ∀ r ∈ l, rpcOk r = true) (hcur : 0 < cur) :
    (∀ r ∈ (defragRpcSubs l cur).1, rpcOk r = true)
    ∧ (defragRpcSubs l cur).1.map (fun r => r.op_path) = l.map (fun r => r.op_path)
    ∧ (defragRpcSubs l cur).2 = cur + (l.map (fun r =>
        r.subs.items.length * szRpcSub
        + (r.subs.items.map (fun u => strBytes u.xpath)).sum)).sum := by
  induction l generalizing cur with
  | nil => simp [defragRpcSubs]
  | cons r t ih =>
    obtain ⟨h1, h2, h3⟩ := copy_array_with_string_spec
      (fun u => u.xpath) (fun u x => { u with xpath := x }) szRpcSub r.subs cur
      (hok r (by simp)) hcur
    have hcur2 : 0 < (sr_shmmain_defrag_copy_array_with_string
        (fun u => u.xpath) (fun u x => { u with xpath := x }) szRpcSub r.subs cur).2 := by
      omega
    obtain ⟨ih1, ih2, ih3⟩ := ih _ (fun x hx => hok x (by simp [hx])) hcur2
    refine ⟨?_, ?_, ?_⟩
    · intro x hx
      simp only [defragRpcSubs, List.mem_cons] at hx
      rcases hx with hx | hx
      · subst hx
        simpa [rpcOk] using h1
      · exact ih1 x hx
    · simp [defragRpcSubs, ih2]
    · simp only [defragRpcSubs]
      rw [ih3, h3]
      simp only [List.map_cons, List.sum_cons]
      omega

/-! ## C8 — fork-after-connect detection -/

/-- C8: when no connection record matches the calling handle together with the
caller's current PID (as after a fork), registering an evpipe returns the
`not_found` error and performs no remap and no modification of Main or Ext
SHM; when a matching record exists, it appends the evpipe id to that
connection's evpipe array (re-resolving the connection record after the
remap), moving the array to the old Ext end and wasting the old copy. -/
theorem C8_register_evpipe (s : St) (ctx pid ev : Nat) :
    (sr_shmmain_state_find_conn s ctx pid = Option.none →
      sr_shmmain_state_add_evpipe s ctx pid ev = (s, Option.some SrErr.notFound))
    ∧ (∀ i c, sr_shmmain_state_find_conn s ctx pid = Option.some (i, c) →
        sr_shmmain_state_add_evpipe s ctx pid ev =
          ({ s with
              ext_size := s.ext_size + (c.evpipes.items.length + 1) * szU32
              wasted := s.wasted + c.evpipes.items.length * szU32
              main := { s.main with conn_state :=
                ⟨s.main.conn_state.off,
                 s.main.conn_state.items.set i
                   { c with evpipes := ⟨s.ext_size, c.evpipes.items ++ [ev]⟩ }⟩ } },
           Option.none)) := by
  constructor
  · intro hnone
    simp [sr_shmmain_state_add_evpipe, sr_shmmain_state_find_conn] at hnone ⊢
    simp [hnone]
  · intro i c hsome
    simp only [sr_shmmain_state_find_conn] at hsome
    simp [sr_shmmain_state_add_evpipe, hsome]

/-- Witness for C8: in the concrete state, handle 2 with a stale PID is
rejected with `not_found` and the state is untouched, while the live (2, 200)
record gets evpipe 9 appended. -/
theorem C8_register_evpipe_witness :
    sr_shmmain_state_add_evpipe wSt 2 999 9 = (wSt, Option.some SrErr.notFound)
    ∧ (sr_shmmain_state_add_evpipe wSt 2 200 9).1.main.conn_state.items =
        [wConn1, { wConn2 with evpipes := ⟨200, [7, 9]⟩ }] := by
  constructor
  · exact (C8_register_evpipe wSt 2 999 9).1 (by decide)
  · rw [(C8_register_evpipe wSt 2 200 9).2 1 wConn2 (by decide)]
    decide

/-! ## C10 — deletes are no-ops on missing keys -/

/-- C10: the delete operations are no-ops on shared memory when nothing
matches their key: `sr_shmmain_state_del_conn` with an unmatched (conn, PID)
pair, `sr_shmmain_state_del_evpipe` with an unknown connection or an evpipe
id the connection does not own, and `sr_shmmain_rpc_subscription_del` with no
matching subscription all leave the state (including wasted and all counts)
unchanged; in bulk by-evpipe mode the subscription delete additionally
reports success (no error) while the exact-match mode reports an internal
error. -/
theorem C10_del_noops (s : St) (ctx pid ev : Nat) (ri : Nat) (xpath : String)
    (priority : Nat) :
    (sr_shmmain_state_find_conn s ctx pid = Option.none →
      sr_shmmain_state_del_conn s ctx pid = s
      ∧ sr_shmmain_state_del_evpipe s ctx pid ev = s)
    ∧ (∀ i c, sr_shmmain_state_find_conn s ctx pid = Option.some (i, c) →
        (∀ e ∈ c.evpipes.items, e ≠ ev) →
        sr_shmmain_state_del_evpipe s ctx pid ev = s)
    ∧ (∀ r, s.main.rpc.items[ri]? = Option.some r →
        (∀ u ∈ r.subs.items, u.evpipe_num ≠ ev) →
        sr_shmmain_rpc_subscription_del s ri xpath priority ev true =
          (s, false, Option.none))
    ∧ (∀ r, s.main.rpc.items[ri]? = Option.some r →
        (∀ u ∈ r.subs.items, ¬(u.xpath.val = xpath ∧ u.priority = priority)) →
        sr_shmmain_rpc_subscription_del s ri xpath priority ev false =
          (s, false, Option.some SrErr.internal)) := by
  refine ⟨fun hnone => ?_, fun i c hsome hev => ?_, fun r hr hev => ?_, fun r hr hxp => ?_⟩
  · simp only [sr_shmmain_state_find_conn] at hnone
    constructor
    · simp [sr_shmmain_state_del_conn, hnone]
    · simp [sr_shmmain_state_del_evpipe, hnone]
  · simp only [sr_shmmain_state_find_conn] at hsome
    have hno : idxOf? (fun e => e == ev) c.evpipes.items = Option.none :=
      idxOf?_eq_none _ _ (fun e he => by
        simpa using hev e he)
    simp [sr_shmmain_state_del_evpipe, hsome, hno]
  · have hsw : sweepDel (fun u => u.evpipe_num == ev) r.subs.items 0 = (r.subs.items, []) :=
      sweepDel_no_match _ _ (fun u hu => by simpa using hev u hu) 0
    simp [sr_shmmain_rpc_subscription_del, hr, hsw]
  · have hno : idxOf? (fun u => u.xpath.val == xpath && u.priority == priority)
        r.subs.items = Option.none :=
      idxOf?_eq_none _ _ (fun u hu => by
        have hne := hxp u hu
        by_cases h1 : u.xpath.val = xpath
        · have h2 : u.priority ≠ priority := fun h2 => hne ⟨h1, h2⟩
          simp [h1, h2]
        · simp [h1])
    simp [sr_shmmain_rpc_subscription_del, hr, hno]

/-- Witness for C10: all four no-op cases evaluated on the concrete state. -/
theorem C10_del_noops_witness :
    sr_shmmain_state_del_conn wSt 3 100 = wSt
    ∧ sr_shmmain_state_del_evpipe wSt 2 200 8 = wSt
    ∧ sr_shmmain_rpc_subscription_del wSt 0 "" 0 12 true = (wSt, false, Option.none)
    ∧ sr_shmmain_rpc_subscription_del wSt 0 "/nope" 3 0 false =
        (wSt, false, Option.some SrErr.internal) := by
  refine ⟨((C10_del_noops wSt 3 100 0 0 "" 0).1 (by decide)).1,
    (C10_del_noops wSt 2 200 8 0 "" 0).2.1 1 wConn2 (by decide) (by decide),
    (C10_del_noops wSt 0 0 12 0 "" 0).2.2.1 wRpc (by decide) (by decide),
    (C10_del_noops wSt 0 0 0 0 "/nope" 3).2.2.2 wRpc (by decide) (by decide)⟩

/-! ## C7 — Main lock held-lock bookkeeping -/

/-- C7: a successful shared (read) acquire of the Main lock increments the
calling connection's `main_rcount` and sets its held-lock summary to shared;
the matching release decrements `main_rcount`, clearing the summary exactly
when it reaches zero; a single connection that acquires shared Main twice and
releases twice succeeds both times and ends with `main_rcount = 0`; and a
write-nostate acquire or release changes no per-connection bookkeeping (nor
anything else in the modelled state). -/
theorem C7_lock_bookkeeping (s : St) (ctx pid : Nat) (i : Nat) (c : ConnState)
    (hfind : sr_shmmain_state_find_conn s ctx pid = Option.some (i, c)) :
    (sr_shmmain_lock_remap s ctx pid LMode.rdLock =
      ({ s with main := { s.main with
           readers := s.main.readers + 1
           conn_state := ⟨s.main.conn_state.off, s.main.conn_state.items.set i
             { c with lock := ⟨LMode.rdLock, c.lock.main_rcount + 1⟩ }⟩ } },
       Option.none))
    ∧ (sr_shmmain_unlock s ctx pid LMode.rdLock =
        { s with main := { s.main with
            readers := s.main.readers - 1
            conn_state := ⟨s.main.conn_state.off, s.main.conn_state.items.set i
              { c with lock := ⟨if c.lock.main_rcount - 1 = 0 then LMode.noLock
                  else LMode.rdLock, c.lock.main_rcount - 1⟩ }⟩ } })
    ∧ (c.lock = ⟨LMode.noLock, 0⟩ →
        (let a1 := sr_shmmain_lock_remap s ctx pid LMode.rdLock
         let a2 := sr_shmmain_lock_remap a1.1 ctx pid LMode.rdLock
         let u1 := sr_shmmain_unlock a2.1 ctx pid LMode.rdLock
         let u2 := sr_shmmain_unlock u1 ctx pid LMode.rdLock
         a1.2 = Option.none ∧ a2.2 = Option.none
         ∧ u2.main.conn_state.items[i]? = Option.some c
         ∧ u2.main.readers = s.main.readers))
    ∧ (sr_shmmain_lock_remap s ctx pid LMode.wrNoState = (s, Option.none)
       ∧ sr_shmmain_unlock s ctx pid LMode.wrNoState = s) := by
  simp only [sr_shmmain_state_find_conn] at hfind
  obtain ⟨hilt, higets, hmatch⟩ := idxOf?_some _ _ _ _ hfind
  refine ⟨?_, ?_, ?_, ?_, ?_⟩
  · simp [sr_shmmain_lock_remap, hfind]
  · simp [sr_shmmain_unlock, hfind]
  · intro hlock
    obtain ⟨cx, cp, ce, cl⟩ := c
    have hcl : cl = ⟨LMode.noLock, 0⟩ := hlock
    subst hcl
    have hf1 : idxOf? (connMatch ctx pid)
        (s.main.conn_state.items.set i ⟨cx, cp, ce, ⟨LMode.rdLock, 1⟩⟩) =
        Option.some (i, ⟨cx, cp, ce, ⟨LMode.rdLock, 1⟩⟩) :=
      idxOf?_set_match _ _ _ _ _ hfind hmatch
    have hf2 : idxOf? (connMatch ctx pid)
        (s.main.conn_state.items.set i ⟨cx, cp, ce, ⟨LMode.rdLock, 2⟩⟩) =
        Option.some (i, ⟨cx, cp, ce, ⟨LMode.rdLock, 2⟩⟩) :=
      idxOf?_set_match _ _ _ _ _ hfind hmatch
    have hgl : ∀ (x : ConnState),
        (s.main.conn_state.items.set i x)[i]? = Option.some x :=
      fun x => List.getElem?_set_eq_of_lt _ (by simpa using hilt)
    refine ⟨?_, ?_, ?_, ?_⟩
    · simp [sr_shmmain_lock_remap, hfind]
    · simp [sr_shmmain_lock_remap, hfind, hf1, List.set_set]
    · simp [sr_shmmain_lock_remap, sr_shmmain_unlock, hfind, hf1, hf2,
        List.set_set, hgl]
    · simp [sr_shmmain_lock_remap, sr_shmmain_unlock, hfind, hf1, hf2,
        List.set_set]
  · simp [sr_shmmain_lock_remap]
  · simp [sr_shmmain_unlock]

/-- Witness for C7: the double shared acquire/release round trip evaluated on
the concrete state for connection (1, 100). -/
theorem C7_lock_bookkeeping_witness :
    (sr_shmmain_unlock
      (sr_shmmain_unlock
        (sr_shmmain_lock_remap
          (sr_shmmain_lock_remap wSt 1 100 LMode.rdLock).1 1 100 LMode.rdLock).1
        1 100 LMode.rdLock)
      1 100 LMode.rdLock).main.conn_state.items[0]? = Option.some wConn1 := by
  exact ((C7_lock_bookkeeping wSt 1 100 0 wConn1 (by decide)).2.2.1 (by decide)).2.2.1


/-! ## Master defragmentation theorem -/

theorem all_of_map_eq {α β : Type} (p : α → Bool) (q : β → Bool) (l1 : List α)
    (l2 : List β) (h : l1.map p = l2.map q) (h2 : ∀ y ∈ l2, q y = true) :
    ∀ x ∈ l1, p x = true := by
  intro x hx
  have hmem : p x ∈ l2.map q := h ▸ List.mem_map_of_mem p hx
  obtain ⟨y, hy, hqy⟩ := List.mem_map.mp hmem
  rw [← hqy]
  exact h2 y hy

theorem sum_map_modLive (l : List SrMod) :
    (l.map modLiveBytes).sum =
      (l.map (fun m => shmlen m.name.val)).sum + (l.map modBodyBytes).sum := by
  induction l with
  | nil => simp
  | cons m t ih =>
    simp only [List.map_cons, List.sum_cons, modLiveBytes, ih]
    omega

theorem sum_map_connLive (l : List ConnState) :
    (l.map connLiveBytes).sum =
      l.length * szConn + (l.map (fun c => c.evpipes.items.length * szU32)).sum := by
  induction l with
  | nil => simp
  | cons c t ih =>
    simp only [List.map_cons, List.sum_cons, connLiveBytes, ih, List.length_cons]
    ring

theorem sum_map_rpcLive (l : List Rpc) :
    (l.map rpcLiveBytes).sum =
      l.length * szRpc + (l.map (fun r => strBytes r.op_path)).sum
      + (l.map (fun r => r.subs.items.length * szRpcSub
          + (r.subs.items.map (fun u => strBytes u.xpath)).sum)).sum := by
  induction l with
  | nil => simp
  | cons r t ih =>
    simp only [List.map_cons, List.sum_cons, rpcLiveBytes, ih, List.length_cons]
    ring

/-- The defrag build pass: writes exactly `sizeof(size_t) + live bytes`,
produces a coupled state with wasted 0 and size `ext_size - wasted`. -/
theorem defragBuild_spec (s : St) (hc : coupled s = true) :
    (defragBuild s).2 = szWord + liveBytes s
    ∧ coupled (defragBuild s).1 = true
    ∧ (defragBuild s).1.wasted = 0
    ∧ (defragBuild s).1.ext_size = s.ext_size - s.wasted
    ∧ (defragBuild s).1.oper_data = s.oper_data := by
  simp only [coupled, Bool.and_eq_true] at hc
  obtain ⟨⟨⟨⟨hmods, hconnArr⟩, hconns⟩, hrpcArr⟩, hrpcs⟩ := hc
  -- pass 1: names
  have hn := defragNames_bytes s.mods szWord
  have hnb := defragNames_map modBodyBytes (fun m x => rfl) s.mods szWord
  have hnm := defragNames_map modOk (fun m x => rfl) s.mods szWord
  have hok1 : ∀ m ∈ (defragNames s.mods szWord).1, modOk m = true :=
    all_of_map_eq modOk modOk _ _ hnm (List.all_eq_true.mp hmods)
  have hcur1 : 0 < (defragNames s.mods szWord).2 := by
    rw [hn]; simp [szWord]
  -- pass 2: per-module arrays
  obtain ⟨hml1, hml2, hml3⟩ := defragModList_spec (defragNames s.mods szWord).1
    (defragNames s.mods szWord).1 (defragNames s.mods szWord).2 hok1 hcur1
  have hbodies : ((defragNames s.mods szWord).1.map modBodyBytes).sum =
      (s.mods.map modBodyBytes).sum := congrArg List.sum hnb
  have hcur2 : 0 < (defragModList (defragNames s.mods szWord).1
      (defragNames s.mods szWord).1 (defragNames s.mods szWord).2).2 := by
    rw [hml3]; omega
  -- pass 3: connection state
  have hcur3 : 0 < (shmAlloc (defragModList (defragNames s.mods szWord).1
      (defragNames s.mods szWord).1 (defragNames s.mods szWord).2).2
      (s.main.conn_state.items.length * szConn)).2 := by
    rw [shmAlloc_snd]; omega
  obtain ⟨hev1, hev2, hev3⟩ := defragEvpipes_spec s.main.conn_state.items
    (shmAlloc (defragModList (defragNames s.mods szWord).1
      (defragNames s.mods szWord).1 (defragNames s.mods szWord).2).2
      (s.main.conn_state.items.length * szConn)).2 hcur3
  have hcur4 : 0 < (defragEvpipes s.main.conn_state.items
      (shmAlloc (defragModList (defragNames s.mods szWord).1
        (defragNames s.mods szWord).1 (defragNames s.mods szWord).2).2
        (s.main.conn_state.items.length * szConn)).2).2 := by
    rw [hev3]; omega
  -- pass 4: RPC array and subscriptions
  obtain ⟨hrr1, hrr2, hrr3⟩ := copy_array_with_string_spec
    (fun r => r.op_path) (fun r x => { r with op_path := x }) szRpc s.main.rpc
    (defragEvpipes s.main.conn_state.items
      (shmAlloc (defragModList (defragNames s.mods szWord).1
        (defragNames s.mods szWord).1 (defragNames s.mods szWord).2).2
        (s.main.conn_state.items.length * szConn)).2).2 hrpcArr hcur4
  have hsubsmap : (sr_shmmain_defrag_copy_array_with_string
      (fun r => r.op_path) (fun r x => { r with op_path := x }) szRpc s.main.rpc
      (defragEvpipes s.main.conn_state.items
        (shmAlloc (defragModList (defragNames s.mods szWord).1
          (defragNames s.mods szWord).1 (defragNames s.mods szWord).2).2
          (s.main.conn_state.items.length * szConn)).2).2).1.items.map
        (fun r => r.subs) = s.main.rpc.items.map (fun r => r.subs) := by
    by_cases hcond : s.main.rpc.off = 0 ∧ s.main.rpc.items.length = 0
    · have hnil : s.main.rpc.items = [] := List.length_eq_zero.mp hcond.2
      simp [sr_shmmain_defrag_copy_array_with_string, hcond, hnil]
    · simp only [sr_shmmain_defrag_copy_array_with_string, if_neg hcond]
      exact copyStrItems_map _ _ _ (fun x c => rfl) _ _
  have hrrok : ∀ r ∈ (sr_shmmain_defrag_copy_array_with_string
      (fun r => r.op_path) (fun r x => { r with op_path := x }) szRpc s.main.rpc
      (defragEvpipes s.main.conn_state.items
        (shmAlloc (defragModList (defragNames s.mods szWord).1
          (defragNames s.mods szWord).1 (defragNames s.mods szWord).2).2
          (s.main.conn_state.items.length * szConn)).2).2).1.items,
      rpcOk r = true := by
    intro r hr
    have hmem : r.subs ∈ s.main.rpc.items.map (fun r => r.subs) := by
      rw [← hsubsmap]
      exact List.mem_map_of_mem _ hr
    obtain ⟨r0, hr0, hpair⟩ := List.mem_map.mp hmem
    have := List.all_eq_true.mp hrpcs r0 hr0
    simp only [rpcOk] at this ⊢
    rw [← hpair]
    exact this
  obtain ⟨hrs1, hrs2, hrs3⟩ := defragRpcSubs_spec
    (sr_shmmain_defrag_copy_array_with_string
      (fun r => r.op_path) (fun r x => { r with op_path := x }) szRpc s.main.rpc
      (defragEvpipes s.main.conn_state.items
        (shmAlloc (defragModList (defragNames s.mods szWord).1
          (defragNames s.mods szWord).1 (defragNames s.mods szWord).2).2
          (s.main.conn_state.items.length * szConn)).2).2).1.items
    (sr_shmmain_defrag_copy_array_with_string
      (fun r => r.op_path) (fun r x => { r with op_path := x }) szRpc s.main.rpc
      (defragEvpipes s.main.conn_state.items
        (shmAlloc (defragModList (defragNames s.mods szWord).1
          (defragNames s.mods szWord).1 (defragNames s.mods szWord).2).2
          (s.main.conn_state.items.length * szConn)).2).2).2
    hrrok (by omega)
  -- convert the per-RPC subscription byte sums back to the original RPC list
  have hsubbytes : ((sr_shmmain_defrag_copy_array_with_string
      (fun r => r.op_path) (fun r x => { r with op_path := x }) szRpc s.main.rpc
      (defragEvpipes s.main.conn_state.items
        (shmAlloc (defragModList (defragNames s.mods szWord).1
          (defragNames s.mods szWord).1 (defragNames s.mods szWord).2).2
          (s.main.conn_state.items.length * szConn)).2).2).1.items.map
        (fun r => r.subs.items.length * szRpcSub
          + (r.subs.items.map (fun u => strBytes u.xpath)).sum)).sum =
      (s.main.rpc.items.map (fun r => r.subs.items.length * szRpcSub
          + (r.subs.items.map (fun u => strBytes u.xpath)).sum)).sum := by
    have h1 := congrArg (List.map (fun a : ShmArr RpcSub =>
      a.items.length * szRpcSub + (a.items.map (fun u => strBytes u.xpath)).sum)) hsubsmap
    have h2 := congrArg List.sum h1
    rw [List.map_map, List.map_map] at h2
    exact h2
  refine ⟨?_, ?_, rfl, rfl, rfl⟩
  · show (defragRpcSubs _ _).2 = szWord + liveBytes s
    have h5 : (sr_shmmain_defrag_copy_array_with_string
        (fun r => r.op_path) (fun r x => { r with op_path := x }) szRpc s.main.rpc
        (defragEvpipes s.main.conn_state.items
          (shmAlloc (defragModList (defragNames s.mods szWord).1
            (defragNames s.mods szWord).1 (defragNames s.mods szWord).2).2
            (s.main.conn_state.items.length * szConn)).2).2).2 =
        (defragEvpipes s.main.conn_state.items
          (shmAlloc (defragModList (defragNames s.mods szWord).1
            (defragNames s.mods szWord).1 (defragNames s.mods szWord).2).2
            (s.main.conn_state.items.length * szConn)).2).2
        + s.main.rpc.items.length * szRpc
        + (s.main.rpc.items.map (fun r => strBytes r.op_path)).sum := hrr3
    have h3 : (shmAlloc (defragModList (defragNames s.mods szWord).1
        (defragNames s.mods szWord).1 (defragNames s.mods szWord).2).2
        (s.main.conn_state.items.length * szConn)).2 =
        (defragModList (defragNames s.mods szWord).1
          (defragNames s.mods szWord).1 (defragNames s.mods szWord).2).2
        + s.main.conn_state.items.length * szConn := shmAlloc_snd _ _
    have hlive : liveBytes s = (s.mods.map modLiveBytes).sum
        + (s.main.conn_state.items.map connLiveBytes).sum
        + (s.main.rpc.items.map rpcLiveBytes).sum := rfl
    have hm := sum_map_modLive s.mods
    have hcn := sum_map_connLive s.main.conn_state.items
    have hrp := sum_map_rpcLive s.main.rpc.items
    omega
  · show coupled { s with
        mods := (defragModList (defragNames s.mods szWord).1
          (defragNames s.mods szWord).1 (defragNames s.mods szWord).2).1
        main := { s.main with
          conn_state := ⟨(shmAlloc (defragModList (defragNames s.mods szWord).1
              (defragNames s.mods szWord).1 (defragNames s.mods szWord).2).2
              (s.main.conn_state.items.length * szConn)).1,
            (defragEvpipes s.main.conn_state.items
              (shmAlloc (defragModList (defragNames s.mods szWord).1
                (defragNames s.mods szWord).1 (defragNames s.mods szWord).2).2
                (s.main.conn_state.items.length * szConn)).2).1⟩
          rpc := ⟨(sr_shmmain_defrag_copy_array_with_string
              (fun r => r.op_path) (fun r x => { r with op_path := x }) szRpc s.main.rpc
              (defragEvpipes s.main.conn_state.items
                (shmAlloc (defragModList (defragNames s.mods szWord).1
                  (defragNames s.mods szWord).1 (defragNames s.mods szWord).2).2
                  (s.main.conn_state.items.length * szConn)).2).2).1.off,
            (defragRpcSubs (sr_shmmain_defrag_copy_array_with_string
              (fun r => r.op_path) (fun r x => { r with op_path := x }) szRpc s.main.rpc
              (defragEvpipes s.main.conn_state.items
                (shmAlloc (defragModList (defragNames s.mods szWord).1
                  (defragNames s.mods szWord).1 (defragNames s.mods szWord).2).2
                  (s.main.conn_state.items.length * szConn)).2).2).1.items
              (sr_shmmain_defrag_copy_array_with_string
              (fun r => r.op_path) (fun r x => { r with op_path := x }) szRpc s.main.rpc
              (defragEvpipes s.main.conn_state.items
                (shmAlloc (defragModList (defragNames s.mods szWord).1
                  (defragNames s.mods szWord).1 (defragNames s.mods szWord).2).2
                  (s.main.conn_state.items.length * szConn)).2).2).2).1⟩ }
        ext_size := s.ext_size - s.wasted
        wasted := 0 } = true
    have hevlen : (defragEvpipes s.main.conn_state.items
        (shmAlloc (defragModList (defragNames s.mods szWord).1
          (defragNames s.mods szWord).1 (defragNames s.mods szWord).2).2
          (s.main.conn_state.items.length * szConn)).2).1.length =
        s.main.conn_state.items.length := by
      have := congrArg List.length hev2
      simpa using this
    have hconnArrOk : arrOk (⟨(shmAlloc (defragModList (defragNames s.mods szWord).1
        (defragNames s.mods szWord).1 (defragNames s.mods szWord).2).2
        (s.main.conn_state.items.length * szConn)).1,
        (defragEvpipes s.main.conn_state.items
          (shmAlloc (defragModList (defragNames s.mods szWord).1
            (defragNames s.mods szWord).1 (defragNames s.mods szWord).2).2
            (s.main.conn_state.items.length * szConn)).2).1⟩ : ShmArr ConnState)
        = true := by
      by_cases hz : s.main.conn_state.items.length = 0
      · have h0 : s.main.conn_state.items.length * szConn = 0 := by rw [hz]; ring
        have hnil : (defragEvpipes s.main.conn_state.items
            (shmAlloc (defragModList (defragNames s.mods szWord).1
              (defragNames s.mods szWord).1 (defragNames s.mods szWord).2).2
              (s.main.conn_state.items.length * szConn)).2).1 = [] := by
          rw [← List.length_eq_zero, hevlen]
          exact hz
        rw [shmAlloc_snd, h0] at hnil
        simp only [Nat.add_zero] at hnil
        simp [arrOk, shmAlloc, h0, hnil]
      · have h0 : s.main.conn_state.items.length * szConn ≠ 0 := by
          intro hcz
          rcases Nat.mul_eq_zero.mp hcz with h | h
          · exact hz h
          · exact absurd h (by decide)
        have hnn : (defragEvpipes s.main.conn_state.items
            (shmAlloc (defragModList (defragNames s.mods szWord).1
              (defragNames s.mods szWord).1 (defragNames s.mods szWord).2).2
              (s.main.conn_state.items.length * szConn)).2).1.isEmpty = false := by
          rw [List.isEmpty_eq_false_iff_exists_mem]
          apply List.exists_mem_of_ne_nil
          intro hcn
          have := congrArg List.length hcn
          rw [hevlen] at this
          exact hz (by simpa using this)
        rw [shmAlloc_snd] at hnn
        simp [arrOk, shmAlloc, h0, hnn, Nat.pos_iff_ne_zero.mp hcur2]
    have hrpcArrOk : arrOk (⟨(sr_shmmain_defrag_copy_array_with_string
        (fun r => r.op_path) (fun r x => { r with op_path := x }) szRpc s.main.rpc
        (defragEvpipes s.main.conn_state.items
          (shmAlloc (defragModList (defragNames s.mods szWord).1
            (defragNames s.mods szWord).1 (defragNames s.mods szWord).2).2
            (s.main.conn_state.items.length * szConn)).2).2).1.off,
        (defragRpcSubs (sr_shmmain_defrag_copy_array_with_string
          (fun r => r.op_path) (fun r x => { r with op_path := x }) szRpc s.main.rpc
          (defragEvpipes s.main.conn_state.items
            (shmAlloc (defragModList (defragNames s.mods szWord).1
              (defragNames s.mods szWord).1 (defragNames s.mods szWord).2).2
              (s.main.conn_state.items.length * szConn)).2).2).1.items
          (sr_shmmain_defrag_copy_array_with_string
          (fun r => r.op_path) (fun r x => { r with op_path := x }) szRpc s.main.rpc
          (defragEvpipes s.main.conn_state.items
            (shmAlloc (defragModList (defragNames s.mods szWord).1
              (defragNames s.mods szWord).1 (defragNames s.mods szWord).2).2
              (s.main.conn_state.items.length * szConn)).2).2).2).1⟩ : ShmArr Rpc)
        = true := by
      have hlen2 : (defragRpcSubs (sr_shmmain_defrag_copy_array_with_string
          (fun r => r.op_path) (fun r x => { r with op_path := x }) szRpc s.main.rpc
          (defragEvpipes s.main.conn_state.items
            (shmAlloc (defragModList (defragNames s.mods szWord).1
              (defragNames s.mods szWord).1 (defragNames s.mods szWord).2).2
              (s.main.conn_state.items.length * szConn)).2).2).1.items
          (sr_shmmain_defrag_copy_array_with_string
          (fun r => r.op_path) (fun r x => { r with op_path := x }) szRpc s.main.rpc
          (defragEvpipes s.main.conn_state.items
            (shmAlloc (defragModList (defragNames s.mods szWord).1
              (defragNames s.mods szWord).1 (defragNames s.mods szWord).2).2
              (s.main.conn_state.items.length * szConn)).2).2).2).1.length =
          (sr_shmmain_defrag_copy_array_with_string
          (fun r => r.op_path) (fun r x => { r with op_path := x }) szRpc s.main.rpc
          (defragEvpipes s.main.conn_state.items
            (shmAlloc (defragModList (defragNames s.mods szWord).1
              (defragNames s.mods szWord).1 (defragNames s.mods szWord).2).2
              (s.main.conn_state.items.length * szConn)).2).2).1.items.length := by
        have := congrArg List.length hrs2
        simpa using this
      have he := isEmpty_eq_of_length_eq _ _ hlen2
      simp only [arrOk] at hrr1 ⊢
      rw [he]
      exact hrr1
    simp only [coupled, Bool.and_eq_true]
    exact ⟨⟨⟨⟨List.all_eq_true.mpr hml1, hconnArrOk⟩,
      List.all_eq_true.mpr hev1⟩, hrpcArrOk⟩, List.all_eq_true.mpr hrs1⟩


/-- C2: the defragmenter produces a state whose Ext size is exactly
`ext_size - wasted` with the wasted counter reset to 0; when the bytes
written by the build pass differ from `ext_size - wasted` it returns an
internal error instead of a buffer; and under the accounting invariant I2 it
succeeds, the bytes written being exactly the counter word plus the live
bytes. -/
theorem C2_defrag_size (s : St) (hc : coupled s = true) :
    (defragBuild s).2 = szWord + liveBytes s
    ∧ (∀ s2, sr_shmmain_ext_defrag s = Except.ok s2 →
        s2.ext_size = s.ext_size - s.wasted ∧ s2.wasted = 0)
    ∧ ((defragBuild s).2 ≠ s.ext_size - s.wasted →
        sr_shmmain_ext_defrag s = Except.error SrErr.internal)
    ∧ (I2 s → sr_shmmain_ext_defrag s = Except.ok (defragBuild s).1) := by
  obtain ⟨h1, h2, h3, h4, h5⟩ := defragBuild_spec s hc
  refine ⟨h1, ?_, ?_, ?_⟩
  · intro s2 hok
    unfold sr_shmmain_ext_defrag at hok
    by_cases hcond : (defragBuild s).2 = s.ext_size - s.wasted
    · rw [if_pos hcond] at hok
      cases hok
      exact ⟨h4, h3⟩
    · rw [if_neg hcond] at hok
      cases hok
  · intro hne
    unfold sr_shmmain_ext_defrag
    rw [if_neg hne]
  · intro hI2
    unfold sr_shmmain_ext_defrag
    rw [if_pos]
    rw [h1]
    unfold I2 at hI2
    omega

/-- Witness for C2, evaluated at the compact fixture state. -/
theorem C2_defrag_size_witness :
    coupled w2St = true ∧ I2 w2St
    ∧ sr_shmmain_ext_defrag w2St = Except.ok (defragBuild w2St).1 :=
  ⟨by decide, by decide, (C2_defrag_size w2St (by decide)).2.2.2 (by decide)⟩

/-- C3: the install size precomputation is wrong whenever a module has a
non-empty operational-subscription array.  Line 1044 multiplies the array
anchor `shm_mod->oper_subs` — an Ext OFFSET — by the record size where the
surrounding lines use the counts, so on `bSt` (offset 10, count 1) install
precomputes 255 bytes where the content needs 39; the final end-position
check then fails and install returns an internal error on a perfectly
well-formed input. -/
theorem C3_install_size_bug :
    I2 bSt
    ∧ modSizeOf bMod = 243
    ∧ modSizeOfIntended bMod = 27
    ∧ (sr_shmmain_add bSt [lyM, lyN]).2 = Option.some SrErr.internal := by
  refine ⟨by decide, by decide, by decide, by decide⟩

/-- C4: the accounting invariant I2 does not survive every Ext-mutating
operation: after one install on `bSt` (well formed, I2 holds) the Ext size
was grown to the miscomputed 255 bytes (line 1044 uses the
oper-subscription array OFFSET rather than its count) while the live
objects plus the wasted counter account for 39, so I2 is broken in the
resulting state. -/
theorem C4_invariant_broken_by_install :
    I2 bSt ∧ ¬ I2 (sr_shmmain_add bSt [lyM, lyN]).1 := by
  refine ⟨by decide, by decide⟩


/-! ## Coupling preservation (claim C9)

Helper lemmas about anchors, then one preservation lemma per operation. -/

theorem arrOk_of_length_eq {α β : Type} (off : Nat) (l1 : List α) (l2 : List β)
    (hlen : l1.length = l2.length) (h : arrOk ⟨off, l2⟩ = true) :
    arrOk (⟨off, l1⟩ : ShmArr α) = true := by
  simpa [arrOk, isEmpty_eq_of_length_eq l1 l2 hlen] using h

theorem arrOk_append_pos {α : Type} (off : Nat) (l : List α) (x : α)
    (h : 0 < off) : arrOk (⟨off, l ++ [x]⟩ : ShmArr α) = true := by
  have h1 : (l ++ [x]).isEmpty = false := by
    cases hcc : l ++ [x] with
    | nil => exact absurd hcc (by simp)
    | cons a t => rfl
  simp [arrOk, Nat.pos_iff_ne_zero.mp h, h1]

theorem arrOk_clear {α : Type} (off : Nat) (items : List α) (hoff : off ≠ 0) :
    arrOk (⟨if items.isEmpty then 0 else off, items⟩ : ShmArr α) = true := by
  cases h : items.isEmpty with
  | true => simp [arrOk, h]
  | false => simp [arrOk, h, hoff]

theorem arrOk_off_ne_zero {α : Type} (a : ShmArr α) (h : arrOk a = true)
    (hne : a.items ≠ []) : a.off ≠ 0 := by
  intro hc
  rw [arrOk, hc] at h
  simp [List.isEmpty_iff] at h
  exact hne h

theorem all_set {α : Type} {p : α → Bool} {l : List α} {i : Nat} {x : α}
    (hl : l.all p = true) (hx : p x = true) : (l.set i x).all p = true := by
  rw [List.all_eq_true] at hl ⊢
  intro y hy
  rcases List.mem_or_eq_of_mem_set hy with h | h
  · exact hl y h
  · subst h; exact hx

theorem mem_getLast? {α : Type} {l : List α} {a : α} (h : l.getLast? = Option.some a) :
    a ∈ l := by
  have hm : a ∈ l.getLast? := by rw [h]; rfl
  have hd := List.dropLast_append_getLast? a hm
  rw [← hd]
  simp

theorem mem_swapRemove {α : Type} {l : List α} {i : Nat} {y : α}
    (h : y ∈ swapRemove l i) : y ∈ l := by
  unfold swapRemove at h
  cases hx : l.getLast? with
  | none => rw [hx] at h; simp at h
  | some x =>
    rw [hx] at h
    have h1 : y ∈ l.set i x := List.dropLast_subset _ h
    rcases List.mem_or_eq_of_mem_set h1 with h2 | h2
    · exact h2
    · subst h2; exact mem_getLast? hx

theorem all_swapRemove {α : Type} {p : α → Bool} {l : List α} {i : Nat}
    (h : l.all p = true) : (swapRemove l i).all p = true := by
  rw [List.all_eq_true] at h ⊢
  intro y hy
  exact h y (mem_swapRemove hy)

theorem all_filter_sub {α : Type} {p q : α → Bool} {l : List α}
    (h : l.all p = true) : (l.filter q).all p = true := by
  rw [List.all_eq_true] at h ⊢
  intro y hy
  exact h y (List.mem_of_mem_filter hy)

theorem idxOf?_ne_nil {α : Type} {p : α → Bool} {l : List α} {q : Nat × α}
    (h : idxOf? p l = Option.some q) : l ≠ [] := by
  intro hc
  subst hc
  simp [idxOf?] at h

theorem sweepDel_nil {α : Type} (p : α → Bool) (i : Nat) :
    sweepDel p ([] : List α) i = ([], []) := by
  unfold sweepDel
  simp

theorem add_conn_coupled (s : St) (ctx pid : Nat) (hc : coupled s = true)
    (hext : 0 < s.ext_size) :
    coupled (sr_shmmain_state_add_conn s ctx pid) = true := by
  unfold coupled at hc ⊢
  simp only [Bool.and_eq_true] at hc
  obtain ⟨⟨⟨⟨hmods, hca⟩, hcs⟩, hra⟩, hrs⟩ := hc
  unfold sr_shmmain_state_add_conn
  simp only [Bool.and_eq_true]
  refine ⟨⟨⟨⟨hmods, ?_⟩, ?_⟩, hra⟩, hrs⟩
  · exact arrOk_append_pos _ _ _ hext
  · rw [List.all_append]
    simp only [Bool.and_eq_true]
    exact ⟨hcs, by simp [connOk, arrOk]⟩

theorem del_conn_coupled (s : St) (ctx pid : Nat) (hc : coupled s = true) :
    coupled (sr_shmmain_state_del_conn s ctx pid) = true := by
  cases hfind : idxOf? (connMatch ctx pid) s.main.conn_state.items with
  | none => simpa [sr_shmmain_state_del_conn, hfind] using hc
  | some q =>
    obtain ⟨i, c⟩ := q
    unfold coupled at hc ⊢
    simp only [Bool.and_eq_true] at hc
    obtain ⟨⟨⟨⟨hmods, hca⟩, hcs⟩, hra⟩, hrs⟩ := hc
    simp only [sr_shmmain_state_del_conn, hfind, Bool.and_eq_true]
    refine ⟨⟨⟨⟨hmods, ?_⟩, ?_⟩, hra⟩, hrs⟩
    · exact arrOk_clear _ _ (arrOk_off_ne_zero _ hca (idxOf?_ne_nil hfind))
    · exact all_swapRemove hcs

theorem add_evpipe_coupled (s : St) (ctx pid ev : Nat) (hc : coupled s = true)
    (hext : 0 < s.ext_size) :
    coupled (sr_shmmain_state_add_evpipe s ctx pid ev).1 = true := by
  cases hfind : idxOf? (connMatch ctx pid) s.main.conn_state.items with
  | none => simpa [sr_shmmain_state_add_evpipe, hfind] using hc
  | some q =>
    obtain ⟨i, c⟩ := q
    unfold coupled at hc ⊢
    simp only [Bool.and_eq_true] at hc
    obtain ⟨⟨⟨⟨hmods, hca⟩, hcs⟩, hra⟩, hrs⟩ := hc
    simp only [sr_shmmain_state_add_evpipe, hfind, Bool.and_eq_true]
    refine ⟨⟨⟨⟨hmods, ?_⟩, ?_⟩, hra⟩, hrs⟩
    · exact arrOk_of_length_eq _ _ s.main.conn_state.items (by simp) hca
    · exact all_set hcs (by simp [connOk]; exact arrOk_append_pos _ _ _ hext)

theorem del_evpipe_coupled (s : St) (ctx pid ev : Nat) (hc : coupled s = true) :
    coupled (sr_shmmain_state_del_evpipe s ctx pid ev) = true := by
  cases hfind : idxOf? (connMatch ctx pid) s.main.conn_state.items with
  | none => simpa [sr_shmmain_state_del_evpipe, hfind] using hc
  | some q =>
    obtain ⟨i, c⟩ := q
    cases hfind2 : idxOf? (fun e => e == ev) c.evpipes.items with
    | none => simpa [sr_shmmain_state_del_evpipe, hfind, hfind2] using hc
    | some q2 =>
      obtain ⟨j, e⟩ := q2
      unfold coupled at hc ⊢
      simp only [Bool.and_eq_true] at hc
      obtain ⟨⟨⟨⟨hmods, hca⟩, hcs⟩, hra⟩, hrs⟩ := hc
      have hcmem : c ∈ s.main.conn_state.items :=
        List.getElem?_mem (idxOf?_some _ _ _ _ hfind).2.1
      have hcok : connOk c = true := List.all_eq_true.mp hcs c hcmem
      simp only [sr_shmmain_state_del_evpipe, hfind, hfind2, Bool.and_eq_true]
      refine ⟨⟨⟨⟨hmods, ?_⟩, ?_⟩, hra⟩, hrs⟩
      · exact arrOk_of_length_eq _ _ s.main.conn_state.items (by simp) hca
      · refine all_set hcs ?_
        simp only [connOk]
        exact arrOk_clear _ _
          (arrOk_off_ne_zero _ hcok (idxOf?_ne_nil hfind2))

theorem add_rpc_coupled (s : St) (op_path : String) (hc : coupled s = true)
    (hext : 0 < s.ext_size) :
    coupled (sr_shmmain_add_rpc s op_path) = true := by
  unfold coupled at hc ⊢
  simp only [Bool.and_eq_true] at hc
  obtain ⟨⟨⟨⟨hmods, hca⟩, hcs⟩, hra⟩, hrs⟩ := hc
  unfold sr_shmmain_add_rpc
  simp only [Bool.and_eq_true]
  refine ⟨⟨⟨⟨hmods, hca⟩, hcs⟩, ?_⟩, ?_⟩
  · exact arrOk_append_pos _ _ _ hext
  · rw [List.all_append]
    simp only [Bool.and_eq_true]
    exact ⟨hrs, by simp [rpcOk, arrOk]⟩

theorem del_rpc_coupled (s : St) (off : Nat) (hc : coupled s = true) :
    coupled (sr_shmmain_del_rpc_by_off s off).1 = true := by
  cases hfind : idxOf? (fun r => r.op_path.off == off) s.main.rpc.items with
  | none => simpa [sr_shmmain_del_rpc_by_off, hfind] using hc
  | some q =>
    obtain ⟨i, r⟩ := q
    unfold coupled at hc ⊢
    simp only [Bool.and_eq_true] at hc
    obtain ⟨⟨⟨⟨hmods, hca⟩, hcs⟩, hra⟩, hrs⟩ := hc
    simp only [sr_shmmain_del_rpc_by_off, hfind, Bool.and_eq_true]
    refine ⟨⟨⟨⟨hmods, hca⟩, hcs⟩, ?_⟩, ?_⟩
    · exact arrOk_clear _ _ (arrOk_off_ne_zero _ hra (idxOf?_ne_nil hfind))
    · exact all_swapRemove hrs

theorem rpc_sub_add_coupled (s : St) (ri : Nat) (xpath : String)
    (priority opts ev : Nat) (hc : coupled s = true) (hext : 0 < s.ext_size) :
    coupled (sr_shmmain_rpc_subscription_add s ri xpath priority opts ev) = true := by
  cases hget : s.main.rpc.items[ri]? with
  | none => simpa [sr_shmmain_rpc_subscription_add, hget] using hc
  | some r =>
    unfold coupled at hc ⊢
    simp only [Bool.and_eq_true] at hc
    obtain ⟨⟨⟨⟨hmods, hca⟩, hcs⟩, hra⟩, hrs⟩ := hc
    simp only [sr_shmmain_rpc_subscription_add, hget, Bool.and_eq_true]
    refine ⟨⟨⟨⟨hmods, hca⟩, hcs⟩, ?_⟩, ?_⟩
    · exact arrOk_of_length_eq _ _ s.main.rpc.items (by simp) hra
    · exact all_set hrs (by simp [rpcOk]; exact arrOk_append_pos _ _ _ hext)

theorem rpc_sub_del_coupled (s : St) (ri : Nat) (xpath : String)
    (priority ev : Nat) (all_evpipe : Bool) (hc : coupled s = true) :
    coupled (sr_shmmain_rpc_subscription_del s ri xpath priority ev all_evpipe).1
      = true := by
  cases hget : s.main.rpc.items[ri]? with
  | none => simpa [sr_shmmain_rpc_subscription_del, hget] using hc
  | some r =>
    have hrmem : r ∈ s.main.rpc.items := List.getElem?_mem hget
    unfold coupled at hc
    simp only [Bool.and_eq_true] at hc
    obtain ⟨⟨⟨⟨hmods, hca⟩, hcs⟩, hra⟩, hrs⟩ := hc
    have hrok : rpcOk r = true := List.all_eq_true.mp hrs r hrmem
    cases hall : all_evpipe with
    | true =>
      by_cases hrem : (sweepDel (fun u => u.evpipe_num == ev) r.subs.items 0).2.isEmpty
      · simpa [sr_shmmain_rpc_subscription_del, hget, hrem] using
          (by unfold coupled; simp only [Bool.and_eq_true];
              exact ⟨⟨⟨⟨hmods, hca⟩, hcs⟩, hra⟩, hrs⟩)
      · have hne : r.subs.items ≠ [] := by
          intro hcn
          rw [hcn, sweepDel_nil] at hrem
          simp at hrem
        unfold coupled
        simp only [sr_shmmain_rpc_subscription_del, hget, hrem, Bool.and_eq_true,
          if_false, Bool.false_eq_true]
        refine ⟨⟨⟨⟨hmods, hca⟩, hcs⟩, ?_⟩, ?_⟩
        · exact arrOk_of_length_eq _ _ s.main.rpc.items (by simp) hra
        · refine all_set hrs ?_
          simp only [rpcOk]
          exact arrOk_clear _ _ (arrOk_off_ne_zero _ hrok hne)
    | false =>
      cases hfind : idxOf?
          (fun u => u.xpath.val == xpath && u.priority == priority) r.subs.items with
      | none =>
        simpa [sr_shmmain_rpc_subscription_del, hget, hfind] using
          (by unfold coupled; simp only [Bool.and_eq_true];
              exact ⟨⟨⟨⟨hmods, hca⟩, hcs⟩, hra⟩, hrs⟩)
      | some q =>
        obtain ⟨j, u⟩ := q
        unfold coupled
        simp only [sr_shmmain_rpc_subscription_del, hget, hfind, Bool.and_eq_true]
        refine ⟨⟨⟨⟨hmods, hca⟩, hcs⟩, ?_⟩, ?_⟩
        · exact arrOk_of_length_eq _ _ s.main.rpc.items (by simp) hra
        · refine all_set hrs ?_
          simp only [rpcOk]
          exact arrOk_clear _ _
            (arrOk_off_ne_zero _ hrok (idxOf?_ne_nil hfind))

/-- Replacing one connection record (same anchor offset) keeps the state
coupled when the new record is. -/
theorem set_conn_coupled (s : St) (i : Nat) (c2 : ConnState)
    (hc : coupled s = true) (hok : connOk c2 = true) :
    coupled { s with main := { s.main with conn_state :=
      ⟨s.main.conn_state.off, s.main.conn_state.items.set i c2⟩ } } = true := by
  unfold coupled at hc ⊢
  simp only [Bool.and_eq_true] at hc ⊢
  obtain ⟨⟨⟨⟨hmods, hca⟩, hcs⟩, hra⟩, hrs⟩ := hc
  refine ⟨⟨⟨⟨hmods, ?_⟩, ?_⟩, hra⟩, hrs⟩
  · exact arrOk_of_length_eq _ _ s.main.conn_state.items (by simp) hca
  · exact all_set hcs hok

theorem lock_remap_coupled (s : St) (ctx pid : Nat) (mode : LMode)
    (hc : coupled s = true) :
    coupled (sr_shmmain_lock_remap s ctx pid mode).1 = true := by
  have hconnok : ∀ c ∈ s.main.conn_state.items, connOk c = true := by
    unfold coupled at hc
    simp only [Bool.and_eq_true] at hc
    exact List.all_eq_true.mp hc.1.1.2
  unfold sr_shmmain_lock_remap
  by_cases hw : mode = LMode.wrNoState
  · simp only [if_pos hw]
    by_cases hm : mode = LMode.rdLock
    · simp only [if_pos hm]; exact hc
    · simp only [if_neg hm]; exact hc
  · simp only [if_neg hw]
    by_cases hm : mode = LMode.rdLock
    · simp only [if_pos hm]
      cases hfind : idxOf? (connMatch ctx pid) s.main.conn_state.items with
      | none => simp only [hfind]; exact hc
      | some q =>
        obtain ⟨i, c⟩ := q
        simp only [hfind]
        have hcok := hconnok c (List.getElem?_mem (idxOf?_some _ _ _ _ hfind).2.1)
        exact set_conn_coupled
          { s with main := { s.main with readers := s.main.readers + 1 } }
          i { c with lock := ⟨LMode.rdLock, c.lock.main_rcount + 1⟩ } hc hcok
    · simp only [if_neg hm]
      cases hfind : idxOf? (connMatch ctx pid) s.main.conn_state.items with
      | none => simp only [hfind]; exact hc
      | some q =>
        obtain ⟨i, c⟩ := q
        simp only [hfind]
        have hcok := hconnok c (List.getElem?_mem (idxOf?_some _ _ _ _ hfind).2.1)
        exact set_conn_coupled s i { c with lock := ⟨mode, c.lock.main_rcount⟩ } hc hcok

theorem unlock_coupled (s : St) (ctx pid : Nat) (mode : LMode)
    (hc : coupled s = true) :
    coupled (sr_shmmain_unlock s ctx pid mode) = true := by
  have hconnok : ∀ c ∈ s.main.conn_state.items, connOk c = true := by
    unfold coupled at hc
    simp only [Bool.and_eq_true] at hc
    exact List.all_eq_true.mp hc.1.1.2
  unfold sr_shmmain_unlock
  have hs1 : ∀ t : St, coupled t = true →
      coupled (if mode = LMode.rdLock then
        { t with main := { t.main with readers := t.main.readers - 1 } } else t)
        = true := by
    intro t ht
    by_cases hm : mode = LMode.rdLock
    · simp only [if_pos hm]; exact ht
    · simp only [if_neg hm]; exact ht
  by_cases hw : mode = LMode.wrNoState
  · simp only [if_pos hw]
    exact hs1 s hc
  · simp only [if_neg hw]
    cases hfind : idxOf? (connMatch ctx pid) s.main.conn_state.items with
    | none =>
      simp only [hfind]
      exact hs1 s hc
    | some q =>
      obtain ⟨i, c⟩ := q
      simp only [hfind]
      have hcok := hconnok c (List.getElem?_mem (idxOf?_some _ _ _ _ hfind).2.1)
      have hreaders : ∀ t : St, coupled t = true →
          coupled { t with main := { t.main with readers := t.main.readers - 1 } }
            = true := fun t ht => ht
      by_cases hm : mode = LMode.rdLock
      · simp only [if_pos hm]
        exact hreaders _ (set_conn_coupled s i _ hc (by simpa [connOk] using hcok))
      · simp only [if_neg hm]
        exact set_conn_coupled s i _ hc (by simpa [connOk] using hcok)


theorem filter_anchor_ok {α : Type} (a : ShmArr α) (p q : α → Bool)
    (hpq : ∀ x, p x = true ∨ q x = true) (h : arrOk a = true) :
    arrOk (⟨if (a.items.filter p).length = 0 ∧ (a.items.filter q).length ≠ 0
             then 0 else a.off,
           a.items.filter p⟩ : ShmArr α) = true := by
  by_cases hcond : (a.items.filter p).length = 0 ∧ (a.items.filter q).length ≠ 0
  · have hnil : a.items.filter p = [] := List.length_eq_zero.mp hcond.1
    rw [if_pos hcond, arrOk, hnil]
    rfl
  · simp only [if_neg hcond]
    by_cases hk : (a.items.filter p).length = 0
    · have hr : (a.items.filter q).length = 0 := by
        by_contra hr
        exact hcond ⟨hk, hr⟩
      have hnil : a.items = [] := by
        cases hi : a.items with
        | nil => rfl
        | cons x t =>
          exfalso
          rcases hpq x with hx | hx
          · rw [hi] at hk
            simp [List.filter_cons, hx] at hk
          · rw [hi] at hr
            simp [List.filter_cons, hx] at hr
      rw [arrOk, hnil] at h ⊢
      simpa using h
    · have hne : a.items ≠ [] := by
        intro hcn
        rw [hcn] at hk
        simp at hk
      have hoff := arrOk_off_ne_zero a h hne
      have hkne : (a.items.filter p).isEmpty = false := by
        cases hcc : a.items.filter p with
        | nil => rw [hcc] at hk; simp at hk
        | cons b t => rfl
      simp [arrOk, hoff, hkne]

theorem change_sub_del_ok (a : ShmArr ChangeSub) (ev : Nat) (h : arrOk a = true) :
    arrOk (sr_shmmod_change_subscription_del a ev).1 = true := by
  have := filter_anchor_ok a (fun c => c.evpipe_num != ev) (fun c => c.evpipe_num == ev)
    (fun x => by by_cases hx : x.evpipe_num == ev
                 · exact Or.inr hx
                 · exact Or.inl (by simp [bne, hx])) h
  exact this

theorem oper_sub_del_ok (a : ShmArr OperSub) (ev : Nat) (h : arrOk a = true) :
    arrOk (sr_shmmod_oper_subscription_del a ev).1 = true := by
  have := filter_anchor_ok a (fun c => c.evpipe_num != ev) (fun c => c.evpipe_num == ev)
    (fun x => by by_cases hx : x.evpipe_num == ev
                 · exact Or.inr hx
                 · exact Or.inl (by simp [bne, hx])) h
  exact this

theorem modDelEvpipe_modOk (m : SrMod) (ev : Nat) (h : modOk m = true) :
    modOk (modDelEvpipe m ev).1 = true := by
  unfold modOk at h
  simp only [Bool.and_eq_true] at h
  obtain ⟨⟨⟨⟨⟨⟨hf, hd⟩, hi⟩, ho⟩, hod⟩, hcs⟩, hos⟩ := h
  unfold modDelEvpipe modOk
  simp only [Bool.and_eq_true]
  refine ⟨⟨⟨⟨⟨⟨hf, hd⟩, hi⟩, ho⟩, hod⟩, ?_⟩, ?_⟩
  · rw [List.all_eq_true] at hcs ⊢
    intro a ha
    simp only [List.map_map] at ha
    obtain ⟨a0, ha0, hrw⟩ := List.mem_map.mp ha
    rw [← hrw]
    exact change_sub_del_ok a0 ev (hcs a0 ha0)
  · exact oper_sub_del_ok m.oper_subs ev hos

theorem rpc_sub_del_geom (s : St) (ri : Nat) (xpath : String)
    (priority ev : Nat) (all_evpipe : Bool) :
    (sr_shmmain_rpc_subscription_del s ri xpath priority ev all_evpipe).1.ext_size
      = s.ext_size
    ∧ (sr_shmmain_rpc_subscription_del s ri xpath priority ev all_evpipe).1.mods
      = s.mods
    ∧ (sr_shmmain_rpc_subscription_del s ri xpath priority ev
        all_evpipe).1.main.conn_state = s.main.conn_state := by
  cases hget : s.main.rpc.items[ri]? with
  | none => simp [sr_shmmain_rpc_subscription_del, hget]
  | some r =>
    cases hall : all_evpipe with
    | true =>
      by_cases hrem : (sweepDel (fun u => u.evpipe_num == ev) r.subs.items 0).2.isEmpty
      · simp [sr_shmmain_rpc_subscription_del, hget, hrem]
      · simp [sr_shmmain_rpc_subscription_del, hget, hrem]
    | false =>
      cases hfind : idxOf?
          (fun u => u.xpath.val == xpath && u.priority == priority) r.subs.items with
      | none => simp [sr_shmmain_rpc_subscription_del, hget, hfind]
      | some q => simp [sr_shmmain_rpc_subscription_del, hget, hfind]

theorem del_rpc_geom (s : St) (off : Nat) :
    (sr_shmmain_del_rpc_by_off s off).1.ext_size = s.ext_size
    ∧ (sr_shmmain_del_rpc_by_off s off).1.mods = s.mods
    ∧ (sr_shmmain_del_rpc_by_off s off).1.main.conn_state = s.main.conn_state := by
  cases hfind : idxOf? (fun r => r.op_path.off == off) s.main.rpc.items with
  | none => simp [sr_shmmain_del_rpc_by_off, hfind]
  | some q =>
    obtain ⟨i, r⟩ := q
    simp [sr_shmmain_del_rpc_by_off, hfind]

theorem del_conn_ext (s : St) (ctx pid : Nat) :
    (sr_shmmain_state_del_conn s ctx pid).ext_size = s.ext_size := by
  cases hfind : idxOf? (connMatch ctx pid) s.main.conn_state.items with
  | none => simp [sr_shmmain_state_del_conn, hfind]
  | some q =>
    obtain ⟨i, c⟩ := q
    simp [sr_shmmain_state_del_conn, hfind]

theorem recover_rpc_loop_ok (ev : Nat) (fuel : Nat) : ∀ (s : St) (k : Nat),
    coupled s = true →
    coupled (recoverRpcLoop s ev k fuel) = true
    ∧ (recoverRpcLoop s ev k fuel).ext_size = s.ext_size := by
  induction fuel with
  | zero => intro s k hc; exact ⟨by simpa [recoverRpcLoop] using hc, rfl⟩
  | succ fuel ih =>
    intro s k hc
    unfold recoverRpcLoop
    by_cases h : k < s.main.rpc.items.length
    · simp only [dif_pos h]
      cases hdel : (sr_shmmain_rpc_subscription_del s k "" 0 ev true).2.1 with
      | true =>
        simp only [hdel, eq_self_iff_true, if_true]
        have hc1 := rpc_sub_del_coupled s k "" 0 ev true hc
        have hc2 := del_rpc_coupled _
          ((s.main.rpc.items[k]).op_path.off) hc1
        obtain ⟨ha, hb⟩ := ih _ (k + 1) hc2
        refine ⟨ha, ?_⟩
        rw [hb, (del_rpc_geom _ _).1, (rpc_sub_del_geom s k "" 0 ev true).1]
      | false =>
        simp only [hdel, Bool.false_eq_true, if_false]
        have hc1 := rpc_sub_del_coupled s k "" 0 ev true hc
        obtain ⟨ha, hb⟩ := ih _ (k + 1) hc1
        refine ⟨ha, ?_⟩
        rw [hb, (rpc_sub_del_geom s k "" 0 ev true).1]
    · simp only [dif_neg h]
      exact ⟨hc, by trivial⟩

theorem recoverEvpipe_ok (s : St) (ev : Nat) (hc : coupled s = true) :
    coupled (recoverEvpipe s ev) = true
    ∧ (recoverEvpipe s ev).ext_size = s.ext_size := by
  unfold recoverEvpipe
  have hc1 : coupled { s with
      mods := (s.mods.map (fun m => modDelEvpipe m ev)).map Prod.fst
      wasted := s.wasted
        + ((s.mods.map (fun m => modDelEvpipe m ev)).map Prod.snd).sum } = true := by
    unfold coupled at hc ⊢
    simp only [Bool.and_eq_true] at hc ⊢
    obtain ⟨⟨⟨⟨hmods, hca⟩, hcs⟩, hra⟩, hrs⟩ := hc
    refine ⟨⟨⟨⟨?_, hca⟩, hcs⟩, hra⟩, hrs⟩
    rw [List.all_eq_true] at hmods ⊢
    intro m hm
    simp only [List.map_map] at hm
    obtain ⟨m0, hm0, hrw⟩ := List.mem_map.mp hm
    rw [← hrw]
    exact modDelEvpipe_modOk m0 ev (hmods m0 hm0)
  exact recover_rpc_loop_ok ev _ _ 0 hc1

theorem foldl_recoverEvpipe_ok (l : List Nat) (s : St) (hc : coupled s = true) :
    coupled (l.foldl recoverEvpipe s) = true
    ∧ (l.foldl recoverEvpipe s).ext_size = s.ext_size := by
  induction l generalizing s with
  | nil => exact ⟨by simpa using hc, rfl⟩
  | cons e t ih =>
    obtain ⟨h1, h2⟩ := recoverEvpipe_ok s e hc
    obtain ⟨h3, h4⟩ := ih _ h1
    exact ⟨h3, by rw [List.foldl_cons, h4, h2]⟩

theorem recoverDeadConn_ok (s : St) (i : Nat) (c : ConnState)
    (hc : coupled s = true) :
    coupled (recoverDeadConn s i c) = true
    ∧ (recoverDeadConn s i c).ext_size = s.ext_size := by
  unfold recoverDeadConn
  have hc1 : ∀ r : Nat, coupled { s with main := { s.main with readers := r } }
      = true := fun r => hc
  have hext1 : ∀ r : Nat,
      ({ s with main := { s.main with readers := r } } : St).ext_size
        = s.ext_size := fun r => rfl
  obtain ⟨h2, h2e⟩ := foldl_recoverEvpipe_ok c.evpipes.items _ (hc1 _)
  have h3 := del_conn_coupled _ c.conn_ctx c.pid h2
  have h3e : (sr_shmmain_state_del_conn
      (c.evpipes.items.foldl recoverEvpipe
        { s with main := { s.main with readers := match c.lock.main with
            | LMode.rdLock => s.main.readers - c.lock.main_rcount
            | _ => s.main.readers } })
      c.conn_ctx c.pid).ext_size = s.ext_size := by
    rw [del_conn_ext, h2e]
  refine ⟨h3, h3e⟩

theorem recoverLoop_ok (live : Nat → Bool) (s : St) (i : Nat)
    (hc : coupled s = true) :
    coupled (recoverLoop live s i) = true
    ∧ (recoverLoop live s i).ext_size = s.ext_size := by
  unfold recoverLoop
  by_cases h : i < s.main.conn_state.items.length
  · simp only [dif_pos h]
    cases hl : live ((s.main.conn_state.items[i]).pid) with
    | true =>
      simp only [hl, eq_self_iff_true, if_true]
      exact recoverLoop_ok live s (i + 1) hc
    | false =>
      simp only [hl, Bool.false_eq_true, if_false]
      obtain ⟨hd, hde⟩ := recoverDeadConn_ok s i (s.main.conn_state.items[i]) hc
      by_cases h2 : (recoverDeadConn s i
          (s.main.conn_state.items[i])).main.conn_state.items.length
          < s.main.conn_state.items.length
      · simp only [dif_pos h2]
        obtain ⟨ha, hb⟩ := recoverLoop_ok live _ i hd
        exact ⟨ha, by rw [hb, hde]⟩
      · simp only [dif_neg h2]
        exact ⟨hd, hde⟩
  · simp only [dif_neg h]
    exact ⟨hc, by trivial⟩
termination_by (s.main.conn_state.items.length, s.main.conn_state.items.length - i)
decreasing_by
  all_goals first
    | exact Prod.Lex.left _ _ h2
    | exact Prod.Lex.right _ (by omega)


theorem copyFeatNames_length (l : List String) (cur : Nat) :
    (copyFeatNames l cur).1.length = l.length := by
  induction l generalizing cur with
  | nil => simp [copyFeatNames]
  | cons f t ih => simp [copyFeatNames, ih]

theorem copyFeatNames_cur (l : List String) (cur : Nat) :
    cur ≤ (copyFeatNames l cur).2 := by
  induction l generalizing cur with
  | nil => simp [copyFeatNames]
  | cons f t ih =>
    simp only [copyFeatNames]
    have h := ih (cur + shmlen f)
    omega

theorem add_modules_ok (l : List LydMod) : ∀ cur : Nat, 0 < cur →
    (∀ m ∈ (sr_shmmain_add_modules l cur).1, modOk m = true)
    ∧ cur ≤ (sr_shmmain_add_modules l cur).2 := by
  induction l with
  | nil =>
    intro cur hcur
    exact ⟨by simp [sr_shmmain_add_modules], by simp [sr_shmmain_add_modules]⟩
  | cons m t ih =>
    intro cur hcur
    have hfeat := shmAlloc_snd (cur + shmlen m.name) (m.features.length * szOff)
    have hnames := copyFeatNames_cur m.features
      (shmAlloc (cur + shmlen m.name) (m.features.length * szOff)).2
    have hshm : shmlen m.name = m.name.length + 1 := rfl
    have hcur2 : 0 < (copyFeatNames m.features
        (shmAlloc (cur + shmlen m.name) (m.features.length * szOff)).2).2 := by
      omega
    obtain ⟨iha, ihb⟩ := ih _ hcur2
    constructor
    · intro x hx
      simp only [sr_shmmain_add_modules, List.mem_cons] at hx
      rcases hx with hx | hx
      · subst hx
        unfold modOk
        simp only [Bool.and_eq_true]
        refine ⟨⟨⟨⟨⟨⟨?_, by simp [arrOk]⟩, by simp [arrOk]⟩, by simp [arrOk]⟩,
          by simp⟩, by decide⟩, by simp [arrOk]⟩
        by_cases hz : m.features.length * szOff = 0
        · have hfl : m.features.length = 0 := by
            rcases Nat.mul_eq_zero.mp hz with h | h
            · exact h
            · exact absurd h (by decide)
          have hfe : m.features = [] := List.length_eq_zero.mp hfl
          simp [shmAlloc, hz, hfe, copyFeatNames, arrOk]
        · have hlen := copyFeatNames_length m.features
            (shmAlloc (cur + shmlen m.name) (m.features.length * szOff)).2
          have hfne : m.features ≠ [] := by
            intro hcn
            rw [hcn] at hz
            simp at hz
          have hie : (copyFeatNames m.features
              (shmAlloc (cur + shmlen m.name) (m.features.length * szOff)).2).1.isEmpty
              = false := by
            cases hcc : (copyFeatNames m.features
                (shmAlloc (cur + shmlen m.name)
                  (m.features.length * szOff)).2).1 with
            | nil =>
              exfalso
              rw [hcc] at hlen
              exact hfne (List.length_eq_zero.mp (by simpa using hlen.symm))
            | cons a u => rfl
          have hoffne : (shmAlloc (cur + shmlen m.name) (m.features.length * szOff)).1
              ≠ 0 := by
            simp only [shmAlloc, if_neg hz]
            omega
          simp [arrOk, hoffne, hie]
      · exact iha x hx
    · simp only [sr_shmmain_add_modules]
      have h3 := ihb
      omega

theorem del_modules_deps_modOk (mods : List SrMod)
    (h : ∀ m ∈ mods, modOk m = true) :
    ∀ m ∈ (sr_shmmain_del_modules_deps mods).1, modOk m = true := by
  intro x hx
  unfold sr_shmmain_del_modules_deps at hx
  simp only at hx
  obtain ⟨m0, hm0, hrw⟩ := List.mem_map.mp hx
  rw [← hrw]
  have h0 := h m0 hm0
  unfold modOk at h0 ⊢
  simp only [Bool.and_eq_true] at h0 ⊢
  obtain ⟨⟨⟨⟨⟨⟨hf, h1⟩, h2⟩, h3⟩, h4⟩, hcs⟩, hos⟩ := h0
  exact ⟨⟨⟨⟨⟨⟨hf, by simp [arrOk]⟩, by simp [arrOk]⟩, by simp [arrOk]⟩, by simp⟩,
    hcs⟩, hos⟩

theorem fill_data_deps_ok (mods : List SrMod) (l : List LydDep) :
    ∀ (cur : Nat) (r : List DataDep × Nat),
    sr_shmmain_fill_data_deps mods l cur = Except.ok r →
    r.1.length = l.length ∧ cur ≤ r.2 := by
  induction l with
  | nil =>
    intro cur r h
    rw [sr_shmmain_fill_data_deps] at h
    cases h
    exact ⟨rfl, Nat.le_refl _⟩
  | cons d t ih =>
    intro cur r h
    cases d with
    | ref mn =>
      cases hf : sr_shmmain_find_module mods mn with
      | none => rw [sr_shmmain_fill_data_deps, hf] at h; cases h
      | some rm =>
        rw [sr_shmmain_fill_data_deps, hf] at h
        cases hrest : sr_shmmain_fill_data_deps mods t cur with
        | error e => rw [hrest] at h; cases h
        | ok rr =>
          rw [hrest] at h
          cases h
          obtain ⟨h1, h2⟩ := ih cur rr hrest
          exact ⟨by simp [h1], h2⟩
    | instid x dm =>
      cases dm with
      | none =>
        rw [sr_shmmain_fill_data_deps] at h
        cases hrest : sr_shmmain_fill_data_deps mods t (cur + shmlen x) with
        | error e => rw [hrest] at h; cases h
        | ok rr =>
          rw [hrest] at h
          cases h
          obtain ⟨h1, h2⟩ := ih (cur + shmlen x) rr hrest
          have hx : shmlen x = x.length + 1 := rfl
          exact ⟨by simp [h1], by omega⟩
      | some n =>
        cases hf : sr_shmmain_find_module mods n with
        | none => rw [sr_shmmain_fill_data_deps, hf] at h; cases h
        | some rm =>
          rw [sr_shmmain_fill_data_deps, hf] at h
          cases hrest : sr_shmmain_fill_data_deps mods t (cur + shmlen x) with
          | error e => rw [hrest] at h; cases h
          | ok rr =>
            rw [hrest] at h
            cases h
            obtain ⟨h1, h2⟩ := ih (cur + shmlen x) rr hrest
            have hx : shmlen x = x.length + 1 := rfl
            exact ⟨by simp [h1], by omega⟩

theorem fillInvDeps_length (mods : List SrMod) (l : List String) :
    ∀ r : List ShmStr, fillInvDeps mods l = Except.ok r → r.length = l.length := by
  induction l with
  | nil =>
    intro r h
    rw [fillInvDeps] at h
    cases h
    rfl
  | cons n t ih =>
    intro r h
    cases hf : sr_shmmain_find_module mods n with
    | none => rw [fillInvDeps, hf] at h; cases h
    | some m =>
      rw [fillInvDeps, hf] at h
      cases hrest : fillInvDeps mods t with
      | error e => rw [hrest] at h; cases h
      | ok rr =>
        rw [hrest] at h
        cases h
        simp [ih rr hrest]

theorem except_bind_ok {ε α β : Type} (x : Except ε α) (f : α → Except ε β)
    (b : β) (h : (x >>= f) = Except.ok b) :
    ∃ a, x = Except.ok a ∧ f a = Except.ok b := by
  cases x with
  | error e => exact absurd h (by simp [Bind.bind, Except.bind])
  | ok a => exact ⟨a, rfl, by simpa [Bind.bind, Except.bind] using h⟩

theorem fillOpDeps_ok (mods : List SrMod) (l : List LydOpDep) :
    ∀ (cur : Nat) (r : List OpDep × Nat), 0 < cur →
    fillOpDeps mods l cur = Except.ok r →
    r.1.length = l.length ∧ cur ≤ r.2 ∧ ∀ o ∈ r.1, opDepOk o = true := by
  induction l with
  | nil =>
    intro cur r hcur h
    rw [fillOpDeps] at h
    cases h
    exact ⟨rfl, Nat.le_refl _, by simp⟩
  | cons o t ih =>
    intro cur r hcur h
    rw [fillOpDeps] at h
    obtain ⟨ind, hind, h⟩ := except_bind_ok _ _ _ h
    obtain ⟨outd, houtd, h⟩ := except_bind_ok _ _ _ h
    obtain ⟨rest, hrest, h⟩ := except_bind_ok _ _ _ h
    cases h
    have hxl : shmlen o.xpath = o.xpath.length + 1 := rfl
    obtain ⟨hi1, hi2⟩ := fill_data_deps_ok mods o.in_deps _ ind hind
    obtain ⟨ho1, ho2⟩ := fill_data_deps_ok mods o.out_deps _ outd houtd
    have hina := shmAlloc_snd (cur + shmlen o.xpath) (o.in_deps.length * szDataDep)
    have houta := shmAlloc_snd ind.2 (o.out_deps.length * szDataDep)
    have hcur2 : 0 < outd.2 := by omega
    obtain ⟨hr1, hr2, hr3⟩ := ih outd.2 rest hcur2 hrest
    refine ⟨by simp [hr1], by omega, ?_⟩
    intro z hz
    simp only [List.mem_cons] at hz
    rcases hz with hz | hz
    · subst hz
      unfold opDepOk
      simp only [Bool.and_eq_true]
      constructor
      · by_cases hz2 : o.in_deps.length * szDataDep = 0
        · have hl0 : o.in_deps.length = 0 := by
            rcases Nat.mul_eq_zero.mp hz2 with hq | hq
            · exact hq
            · exact absurd hq (by decide)
          have hie : ind.1.isEmpty = true := by
            rw [List.isEmpty_iff, ← List.length_eq_zero, hi1]
            exact hl0
          simp [arrOk, shmAlloc, hz2, hie]
        · have hl0 : o.in_deps.length ≠ 0 := by
            intro hq
            rw [hq] at hz2
            simp at hz2
          have hie : ind.1.isEmpty = false := by
            cases hcc : ind.1 with
            | nil =>
              exfalso
              rw [hcc] at hi1
              exact hl0 (by simpa using hi1.symm)
            | cons a u => rfl
          have hoffne : (shmAlloc (cur + shmlen o.xpath)
              (o.in_deps.length * szDataDep)).1 ≠ 0 := by
            simp only [shmAlloc, if_neg hz2]
            omega
          simp [arrOk, hoffne, hie]
      · by_cases hz2 : o.out_deps.length * szDataDep = 0
        · have hl0 : o.out_deps.length = 0 := by
            rcases Nat.mul_eq_zero.mp hz2 with hq | hq
            · exact hq
            · exact absurd hq (by decide)
          have hie : outd.1.isEmpty = true := by
            rw [List.isEmpty_iff, ← List.length_eq_zero, ho1]
            exact hl0
          simp [arrOk, shmAlloc, hz2, hie]
        · have hl0 : o.out_deps.length ≠ 0 := by
            intro hq
            rw [hq] at hz2
            simp at hz2
          have hie : outd.1.isEmpty = false := by
            cases hcc : outd.1 with
            | nil =>
              exfalso
              rw [hcc] at ho1
              exact hl0 (by simpa using ho1.symm)
            | cons a u => rfl
          have hoffne : (shmAlloc ind.2 (o.out_deps.length * szDataDep)).1
              ≠ 0 := by
            simp only [shmAlloc, if_neg hz2]
            omega
          simp [arrOk, hoffne, hie]
    · exact hr3 z hz

theorem shmAlloc_fst_ne (cur size : Nat) (hsz : size ≠ 0) (hcur : 0 < cur) :
    (shmAlloc cur size).1 ≠ 0 := by
  simp only [shmAlloc, if_neg hsz]
  omega

theorem add_modules_deps_ok (allMods : List SrMod) (l : List (LydMod × SrMod)) :
    ∀ (cur : Nat) (r : List SrMod × Nat), 0 < cur →
    (∀ p ∈ l, modOk p.2 = true) →
    sr_shmmain_add_modules_deps allMods l cur = Except.ok r →
    ∀ m ∈ r.1, modOk m = true := by
  induction l with
  | nil =>
    intro cur r hcur hok h
    rw [sr_shmmain_add_modules_deps] at h
    cases h
    simp
  | cons p t ih =>
    intro cur r hcur hok h
    obtain ⟨ly, m⟩ := p
    rw [sr_shmmain_add_modules_deps] at h
    obtain ⟨dd, hdd, h⟩ := except_bind_ok _ _ _ h
    obtain ⟨inv, hinv, h⟩ := except_bind_ok _ _ _ h
    obtain ⟨od, hod, h⟩ := except_bind_ok _ _ _ h
    obtain ⟨rest, hrest, h⟩ := except_bind_ok _ _ _ h
    cases h
    have ha1 := shmAlloc_snd cur (ly.data_deps.length * szDataDep)
    have ha2 := shmAlloc_snd (shmAlloc cur (ly.data_deps.length * szDataDep)).2
      (ly.inv_deps.length * szOff)
    have ha3 := shmAlloc_snd (shmAlloc (shmAlloc cur
        (ly.data_deps.length * szDataDep)).2 (ly.inv_deps.length * szOff)).2
      (ly.op_deps.length * szOpDep)
    obtain ⟨hd1, hd2⟩ := fill_data_deps_ok allMods ly.data_deps _ dd hdd
    have hil := fillInvDeps_length allMods ly.inv_deps inv hinv
    have hodcur : 0 < dd.2 := by omega
    obtain ⟨ho1, ho2, ho3⟩ := fillOpDeps_ok allMods ly.op_deps dd.2 od hodcur hod
    have hmok := hok (ly, m) (by simp)
    intro z hz
    simp only [List.mem_cons] at hz
    rcases hz with hz | hz
    · subst hz
      unfold modOk at hmok ⊢
      simp only [Bool.and_eq_true] at hmok ⊢
      obtain ⟨⟨⟨⟨⟨⟨hf, hx1⟩, hx2⟩, hx3⟩, hx4⟩, hcs⟩, hos⟩ := hmok
      refine ⟨⟨⟨⟨⟨⟨hf, ?_⟩, ?_⟩, ?_⟩, ?_⟩, hcs⟩, hos⟩
      · by_cases hz2 : ly.data_deps.length * szDataDep = 0
        · have hl0 : ly.data_deps.length = 0 := by
            rcases Nat.mul_eq_zero.mp hz2 with hq | hq
            · exact hq
            · exact absurd hq (by decide)
          have hie : dd.1.isEmpty = true := by
            rw [List.isEmpty_iff, ← List.length_eq_zero, hd1]
            exact hl0
          simp [arrOk, shmAlloc, hz2, hie]
        · have hl0 : ly.data_deps.length ≠ 0 := by
            intro hq
            rw [hq] at hz2
            simp at hz2
          have hie : dd.1.isEmpty = false := by
            cases hcc : dd.1 with
            | nil =>
              exfalso
              rw [hcc] at hd1
              exact hl0 (by simpa using hd1.symm)
            | cons a u => rfl
          have hoffne : (shmAlloc cur (ly.data_deps.length * szDataDep)).1
              ≠ 0 := by
            simp only [shmAlloc, if_neg hz2]
            omega
          simp [arrOk, hoffne, hie]
      · by_cases hz2 : ly.inv_deps.length * szOff = 0
        · have hl0 : ly.inv_deps.length = 0 := by
            rcases Nat.mul_eq_zero.mp hz2 with hq | hq
            · exact hq
            · exact absurd hq (by decide)
          have hie : inv.isEmpty = true := by
            rw [List.isEmpty_iff, ← List.length_eq_zero, hil]
            exact hl0
          simp [arrOk, shmAlloc, hz2, hie]
        · have hl0 : ly.inv_deps.length ≠ 0 := by
            intro hq
            rw [hq] at hz2
            simp at hz2
          have hie : inv.isEmpty = false := by
            cases hcc : inv with
            | nil =>
              exfalso
              rw [hcc] at hil
              exact hl0 (by simpa using hil.symm)
            | cons a u => rfl
          have hoffne : (shmAlloc (shmAlloc cur
              (ly.data_deps.length * szDataDep)).2
              (ly.inv_deps.length * szOff)).1 ≠ 0 :=
            shmAlloc_fst_ne _ _ hz2 (by omega)
          simp [arrOk, hoffne, hie]
      · by_cases hz2 : ly.op_deps.length * szOpDep = 0
        · have hl0 : ly.op_deps.length = 0 := by
            rcases Nat.mul_eq_zero.mp hz2 with hq | hq
            · exact hq
            · exact absurd hq (by decide)
          have hie : od.1.isEmpty = true := by
            rw [List.isEmpty_iff, ← List.length_eq_zero, ho1]
            exact hl0
          simp [arrOk, shmAlloc, hz2, hie]
        · have hl0 : ly.op_deps.length ≠ 0 := by
            intro hq
            rw [hq] at hz2
            simp at hz2
          have hie : od.1.isEmpty = false := by
            cases hcc : od.1 with
            | nil =>
              exfalso
              rw [hcc] at ho1
              exact hl0 (by simpa using ho1.symm)
            | cons a u => rfl
          have hoffne : (shmAlloc (shmAlloc (shmAlloc cur
              (ly.data_deps.length * szDataDep)).2
              (ly.inv_deps.length * szOff)).2
              (ly.op_deps.length * szOpDep)).1 ≠ 0 :=
            shmAlloc_fst_ne _ _ hz2 (by omega)
          simp [arrOk, hoffne, hie]
      · rw [List.all_eq_true]
        intro u hu
        exact ho3 u hu
    · have hocur : 0 < od.2 := by omega
      exact ih od.2 rest hocur (fun p2 hp2 => hok p2 (by simp [hp2])) hrest z hz


theorem install_coupled (s : St) (allLyd : List LydMod) (hc : coupled s = true)
    (hext : 0 < s.ext_size) :
    coupled (sr_shmmain_add s allLyd).1 = true := by
  have hmodsok : ∀ m ∈ s.mods, modOk m = true := by
    unfold coupled at hc
    simp only [Bool.and_eq_true] at hc
    exact List.all_eq_true.mp hc.1.1.1.1
  obtain ⟨hraok, hracur⟩ := add_modules_ok (allLyd.drop s.mods.length) s.ext_size hext
  have hallok : ∀ m ∈ s.mods ++ (sr_shmmain_add_modules (allLyd.drop s.mods.length)
      s.ext_size).1, modOk m = true := by
    intro m hm
    rcases List.mem_append.mp hm with hm | hm
    · exact hmodsok m hm
    · exact hraok m hm
  have hrdok := del_modules_deps_modOk _ hallok
  have hbase : ∀ (l : List SrMod) (w e2 : Nat), (∀ m ∈ l, modOk m = true) →
      coupled { s with mods := l, wasted := w, ext_size := e2 } = true := by
    intro l w e2 hl
    unfold coupled at hc ⊢
    simp only [Bool.and_eq_true] at hc ⊢
    obtain ⟨⟨⟨⟨hm0, hca⟩, hcs⟩, hra⟩, hrs⟩ := hc
    exact ⟨⟨⟨⟨List.all_eq_true.mpr hl, hca⟩, hcs⟩, hra⟩, hrs⟩
  unfold sr_shmmain_add
  cases hb : sr_shmmain_add_modules_deps
      (sr_shmmain_del_modules_deps (s.mods ++ (sr_shmmain_add_modules
        (allLyd.drop s.mods.length) s.ext_size).1)).1
      (allLyd.zip (sr_shmmain_del_modules_deps (s.mods ++ (sr_shmmain_add_modules
        (allLyd.drop s.mods.length) s.ext_size).1)).1)
      (sr_shmmain_add_modules (allLyd.drop s.mods.length) s.ext_size).2 with
  | error e =>
    simp only [hb]
    exact hbase _ _ _ hrdok
  | ok rb =>
    have hpairs : ∀ p ∈ allLyd.zip (sr_shmmain_del_modules_deps (s.mods ++
        (sr_shmmain_add_modules (allLyd.drop s.mods.length) s.ext_size).1)).1,
        modOk p.2 = true := by
      intro p hp
      obtain ⟨a, b⟩ := p
      exact hrdok b (List.of_mem_zip hp).2
    have hrbok := add_modules_deps_ok _ _ _ rb (by omega) hpairs hb
    simp only [hb]
    by_cases hfin : rb.2 = szWord + sr_shmmain_ext_get_size_main_shm s
        + sr_shmmain_ext_get_lydmods_size allLyd
        + (s.wasted + (sr_shmmain_del_modules_deps (s.mods ++
            (sr_shmmain_add_modules (allLyd.drop s.mods.length) s.ext_size).1)).2)
    · rw [if_pos hfin]
      exact hbase _ _ _ hrbok
    · rw [if_neg hfin]
      exact hbase _ _ _ hrbok

theorem install_ext_pos (s : St) (allLyd : List LydMod) :
    0 < (sr_shmmain_add s allLyd).1.ext_size := by
  have hsz : szWord = 8 := rfl
  unfold sr_shmmain_add
  cases hb : sr_shmmain_add_modules_deps
      (sr_shmmain_del_modules_deps (s.mods ++ (sr_shmmain_add_modules
        (allLyd.drop s.mods.length) s.ext_size).1)).1
      (allLyd.zip (sr_shmmain_del_modules_deps (s.mods ++ (sr_shmmain_add_modules
        (allLyd.drop s.mods.length) s.ext_size).1)).1)
      (sr_shmmain_add_modules (allLyd.drop s.mods.length) s.ext_size).2 with
  | error e =>
    simp only [hb]
    show 0 < szWord + sr_shmmain_ext_get_size_main_shm s
        + sr_shmmain_ext_get_lydmods_size allLyd
        + (s.wasted + (sr_shmmain_del_modules_deps (s.mods ++
            (sr_shmmain_add_modules (allLyd.drop s.mods.length) s.ext_size).1)).2)
    omega
  | ok rb =>
    simp only [hb]
    by_cases hfin : rb.2 = szWord + sr_shmmain_ext_get_size_main_shm s
        + sr_shmmain_ext_get_lydmods_size allLyd
        + (s.wasted + (sr_shmmain_del_modules_deps (s.mods ++
            (sr_shmmain_add_modules (allLyd.drop s.mods.length) s.ext_size).1)).2)
    · rw [if_pos hfin]
      show 0 < szWord + sr_shmmain_ext_get_size_main_shm s
          + sr_shmmain_ext_get_lydmods_size allLyd
          + (s.wasted + (sr_shmmain_del_modules_deps (s.mods ++
              (sr_shmmain_add_modules (allLyd.drop s.mods.length) s.ext_size).1)).2)
      omega
    · rw [if_neg hfin]
      show 0 < szWord + sr_shmmain_ext_get_size_main_shm s
          + sr_shmmain_ext_get_lydmods_size allLyd
          + (s.wasted + (sr_shmmain_del_modules_deps (s.mods ++
              (sr_shmmain_add_modules (allLyd.drop s.mods.length) s.ext_size).1)).2)
      omega

theorem del_evpipe_ext (s : St) (ctx pid ev : Nat) :
    (sr_shmmain_state_del_evpipe s ctx pid ev).ext_size = s.ext_size := by
  cases hfind : idxOf? (connMatch ctx pid) s.main.conn_state.items with
  | none => simp [sr_shmmain_state_del_evpipe, hfind]
  | some q =>
    obtain ⟨i, c⟩ := q
    cases hfind2 : idxOf? (fun e => e == ev) c.evpipes.items with
    | none => simp [sr_shmmain_state_del_evpipe, hfind, hfind2]
    | some q2 =>
      obtain ⟨j, e⟩ := q2
      simp [sr_shmmain_state_del_evpipe, hfind, hfind2]

theorem lock_remap_ext (s : St) (ctx pid : Nat) (mode : LMode) :
    (sr_shmmain_lock_remap s ctx pid mode).1.ext_size = s.ext_size := by
  unfold sr_shmmain_lock_remap
  by_cases hw : mode = LMode.wrNoState
  · subst hw
    simp
  · simp only [if_neg hw]
    by_cases hm : mode = LMode.rdLock
    · simp only [if_pos hm]
      cases hfind : idxOf? (connMatch ctx pid) s.main.conn_state.items with
      | none => simp [hfind]
      | some q =>
        obtain ⟨i, c⟩ := q
        simp [hfind]
    · simp only [if_neg hm]
      cases hfind : idxOf? (connMatch ctx pid) s.main.conn_state.items with
      | none => simp [hfind]
      | some q =>
        obtain ⟨i, c⟩ := q
        simp [hfind]

theorem unlock_ext (s : St) (ctx pid : Nat) (mode : LMode) :
    (sr_shmmain_unlock s ctx pid mode).ext_size = s.ext_size := by
  unfold sr_shmmain_unlock
  by_cases hw : mode = LMode.wrNoState
  · subst hw
    simp
  · simp only [if_neg hw]
    cases hfind : idxOf? (connMatch ctx pid) s.main.conn_state.items with
    | none =>
      simp only [hfind]
      by_cases hm : mode = LMode.rdLock <;> simp [hm]
    | some q =>
      obtain ⟨i, c⟩ := q
      simp only [hfind]
      by_cases hm : mode = LMode.rdLock <;> simp [hm]

/-- C9: every operation of this file preserves the offset/count coupling of
every array anchor in the shared regions — the connection-state array, each
connection's evpipe array, the RPC array, each RPC's subscription array, and
each module's feature, data-dep, inverse-data-dep, op-dep (with their inner
input/output arrays), change- and oper-subscription arrays — and keeps the
Ext SHM size positive. -/
theorem C9_coupling (s : St) (op : Op) (hc : coupled s = true)
    (hext : 0 < s.ext_size) :
    coupled (applyOp s op) = true ∧ 0 < (applyOp s op).ext_size := by
  cases op with
  | addConn ctx pid =>
    refine ⟨add_conn_coupled s ctx pid hc hext, ?_⟩
    show 0 < s.ext_size + (s.main.conn_state.items.length + 1) * szConn
    exact Nat.lt_of_lt_of_le hext (Nat.le_add_right _ _)
  | delConn ctx pid =>
    refine ⟨del_conn_coupled s ctx pid hc, ?_⟩
    show 0 < (sr_shmmain_state_del_conn s ctx pid).ext_size
    rw [del_conn_ext]
    exact hext
  | addEvpipe ctx pid ev =>
    refine ⟨add_evpipe_coupled s ctx pid ev hc hext, ?_⟩
    show 0 < (sr_shmmain_state_add_evpipe s ctx pid ev).1.ext_size
    cases hfind : idxOf? (connMatch ctx pid) s.main.conn_state.items with
    | none => simpa [sr_shmmain_state_add_evpipe, hfind] using hext
    | some q =>
      obtain ⟨i, c⟩ := q
      simp only [sr_shmmain_state_add_evpipe, hfind]
      exact Nat.lt_of_lt_of_le hext (Nat.le_add_right _ _)
  | delEvpipe ctx pid ev =>
    refine ⟨del_evpipe_coupled s ctx pid ev hc, ?_⟩
    show 0 < (sr_shmmain_state_del_evpipe s ctx pid ev).ext_size
    rw [del_evpipe_ext]
    exact hext
  | addRpc p =>
    refine ⟨add_rpc_coupled s p hc hext, ?_⟩
    show 0 < s.ext_size + (s.main.rpc.items.length + 1) * szRpc + shmlen p
    exact Nat.lt_of_lt_of_le hext
      (Nat.le_trans (Nat.le_add_right _ _) (Nat.le_add_right _ _))
  | delRpc off =>
    refine ⟨del_rpc_coupled s off hc, ?_⟩
    show 0 < (sr_shmmain_del_rpc_by_off s off).1.ext_size
    rw [(del_rpc_geom s off).1]
    exact hext
  | rpcSubAdd ri x pr opts ev =>
    refine ⟨rpc_sub_add_coupled s ri x pr opts ev hc hext, ?_⟩
    show 0 < (sr_shmmain_rpc_subscription_add s ri x pr opts ev).ext_size
    cases hget : s.main.rpc.items[ri]? with
    | none => simpa [sr_shmmain_rpc_subscription_add, hget] using hext
    | some r =>
      simp only [sr_shmmain_rpc_subscription_add, hget]
      exact Nat.lt_of_lt_of_le hext
        (Nat.le_trans (Nat.le_add_right _ _) (Nat.le_add_right _ _))
  | rpcSubDel ri x pr ev all =>
    refine ⟨rpc_sub_del_coupled s ri x pr ev all hc, ?_⟩
    show 0 < (sr_shmmain_rpc_subscription_del s ri x pr ev all).1.ext_size
    rw [(rpc_sub_del_geom s ri x pr ev all).1]
    exact hext
  | lock ctx pid mode =>
    refine ⟨lock_remap_coupled s ctx pid mode hc, ?_⟩
    show 0 < (sr_shmmain_lock_remap s ctx pid mode).1.ext_size
    rw [lock_remap_ext]
    exact hext
  | unlock ctx pid mode =>
    refine ⟨unlock_coupled s ctx pid mode hc, ?_⟩
    show 0 < (sr_shmmain_unlock s ctx pid mode).ext_size
    rw [unlock_ext]
    exact hext
  | defrag =>
    simp only [applyOp]
    cases hd : sr_shmmain_ext_defrag s with
    | error e => exact ⟨hc, hext⟩
    | ok s2 =>
      unfold sr_shmmain_ext_defrag at hd
      by_cases hcond : (defragBuild s).2 = s.ext_size - s.wasted
      · rw [if_pos hcond] at hd
        obtain ⟨h1, h2, h3, h4, h5⟩ := defragBuild_spec s hc
        have hs2 : s2 = (defragBuild s).1 := (Except.ok.inj hd).symm
        subst hs2
        refine ⟨h2, ?_⟩
        rw [h4, ← hcond, h1]
        have hsz : szWord = 8 := rfl
        omega
      · rw [if_neg hcond] at hd
        cases hd
  | install lyd =>
    exact ⟨install_coupled s lyd hc hext, install_ext_pos s lyd⟩
  | recover live =>
    obtain ⟨h1, h2⟩ := recoverLoop_ok live s 0 hc
    refine ⟨h1, ?_⟩
    show 0 < (recoverLoop live s 0).ext_size
    rw [h2]
    exact hext

/-- Witness for C9: coupling is preserved when a third connection is added to
the concrete two-connection state. -/
theorem C9_coupling_witness :
    coupled wSt = true ∧ 0 < wSt.ext_size
    ∧ coupled (applyOp wSt (Op.addConn 3 300)) = true
    ∧ 0 < (applyOp wSt (Op.addConn 3 300)).ext_size := by
  refine ⟨by decide, by decide, ?_, ?_⟩
  · exact (C9_coupling wSt (Op.addConn 3 300) (by decide) (by decide)).1
  · exact (C9_coupling wSt (Op.addConn 3 300) (by decide) (by decide)).2


/-! ## C6 — defragmentation write order -/

theorem defragMod_eq_amended (mods : List SrMod) (m : SrMod) (cur : Nat) :
    defragMod mods m cur = defragModAmended mods m cur := rfl

theorem defragModList_eq_amended (mods l : List SrMod) : ∀ cur : Nat,
    defragModList mods l cur = defragModListAmended mods l cur := by
  induction l with
  | nil => intro cur; rfl
  | cons m t ih =>
    intro cur
    unfold defragModList defragModListAmended
    simp only [defragMod_eq_amended, ih]

/-- C6 (amended order): the defragmenter writes, in order, every module name;
per module its features array and feature names, forward data deps, inverse
data deps, the op-deps array followed by every op dep's xpath in op-dep
order and only then each op dep's input and output data-dep arrays, change
subscriptions per datastore, operational subscriptions; then the
connection-state array and evpipe arrays; then the RPC array, op paths and
subscription arrays. -/
theorem C6_defrag_order (s : St) : defragBuild s = defragBuildAmended s := by
  unfold defragBuild defragBuildAmended
  simp only [defragModList_eq_amended]

/-- C6 counterexample: on a module with two op deps the code writes BOTH
op-dep xpaths right after the record array (offsets 72 and 75) and only then
the first op dep's input array, while the claim's per-op-dep grouping would
put the second xpath after that array (offset 102). -/
theorem C6_order_counterexample :
    (defragMod [] c6Mod szWord).1.op_deps.items.map (fun o => o.xpath.off)
        = [72, 75]
    ∧ (defragModClaimed [] c6Mod szWord).1.op_deps.items.map (fun o => o.xpath.off)
        = [72, 102]
    ∧ defragModClaimed [] c6Mod szWord ≠ defragMod [] c6Mod szWord := by
  refine ⟨by decide, by decide, by decide⟩


/-! ## Defragmentation idempotence (claim C5)

A second defragmentation run rewrites every object at the offset it already
occupies, so it reproduces the state byte for byte. -/

theorem copyStrItems_strBytes {α : Type} (getS : α → ShmStr) (setS : α → ShmStr → α)
    (hgs : ∀ x v, getS (setS x v) = v) :
    ∀ (l : List α) (cur : Nat), 0 < cur →
    (copyStrItems getS setS l cur).1.map (fun x => strBytes (getS x))
      = l.map (fun x => strBytes (getS x)) := by
  intro l
  induction l with
  | nil => intro cur hcur; rfl
  | cons x t ih =>
    intro cur hcur
    by_cases hx : (getS x).off ≠ 0
    · have ihh := ih (cur + shmlen (getS x).val) (by omega)
      simp only [copyStrItems, if_pos hx, List.map_cons, ihh, hgs]
      simp [strBytes, hx, Nat.pos_iff_ne_zero.mp hcur]
    · simp only [copyStrItems, if_neg hx, List.map_cons, ih _ hcur]

theorem copyStrItems_idem {α : Type} (getS : α → ShmStr) (setS : α → ShmStr → α)
    (hgs : ∀ x v, getS (setS x v) = v)
    (hss : ∀ x v w, setS (setS x v) w = setS x w) :
    ∀ (l : List α) (cur : Nat), 0 < cur →
    copyStrItems getS setS (copyStrItems getS setS l cur).1 cur
      = copyStrItems getS setS l cur := by
  intro l
  induction l with
  | nil => intro cur hcur; rfl
  | cons x t ih =>
    intro cur hcur
    by_cases hx : (getS x).off ≠ 0
    · simp only [copyStrItems, if_pos hx]
      have hoff : (getS (setS x ⟨cur, (getS x).val⟩)).off ≠ 0 := by
        rw [hgs]
        exact Nat.pos_iff_ne_zero.mp hcur
      simp only [copyStrItems, if_pos hoff]
      simp only [hgs, hss]
      have hcur2 : 0 < cur + shmlen (getS x).val := by omega
      rw [ih _ hcur2]
    · simp only [copyStrItems, if_neg hx]
      rw [ih _ hcur]

theorem copy_array_with_string_idem {α : Type} (getS : α → ShmStr)
    (setS : α → ShmStr → α)
    (hgs : ∀ x v, getS (setS x v) = v)
    (hss : ∀ x v w, setS (setS x v) w = setS x w)
    (sz : Nat) (a : ShmArr α) (cur : Nat) (hcur : 0 < cur) :
    sr_shmmain_defrag_copy_array_with_string getS setS sz
      (sr_shmmain_defrag_copy_array_with_string getS setS sz a cur).1 cur
      = sr_shmmain_defrag_copy_array_with_string getS setS sz a cur := by
  by_cases hg : a.off = 0 ∧ a.items.length = 0
  · simp [sr_shmmain_defrag_copy_array_with_string, hg]
  · simp only [sr_shmmain_defrag_copy_array_with_string, if_neg hg]
    have hlen := copyStrItems_length getS setS a.items (cur + a.items.length * sz)
    have hg2 : ¬(cur = 0 ∧ a.items.length = 0) :=
      fun hcn => Nat.pos_iff_ne_zero.mp hcur hcn.1
    simp only [hlen, if_neg hg2]
    rw [copyStrItems_idem getS setS hgs hss _ _ (by omega)]

/-- The module names of a list sit consecutively from `cur` (the layout the
name pass produces). -/
def namesCanon : List SrMod → Nat → Prop
  | [], _ => True
  | m :: t, cur => m.name.off = cur ∧ namesCanon t (cur + shmlen m.name.val)

theorem defragNames_canon : ∀ (l : List SrMod) (cur : Nat),
    namesCanon (defragNames l cur).1 cur := by
  intro l
  induction l with
  | nil => intro cur; trivial
  | cons m t ih =>
    intro cur
    exact ⟨rfl, ih (cur + shmlen m.name.val)⟩

theorem namesCanon_of_map_eq : ∀ (l1 l2 : List SrMod) (cur : Nat),
    l1.map (fun m => m.name) = l2.map (fun m => m.name) →
    namesCanon l1 cur → namesCanon l2 cur := by
  intro l1
  induction l1 with
  | nil =>
    intro l2 cur hm hc
    cases l2 with
    | nil => trivial
    | cons b u => simp at hm
  | cons a t ih =>
    intro l2 cur hm hc
    cases l2 with
    | nil => simp at hm
    | cons b u =>
      simp only [List.map_cons, List.cons.injEq] at hm
      exact ⟨by rw [← hm.1]; exact hc.1,
        by rw [← hm.1]; exact ih u _ hm.2 hc.2⟩

theorem defragNames_fixed : ∀ (l : List SrMod) (cur : Nat),
    namesCanon l cur → (defragNames l cur).1 = l := by
  intro l
  induction l with
  | nil => intro cur hc; rfl
  | cons m t ih =>
    intro cur hc
    simp only [defragNames]
    have h1 : (⟨cur, m.name.val⟩ : ShmStr) = m.name := by
      cases hn : m.name with
      | mk o v =>
        have := hc.1
        rw [hn] at this
        simp at this
        rw [← this]
    rw [List.cons.injEq]
    constructor
    · rw [h1]
    · exact ih _ hc.2


theorem find_module_name_eq : ∀ (l1 l2 : List SrMod),
    l1.map (fun m => m.name) = l2.map (fun m => m.name) → ∀ v : String,
    (sr_shmmain_find_module l1 v).map (fun m => m.name)
      = (sr_shmmain_find_module l2 v).map (fun m => m.name) := by
  intro l1
  induction l1 with
  | nil =>
    intro l2 hm v
    cases l2 with
    | nil => rfl
    | cons b u => simp at hm
  | cons a t ih =>
    intro l2 hm v
    cases l2 with
    | nil => simp at hm
    | cons b u =>
      simp only [List.map_cons, List.cons.injEq] at hm
      unfold sr_shmmain_find_module at ih ⊢
      have hp : (a.name.val == v) = (b.name.val == v) := by rw [hm.1]
      cases hc : a.name.val == v with
      | true =>
        have hc2 : (b.name.val == v) = true := by rw [← hp]; exact hc
        simp only [List.find?, hc, hc2, cond]
        simp [hm.1]
      | false =>
        have hc2 : (b.name.val == v) = false := by rw [← hp]; exact hc
        simp only [List.find?, hc, hc2, cond]
        exact ih u hm.2 v

/-- A module reference for which a second lookup can only return a module
with the same (already re-pointed) name. -/
def modRefFixed (mods2 : List SrMod) (ref : ShmStr) : Prop :=
  ref.off ≠ 0 → ∀ m2 : SrMod,
    sr_shmmain_find_module mods2 ref.val = Option.some m2 → m2.name = ref

theorem dataDepPoint_of_fixed (mods2 : List SrMod) (d : DataDep)
    (h : modRefFixed mods2 d.module) : dataDepPoint mods2 d = d := by
  unfold dataDepPoint
  by_cases hm : d.module.off ≠ 0
  · rw [if_pos hm]
    cases hf : sr_shmmain_find_module mods2 d.module.val with
    | none => rfl
    | some m2 =>
      show { d with module := m2.name } = d
      rw [h hm m2 hf]
  · rw [if_neg hm]

theorem dataDepPoint_gives_fixed (mods1 mods2 : List SrMod)
    (hn : mods1.map (fun m => m.name) = mods2.map (fun m => m.name)) (d : DataDep) :
    modRefFixed mods2 (dataDepPoint mods1 d).module := by
  unfold dataDepPoint
  by_cases hm : d.module.off ≠ 0
  · rw [if_pos hm]
    cases hf : sr_shmmain_find_module mods1 d.module.val with
    | none =>
      intro h2 m2 hfm
      exfalso
      have he := find_module_name_eq mods1 mods2 hn d.module.val
      rw [hf, hfm] at he
      simp at he
    | some m0 =>
      intro h2 m2 hfm
      have hf0 : List.find? (fun m => m.name.val == d.module.val) mods1
          = Option.some m0 := hf
      have hbeq := List.find?_some hf0
      have hveq : m0.name.val = d.module.val := eq_of_beq hbeq
      have he := find_module_name_eq mods1 mods2 hn d.module.val
      rw [hf] at he
      simp only [Option.map_some'] at he
      rw [hveq] at hfm
      rw [hfm] at he
      simp only [Option.map_some'] at he
      show m2.name = m0.name
      exact (Option.some.inj he).symm
  · rw [if_neg hm]
    intro h2 m2 hfm
    exact absurd h2 (by simpa using hm)

theorem dataDepXpath_module (d : DataDep) (cur : Nat) :
    (dataDepXpath d cur).1.module = d.module := by
  unfold dataDepXpath
  by_cases hx : d.xpath.off ≠ 0 <;> simp [hx]

theorem dataDepXpath_idem (d : DataDep) (cur : Nat) (hcur : 0 < cur) :
    dataDepXpath (dataDepXpath d cur).1 cur = dataDepXpath d cur := by
  unfold dataDepXpath
  by_cases hx : d.xpath.off ≠ 0
  · simp only [if_pos hx]
    have hcne : ((⟨cur, d.xpath.val⟩ : ShmStr)).off ≠ 0 := Nat.pos_iff_ne_zero.mp hcur
    simp [hcne]
  · simp [hx]

theorem dataDepXpath_cur_le (d : DataDep) (cur : Nat) :
    cur ≤ (dataDepXpath d cur).2 := by
  unfold dataDepXpath
  by_cases hx : d.xpath.off ≠ 0 <;> simp [hx]

theorem copyDataDepItems_idem (mods1 mods2 : List SrMod)
    (hn : mods1.map (fun m => m.name) = mods2.map (fun m => m.name)) :
    ∀ (l : List DataDep) (cur : Nat), 0 < cur →
    copyDataDepItems mods2 (copyDataDepItems mods1 l cur).1 cur
      = copyDataDepItems mods1 l cur := by
  intro l
  induction l with
  | nil => intro cur hcur; rfl
  | cons d t ih =>
    intro cur hcur
    simp only [copyDataDepItems]
    have hfix : dataDepPoint mods2 (dataDepXpath (dataDepPoint mods1 d) cur).1
        = (dataDepXpath (dataDepPoint mods1 d) cur).1 := by
      apply dataDepPoint_of_fixed
      rw [dataDepXpath_module]
      exact dataDepPoint_gives_fixed mods1 mods2 hn d
    rw [hfix, dataDepXpath_idem _ _ hcur]
    have hle := dataDepXpath_cur_le (dataDepPoint mods1 d) cur
    rw [ih _ (by omega)]

theorem copy_data_deps_idem (mods1 mods2 : List SrMod)
    (hn : mods1.map (fun m => m.name) = mods2.map (fun m => m.name))
    (a : ShmArr DataDep) (cur : Nat) (hcur : 0 < cur) :
    sr_shmmain_defrag_copy_data_deps mods2
      (sr_shmmain_defrag_copy_data_deps mods1 a cur).1 cur
      = sr_shmmain_defrag_copy_data_deps mods1 a cur := by
  by_cases hg : a.off = 0 ∧ a.items.length = 0
  · simp [sr_shmmain_defrag_copy_data_deps, hg]
  · simp only [sr_shmmain_defrag_copy_data_deps, if_neg hg]
    have hlen := copyDataDepItems_length mods1 a.items (cur + a.items.length * szDataDep)
    have hg2 : ¬(cur = 0 ∧ a.items.length = 0) :=
      fun hcn => Nat.pos_iff_ne_zero.mp hcur hcn.1
    simp only [hlen, if_neg hg2]
    rw [copyDataDepItems_idem mods1 mods2 hn _ _ (by omega)]

theorem copy_data_deps_cur_le (mods : List SrMod) (a : ShmArr DataDep) (cur : Nat) :
    cur ≤ (sr_shmmain_defrag_copy_data_deps mods a cur).2 := by
  by_cases hg : a.off = 0 ∧ a.items.length = 0
  · simp [sr_shmmain_defrag_copy_data_deps, hg]
  · simp only [sr_shmmain_defrag_copy_data_deps, if_neg hg]
    rw [copyDataDepItems_bytes]
    omega

theorem copyInvDepItems_idem (mods1 mods2 : List SrMod)
    (hn : mods1.map (fun m => m.name) = mods2.map (fun m => m.name)) :
    ∀ l : List ShmStr,
    copyInvDepItems mods2 (copyInvDepItems mods1 l) = copyInvDepItems mods1 l := by
  intro l
  induction l with
  | nil => rfl
  | cons d t ih =>
    simp only [copyInvDepItems]
    rw [List.cons.injEq]
    refine ⟨?_, ih⟩
    cases hf : sr_shmmain_find_module mods1 d.val with
    | none =>
      have he := find_module_name_eq mods1 mods2 hn d.val
      rw [hf] at he
      simp only [Option.map_none'] at he
      cases hf2 : sr_shmmain_find_module mods2 d.val with
      | none => simp [hf2]
      | some m2 =>
        rw [hf2] at he
        simp at he
    | some m0 =>
      have hf0 : List.find? (fun m => m.name.val == d.val) mods1
          = Option.some m0 := hf
      have hbeq := List.find?_some hf0
      have hveq : m0.name.val = d.val := eq_of_beq hbeq
      have he := find_module_name_eq mods1 mods2 hn d.val
      rw [hf] at he
      simp only [Option.map_some'] at he
      cases hf2 : sr_shmmain_find_module mods2 m0.name.val with
      | none => rfl
      | some m2 =>
        rw [hveq] at hf2
        rw [hf2] at he
        simp only [Option.map_some'] at he
        show m2.name = m0.name
        exact (Option.some.inj he).symm

theorem copyInvDepItems_length (mods : List SrMod) :
    ∀ l : List ShmStr, (copyInvDepItems mods l).length = l.length := by
  intro l
  induction l with
  | nil => rfl
  | cons d t ih => simp [copyInvDepItems, ih]

theorem copy_inv_data_deps_idem (mods1 mods2 : List SrMod)
    (hn : mods1.map (fun m => m.name) = mods2.map (fun m => m.name))
    (a : ShmArr ShmStr) (cur : Nat) (hcur : 0 < cur) :
    sr_shmmain_defrag_copy_inv_data_deps mods2
      (sr_shmmain_defrag_copy_inv_data_deps mods1 a cur).1 cur
      = sr_shmmain_defrag_copy_inv_data_deps mods1 a cur := by
  by_cases hg : a.off = 0 ∧ a.items.length = 0
  · simp [sr_shmmain_defrag_copy_inv_data_deps, hg]
  · simp only [sr_shmmain_defrag_copy_inv_data_deps, if_neg hg]
    have hlen := copyInvDepItems_length mods1 a.items
    have hg2 : ¬(cur = 0 ∧ a.items.length = 0) :=
      fun hcn => Nat.pos_iff_ne_zero.mp hcur hcn.1
    simp only [hlen, if_neg hg2]
    rw [copyInvDepItems_idem mods1 mods2 hn]

theorem copy_inv_data_deps_cur_le (mods : List SrMod) (a : ShmArr ShmStr)
    (cur : Nat) : cur ≤ (sr_shmmain_defrag_copy_inv_data_deps mods a cur).2 := by
  by_cases hg : a.off = 0 ∧ a.items.length = 0
  · simp [sr_shmmain_defrag_copy_inv_data_deps, hg]
  · simp only [sr_shmmain_defrag_copy_inv_data_deps, if_neg hg]
    omega

theorem copy_array_with_string_cur_le {α : Type} (getS : α → ShmStr)
    (setS : α → ShmStr → α) (sz : Nat) (a : ShmArr α) (cur : Nat) :
    cur ≤ (sr_shmmain_defrag_copy_array_with_string getS setS sz a cur).2 := by
  by_cases hg : a.off = 0 ∧ a.items.length = 0
  · simp [sr_shmmain_defrag_copy_array_with_string, hg]
  · simp only [sr_shmmain_defrag_copy_array_with_string, if_neg hg]
    rw [copyStrItems_bytes]
    omega

theorem copyOpDepDeps_idem (mods1 mods2 : List SrMod)
    (hn : mods1.map (fun m => m.name) = mods2.map (fun m => m.name)) :
    ∀ (l : List OpDep) (cur : Nat), 0 < cur →
    copyOpDepDeps mods2 (copyOpDepDeps mods1 l cur).1 cur
      = copyOpDepDeps mods1 l cur := by
  intro l
  induction l with
  | nil => intro cur hcur; rfl
  | cons o t ih =>
    intro cur hcur
    simp only [copyOpDepDeps]
    rw [copy_data_deps_idem mods1 mods2 hn _ _ hcur]
    have hle1 := copy_data_deps_cur_le mods1 o.in_deps cur
    rw [copy_data_deps_idem mods1 mods2 hn _ _ (by omega)]
    have hle2 := copy_data_deps_cur_le mods1 o.out_deps
      (sr_shmmain_defrag_copy_data_deps mods1 o.in_deps cur).2
    rw [ih _ (by omega)]

theorem copyOpDepDeps_cur_le (mods : List SrMod) :
    ∀ (l : List OpDep) (cur : Nat), cur ≤ (copyOpDepDeps mods l cur).2 := by
  intro l
  induction l with
  | nil => intro cur; exact Nat.le_refl _
  | cons o t ih =>
    intro cur
    simp only [copyOpDepDeps]
    have h1 := copy_data_deps_cur_le mods o.in_deps cur
    have h2 := copy_data_deps_cur_le mods o.out_deps
      (sr_shmmain_defrag_copy_data_deps mods o.in_deps cur).2
    have h3 := ih (sr_shmmain_defrag_copy_data_deps mods o.out_deps
      (sr_shmmain_defrag_copy_data_deps mods o.in_deps cur).2).2
    omega

theorem copyOpDepDeps_xpath_map (mods : List SrMod) :
    ∀ (l : List OpDep) (cur : Nat),
    (copyOpDepDeps mods l cur).1.map (fun o => o.xpath) = l.map (fun o => o.xpath) := by
  intro l
  induction l with
  | nil => intro cur; rfl
  | cons o t ih =>
    intro cur
    simp [copyOpDepDeps, ih]

theorem copyChangeSubLists_idem :
    ∀ (l : List (ShmArr ChangeSub)) (cur : Nat), 0 < cur →
    copyChangeSubLists (copyChangeSubLists l cur).1 cur
      = copyChangeSubLists l cur := by
  intro l
  induction l with
  | nil => intro cur hcur; rfl
  | cons a t ih =>
    intro cur hcur
    simp only [copyChangeSubLists]
    rw [copy_array_with_string_idem (fun c : ChangeSub => c.xpath)
      (fun c x => { c with xpath := x }) (fun x v => rfl) (fun x v w => rfl)
      szChangeSub a cur hcur]
    have hle := copy_array_with_string_cur_le
      (fun c : ChangeSub => c.xpath) (fun c x => { c with xpath := x }) szChangeSub a cur
    rw [ih _ (by omega)]

theorem copyChangeSubLists_cur_le :
    ∀ (l : List (ShmArr ChangeSub)) (cur : Nat), cur ≤ (copyChangeSubLists l cur).2 := by
  intro l
  induction l with
  | nil => intro cur; exact Nat.le_refl _
  | cons a t ih =>
    intro cur
    simp only [copyChangeSubLists]
    have h1 := copy_array_with_string_cur_le
      (fun c : ChangeSub => c.xpath) (fun c x => { c with xpath := x }) szChangeSub a cur
    have h2 := ih (sr_shmmain_defrag_copy_array_with_string
      (fun c : ChangeSub => c.xpath) (fun c x => { c with xpath := x }) szChangeSub a cur).2
    omega


/-- Present strings of a list sit consecutively from `cur` (the layout
`copyStrItems` produces). -/
def strsCanon {α : Type} (getS : α → ShmStr) : List α → Nat → Prop
  | [], _ => True
  | x :: t, cur =>
    ((getS x).off ≠ 0 → (getS x).off = cur)
    ∧ strsCanon getS t (cur + strBytes (getS x))

theorem copyStrItems_canon {α : Type} (getS : α → ShmStr) (setS : α → ShmStr → α)
    (hgs : ∀ x v, getS (setS x v) = v) :
    ∀ (l : List α) (cur : Nat), 0 < cur →
    strsCanon getS (copyStrItems getS setS l cur).1 cur := by
  intro l
  induction l with
  | nil => intro cur hcur; trivial
  | cons x t ih =>
    intro cur hcur
    by_cases hx : (getS x).off ≠ 0
    · simp only [copyStrItems, if_pos hx]
      refine ⟨?_, ?_⟩
      · intro h2
        rw [hgs]
      · have hsb : strBytes (getS (setS x ⟨cur, (getS x).val⟩))
            = shmlen (getS x).val := by
          rw [hgs]
          simp [strBytes, Nat.pos_iff_ne_zero.mp hcur]
        rw [hsb]
        exact ih _ (by omega)
    · simp only [copyStrItems, if_neg hx]
      refine ⟨fun h2 => absurd h2 hx, ?_⟩
      have hsb : strBytes (getS x) = 0 := by
        simp only [Decidable.not_not] at hx
        simp [strBytes, hx]
      rw [hsb, Nat.add_zero]
      exact ih _ hcur

theorem strsCanon_of_map_eq {α : Type} (getS : α → ShmStr) :
    ∀ (l1 l2 : List α) (cur : Nat), l1.map getS = l2.map getS →
    strsCanon getS l1 cur → strsCanon getS l2 cur := by
  intro l1
  induction l1 with
  | nil =>
    intro l2 cur hm hc
    cases l2 with
    | nil => trivial
    | cons b u => simp at hm
  | cons a t ih =>
    intro l2 cur hm hc
    cases l2 with
    | nil => simp at hm
    | cons b u =>
      simp only [List.map_cons, List.cons.injEq] at hm
      refine ⟨?_, ?_⟩
      · rw [← hm.1]
        exact hc.1
      · rw [← hm.1]
        exact ih u _ hm.2 hc.2

theorem copyStrItems_fixed {α : Type} (getS : α → ShmStr) (setS : α → ShmStr → α)
    (hid : ∀ x, setS x (getS x) = x) :
    ∀ (l : List α) (cur : Nat), 0 < cur → strsCanon getS l cur →
    copyStrItems getS setS l cur
      = (l, cur + (l.map (fun x => strBytes (getS x))).sum) := by
  intro l
  induction l with
  | nil => intro cur hcur hc; simp [copyStrItems]
  | cons x t ih =>
    intro cur hcur hc
    by_cases hx : (getS x).off ≠ 0
    · simp only [copyStrItems, if_pos hx]
      have hoc : (getS x).off = cur := hc.1 hx
      have hgx : getS x = ⟨cur, (getS x).val⟩ := by
        cases hgs : getS x with
        | mk o v =>
          rw [hgs] at hoc
          simp only at hoc
          simp [hoc]
      have hhead : setS x ⟨cur, (getS x).val⟩ = x := by
        rw [← hgx]
        exact hid x
      have hsb : strBytes (getS x) = shmlen (getS x).val := by
        simp [strBytes, hx]
      have htail := ih (cur + shmlen (getS x).val) (by omega)
        (by have h5 := hc.2; rw [hsb] at h5; exact h5)
      rw [hhead, htail]
      simp only [List.map_cons, List.sum_cons, hsb]
      rw [Prod.mk.injEq]
      exact ⟨rfl, by omega⟩
    · simp only [copyStrItems, if_neg hx]
      have hsb : strBytes (getS x) = 0 := by
        simp only [Decidable.not_not] at hx
        simp [strBytes, hx]
      have htail := ih cur hcur
        (by have h5 := hc.2; rw [hsb, Nat.add_zero] at h5; exact h5)
      rw [htail]
      simp only [List.map_cons, List.sum_cons, hsb]
      rw [Prod.mk.injEq]
      exact ⟨rfl, by omega⟩

theorem copy_array_fixed {α : Type} (getS : α → ShmStr) (setS : α → ShmStr → α)
    (hgs : ∀ x v, getS (setS x v) = v) (hid : ∀ x, setS x (getS x) = x)
    (sz : Nat) (a : ShmArr α) (cur : Nat) (hcur : 0 < cur) (l2 : List α)
    (hmap : l2.map getS
      = (sr_shmmain_defrag_copy_array_with_string getS setS sz a cur).1.items.map getS) :
    sr_shmmain_defrag_copy_array_with_string getS setS sz
      ⟨(sr_shmmain_defrag_copy_array_with_string getS setS sz a cur).1.off, l2⟩ cur
      = (⟨(sr_shmmain_defrag_copy_array_with_string getS setS sz a cur).1.off, l2⟩,
         (sr_shmmain_defrag_copy_array_with_string getS setS sz a cur).2) := by
  by_cases hg : a.off = 0 ∧ a.items.length = 0
  · have hl2 : l2 = [] := by
      rw [sr_shmmain_defrag_copy_array_with_string, if_pos hg] at hmap
      simp only [List.map_nil] at hmap
      exact List.map_eq_nil.mp hmap
    simp [sr_shmmain_defrag_copy_array_with_string, hg, hl2]
  · simp only [sr_shmmain_defrag_copy_array_with_string, if_neg hg] at hmap ⊢
    have hl2len : l2.length = a.items.length := by
      have h1 := congrArg List.length hmap
      simpa [copyStrItems_length] using h1
    have hg2 : ¬(cur = 0 ∧ a.items.length = 0) :=
      fun hcn => Nat.pos_iff_ne_zero.mp hcur hcn.1
    simp only [hl2len, if_neg hg2]
    have hcanon : strsCanon getS l2 (cur + a.items.length * sz) :=
      strsCanon_of_map_eq getS _ l2 _ hmap.symm
        (copyStrItems_canon getS setS hgs a.items _
          (Nat.lt_of_lt_of_le hcur (Nat.le_add_right _ _)))
    rw [copyStrItems_fixed getS setS hid l2 _
      (Nat.lt_of_lt_of_le hcur (Nat.le_add_right _ _)) hcanon]
    have hsums : (l2.map (fun x => strBytes (getS x))).sum
        = (a.items.map (fun x => strBytes (getS x))).sum := by
      have h1 := congrArg (List.map strBytes) hmap
      simp only [List.map_map] at h1
      have h1b : List.map (fun x => strBytes (getS x)) l2
          = List.map (fun x => strBytes (getS x))
            (copyStrItems getS setS a.items (cur + a.items.length * sz)).1 := h1
      have h3 := copyStrItems_strBytes getS setS hgs a.items
        (cur + a.items.length * sz)
        (Nat.lt_of_lt_of_le hcur (Nat.le_add_right _ _))
      rw [h3] at h1b
      exact congrArg List.sum h1b
    rw [copyStrItems_bytes, Prod.mk.injEq]
    refine ⟨rfl, ?_⟩
    omega

theorem defragMod_name (mods : List SrMod) (m : SrMod) (cur : Nat) :
    (defragMod mods m cur).1.name = m.name := rfl

theorem defragModList_name_map (mods : List SrMod) :
    ∀ (l : List SrMod) (cur : Nat),
    (defragModList mods l cur).1.map (fun m => m.name)
      = l.map (fun m => m.name) := by
  intro l
  induction l with
  | nil => intro cur; rfl
  | cons m t ih =>
    intro cur
    simp [defragModList, ih, defragMod_name]

theorem defragMod_idem (mods1 mods2 : List SrMod)
    (hn : mods1.map (fun m => m.name) = mods2.map (fun m => m.name))
    (m : SrMod) (cur : Nat) (hcur : 0 < cur) :
    defragMod mods2 (defragMod mods1 m cur).1 cur = defragMod mods1 m cur := by
  unfold defragMod
  simp only []
  rw [copy_array_with_string_idem (fun f : ShmStr => f) (fun _ f => f)
    (fun x v => rfl) (fun x v w => rfl) szOff m.features cur hcur]
  have hle1 := copy_array_with_string_cur_le (fun f : ShmStr => f) (fun _ f => f)
    szOff m.features cur
  rw [copy_data_deps_idem mods1 mods2 hn _ _ (by omega)]
  have hle2 := copy_data_deps_cur_le mods1 m.data_deps
    (sr_shmmain_defrag_copy_array_with_string (fun f : ShmStr => f) (fun _ f => f)
      szOff m.features cur).2
  rw [copy_inv_data_deps_idem mods1 mods2 hn _ _ (by omega)]
  have hle3 := copy_inv_data_deps_cur_le mods1 m.inv_data_deps
    (sr_shmmain_defrag_copy_data_deps mods1 m.data_deps
      (sr_shmmain_defrag_copy_array_with_string (fun f : ShmStr => f) (fun _ f => f)
        szOff m.features cur).2).2
  rw [copy_array_fixed (fun o : OpDep => o.xpath) (fun o x => { o with xpath := x })
    (fun x v => rfl) (fun x => rfl) szOpDep m.op_deps _ (by omega) _
    (by rw [copyOpDepDeps_xpath_map])]
  have hle4 := copy_array_with_string_cur_le (fun o : OpDep => o.xpath)
    (fun o x => { o with xpath := x }) szOpDep m.op_deps
    (sr_shmmain_defrag_copy_inv_data_deps mods1 m.inv_data_deps
      (sr_shmmain_defrag_copy_data_deps mods1 m.data_deps
        (sr_shmmain_defrag_copy_array_with_string (fun f : ShmStr => f) (fun _ f => f)
          szOff m.features cur).2).2).2
  rw [copyOpDepDeps_idem mods1 mods2 hn _ _ (by omega)]
  have hle5 := copyOpDepDeps_cur_le mods1
    (sr_shmmain_defrag_copy_array_with_string (fun o : OpDep => o.xpath)
      (fun o x => { o with xpath := x }) szOpDep m.op_deps
      (sr_shmmain_defrag_copy_inv_data_deps mods1 m.inv_data_deps
        (sr_shmmain_defrag_copy_data_deps mods1 m.data_deps
          (sr_shmmain_defrag_copy_array_with_string (fun f : ShmStr => f)
            (fun _ f => f) szOff m.features cur).2).2).2).1.items
    (sr_shmmain_defrag_copy_array_with_string (fun o : OpDep => o.xpath)
      (fun o x => { o with xpath := x }) szOpDep m.op_deps
      (sr_shmmain_defrag_copy_inv_data_deps mods1 m.inv_data_deps
        (sr_shmmain_defrag_copy_data_deps mods1 m.data_deps
          (sr_shmmain_defrag_copy_array_with_string (fun f : ShmStr => f)
            (fun _ f => f) szOff m.features cur).2).2).2).2
  rw [copyChangeSubLists_idem _ _ (by omega)]
  have hle6 := copyChangeSubLists_cur_le m.change_sub
    (copyOpDepDeps mods1
      (sr_shmmain_defrag_copy_array_with_string (fun o : OpDep => o.xpath)
        (fun o x => { o with xpath := x }) szOpDep m.op_deps
        (sr_shmmain_defrag_copy_inv_data_deps mods1 m.inv_data_deps
          (sr_shmmain_defrag_copy_data_deps mods1 m.data_deps
            (sr_shmmain_defrag_copy_array_with_string (fun f : ShmStr => f)
              (fun _ f => f) szOff m.features cur).2).2).2).1.items
      (sr_shmmain_defrag_copy_array_with_string (fun o : OpDep => o.xpath)
        (fun o x => { o with xpath := x }) szOpDep m.op_deps
        (sr_shmmain_defrag_copy_inv_data_deps mods1 m.inv_data_deps
          (sr_shmmain_defrag_copy_data_deps mods1 m.data_deps
            (sr_shmmain_defrag_copy_array_with_string (fun f : ShmStr => f)
              (fun _ f => f) szOff m.features cur).2).2).2).2).2
  rw [copy_array_with_string_idem (fun c : OperSub => c.xpath)
    (fun c x => { c with xpath := x }) (fun x v => rfl) (fun x v w => rfl)
    szOperSub m.oper_subs _ (by omega)]


theorem defragNames_vals : ∀ (l : List SrMod) (cur : Nat),
    (defragNames l cur).1.map (fun m => m.name.val) = l.map (fun m => m.name.val) := by
  intro l
  induction l with
  | nil => intro cur; rfl
  | cons m t ih =>
    intro cur
    simp [defragNames, ih]

theorem defragMod_cur_le (mods : List SrMod) (m : SrMod) (cur : Nat) :
    cur ≤ (defragMod mods m cur).2 := by
  unfold defragMod
  simp only []
  set A1 := sr_shmmain_defrag_copy_array_with_string (fun f : ShmStr => f)
    (fun _ f => f) szOff m.features cur with hA1
  set A2 := sr_shmmain_defrag_copy_data_deps mods m.data_deps A1.2 with hA2
  set A3 := sr_shmmain_defrag_copy_inv_data_deps mods m.inv_data_deps A2.2 with hA3
  set A4 := sr_shmmain_defrag_copy_array_with_string (fun o : OpDep => o.xpath)
    (fun o x => { o with xpath := x }) szOpDep m.op_deps A3.2 with hA4
  set A5 := copyOpDepDeps mods A4.1.items A4.2 with hA5
  set A6 := copyChangeSubLists m.change_sub A5.2 with hA6
  have h1 : cur ≤ A1.2 := by
    rw [hA1]
    exact copy_array_with_string_cur_le _ _ _ _ _
  have h2 : A1.2 ≤ A2.2 := by
    rw [hA2]
    exact copy_data_deps_cur_le _ _ _
  have h3 : A2.2 ≤ A3.2 := by
    rw [hA3]
    exact copy_inv_data_deps_cur_le _ _ _
  have h4 : A3.2 ≤ A4.2 := by
    rw [hA4]
    exact copy_array_with_string_cur_le _ _ _ _ _
  have h5 : A4.2 ≤ A5.2 := by
    rw [hA5]
    exact copyOpDepDeps_cur_le _ _ _
  have h6 : A5.2 ≤ A6.2 := by
    rw [hA6]
    exact copyChangeSubLists_cur_le _ _
  have h7 := copy_array_with_string_cur_le (fun c : OperSub => c.xpath)
    (fun c x => { c with xpath := x }) szOperSub m.oper_subs A6.2
  omega

theorem defragModList_idem (mods1 mods2 : List SrMod)
    (hn : mods1.map (fun m => m.name) = mods2.map (fun m => m.name)) :
    ∀ (l : List SrMod) (cur : Nat), 0 < cur →
    defragModList mods2 (defragModList mods1 l cur).1 cur
      = defragModList mods1 l cur := by
  intro l
  induction l with
  | nil => intro cur hcur; rfl
  | cons m t ih =>
    intro cur hcur
    simp only [defragModList]
    rw [defragMod_idem mods1 mods2 hn m cur hcur]
    have hle := defragMod_cur_le mods1 m cur
    rw [ih _ (by omega)]

theorem defragModList_cur_le (mods : List SrMod) :
    ∀ (l : List SrMod) (cur : Nat), cur ≤ (defragModList mods l cur).2 := by
  intro l
  induction l with
  | nil => intro cur; exact Nat.le_refl _
  | cons m t ih =>
    intro cur
    simp only [defragModList]
    exact Nat.le_trans (defragMod_cur_le mods m cur) (ih _)

theorem defragEvpipes_length : ∀ (l : List ConnState) (cur : Nat),
    (defragEvpipes l cur).1.length = l.length := by
  intro l
  induction l with
  | nil => intro cur; rfl
  | cons c t ih =>
    intro cur
    simp [defragEvpipes, ih]

theorem defragEvpipes_idem : ∀ (l : List ConnState) (cur : Nat),
    defragEvpipes (defragEvpipes l cur).1 cur = defragEvpipes l cur := by
  intro l
  induction l with
  | nil => intro cur; rfl
  | cons c t ih =>
    intro cur
    simp only [defragEvpipes]
    rw [ih]

theorem defragRpcSubs_op_path_map : ∀ (l : List Rpc) (cur : Nat),
    (defragRpcSubs l cur).1.map (fun r => r.op_path) = l.map (fun r => r.op_path) := by
  intro l
  induction l with
  | nil => intro cur; rfl
  | cons r t ih =>
    intro cur
    simp [defragRpcSubs, ih]

theorem defragRpcSubs_idem : ∀ (l : List Rpc) (cur : Nat), 0 < cur →
    defragRpcSubs (defragRpcSubs l cur).1 cur = defragRpcSubs l cur := by
  intro l
  induction l with
  | nil => intro cur hcur; rfl
  | cons r t ih =>
    intro cur hcur
    simp only [defragRpcSubs]
    rw [copy_array_with_string_idem (fun u : RpcSub => u.xpath)
      (fun u x => { u with xpath := x }) (fun x v => rfl) (fun x v w => rfl)
      szRpcSub r.subs cur hcur]
    have hle := copy_array_with_string_cur_le (fun u : RpcSub => u.xpath)
      (fun u x => { u with xpath := x }) szRpcSub r.subs cur
    rw [ih _ (by omega)]

theorem defragRpcSubs_cur_le : ∀ (l : List Rpc) (cur : Nat),
    cur ≤ (defragRpcSubs l cur).2 := by
  intro l
  induction l with
  | nil => intro cur; exact Nat.le_refl _
  | cons r t ih =>
    intro cur
    simp only [defragRpcSubs]
    exact Nat.le_trans (copy_array_with_string_cur_le (fun u : RpcSub => u.xpath)
      (fun u x => { u with xpath := x }) szRpcSub r.subs cur) (ih _)

theorem defragNames_cur_le : ∀ (l : List SrMod) (cur : Nat),
    cur ≤ (defragNames l cur).2 := by
  intro l
  induction l with
  | nil => intro cur; exact Nat.le_refl _
  | cons m t ih =>
    intro cur
    simp only [defragNames]
    have h := ih (cur + shmlen m.name.val)
    omega

/-- The defragmentation build is idempotent: run on its own output it
reproduces the state and the cursor byte for byte. -/
theorem defragBuild_idem (s : St) :
    defragBuild (defragBuild s).1 = ((defragBuild s).1, (defragBuild s).2) := by
  have hszw : (0 : Nat) < szWord := by decide
  -- pass 1: the names of the first run's modules are already canonical
  have hname1 : (defragModList (defragNames s.mods szWord).1
      (defragNames s.mods szWord).1 (defragNames s.mods szWord).2).1.map
        (fun m => m.name)
      = (defragNames s.mods szWord).1.map (fun m => m.name) :=
    defragModList_name_map _ _ _
  have hcanon2 : namesCanon (defragModList (defragNames s.mods szWord).1
      (defragNames s.mods szWord).1 (defragNames s.mods szWord).2).1 szWord :=
    namesCanon_of_map_eq _ _ szWord hname1.symm (defragNames_canon s.mods szWord)
  have hfix : (defragNames (defragModList (defragNames s.mods szWord).1
      (defragNames s.mods szWord).1 (defragNames s.mods szWord).2).1 szWord).1
      = (defragModList (defragNames s.mods szWord).1
        (defragNames s.mods szWord).1 (defragNames s.mods szWord).2).1 :=
    defragNames_fixed _ szWord hcanon2
  have hcur2 : (defragNames (defragModList (defragNames s.mods szWord).1
      (defragNames s.mods szWord).1 (defragNames s.mods szWord).2).1 szWord).2
      = (defragNames s.mods szWord).2 := by
    have h1 : (defragModList (defragNames s.mods szWord).1
        (defragNames s.mods szWord).1 (defragNames s.mods szWord).2).1.map
          (fun m => shmlen m.name.val)
        = s.mods.map (fun m => shmlen m.name.val) := by
      have h2 := congrArg (List.map (fun n : ShmStr => shmlen n.val)) hname1
      simp only [List.map_map] at h2
      have h3 := congrArg (List.map shmlen) (defragNames_vals s.mods szWord)
      simp only [List.map_map] at h3
      have h3c : (defragNames s.mods szWord).1.map (fun m => shmlen m.name.val)
          = s.mods.map (fun m => shmlen m.name.val) := h3
      have h2b : (defragModList (defragNames s.mods szWord).1
          (defragNames s.mods szWord).1 (defragNames s.mods szWord).2).1.map
            (fun m => shmlen m.name.val)
          = (defragNames s.mods szWord).1.map (fun m => shmlen m.name.val) := h2
      rw [h2b, h3c]
    rw [defragNames_bytes (defragModList (defragNames s.mods szWord).1
      (defragNames s.mods szWord).1 (defragNames s.mods szWord).2).1 szWord,
      h1, defragNames_bytes s.mods szWord]
  have hnmap : (defragNames s.mods szWord).1.map (fun m => m.name)
      = (defragModList (defragNames s.mods szWord).1 (defragNames s.mods szWord).1
        (defragNames s.mods szWord).2).1.map (fun m => m.name) := hname1.symm
  have hcurpos : 0 < (defragNames s.mods szWord).2 := by
    have := defragNames_cur_le s.mods szWord
    omega
  have hmods2 : defragModList (defragModList (defragNames s.mods szWord).1
        (defragNames s.mods szWord).1 (defragNames s.mods szWord).2).1
      (defragModList (defragNames s.mods szWord).1 (defragNames s.mods szWord).1
        (defragNames s.mods szWord).2).1 (defragNames s.mods szWord).2
      = defragModList (defragNames s.mods szWord).1 (defragNames s.mods szWord).1
        (defragNames s.mods szWord).2 :=
    defragModList_idem _ _ hnmap _ _ hcurpos
  simp only [defragBuild]
  rw [hfix, hcur2, hmods2]
  -- connection pass: the evpipe items and hence the lengths are unchanged
  have hconnlen : (defragEvpipes s.main.conn_state.items
      (shmAlloc (defragModList (defragNames s.mods szWord).1
        (defragNames s.mods szWord).1 (defragNames s.mods szWord).2).2
        (s.main.conn_state.items.length * szConn)).2).1.length
      = s.main.conn_state.items.length := defragEvpipes_length _ _
  rw [hconnlen, defragEvpipes_idem]
  -- rpc pass: the op paths are unchanged by the subscription pass
  have hrpcmods : 0 < (defragModList (defragNames s.mods szWord).1
      (defragNames s.mods szWord).1 (defragNames s.mods szWord).2).2 := by
    have := defragModList_cur_le (defragNames s.mods szWord).1
      (defragNames s.mods szWord).1 (defragNames s.mods szWord).2
    omega
  have hcure : 0 < (defragEvpipes s.main.conn_state.items
      (shmAlloc (defragModList (defragNames s.mods szWord).1
        (defragNames s.mods szWord).1 (defragNames s.mods szWord).2).2
        (s.main.conn_state.items.length * szConn)).2).2 := by
    have h1 := defragEvpipes_spec s.main.conn_state.items
      (shmAlloc (defragModList (defragNames s.mods szWord).1
        (defragNames s.mods szWord).1 (defragNames s.mods szWord).2).2
        (s.main.conn_state.items.length * szConn)).2
      (by rw [shmAlloc_snd]; omega)
    rw [h1.2.2, shmAlloc_snd]
    omega
  rw [copy_array_fixed (fun r : Rpc => r.op_path)
    (fun r x => { r with op_path := x }) (fun x v => rfl) (fun x => rfl)
    szRpc s.main.rpc _ hcure _ (by rw [defragRpcSubs_op_path_map])]
  have hcurr : 0 < (sr_shmmain_defrag_copy_array_with_string (fun r : Rpc => r.op_path)
      (fun r x => { r with op_path := x }) szRpc s.main.rpc
      (defragEvpipes s.main.conn_state.items
        (shmAlloc (defragModList (defragNames s.mods szWord).1
          (defragNames s.mods szWord).1 (defragNames s.mods szWord).2).2
          (s.main.conn_state.items.length * szConn)).2).2).2 := by
    have := copy_array_with_string_cur_le (fun r : Rpc => r.op_path)
      (fun r x => { r with op_path := x }) szRpc s.main.rpc
      (defragEvpipes s.main.conn_state.items
        (shmAlloc (defragModList (defragNames s.mods szWord).1
          (defragNames s.mods szWord).1 (defragNames s.mods szWord).2).2
          (s.main.conn_state.items.length * szConn)).2).2
    omega
  rw [defragRpcSubs_idem _ _ hcurr, Nat.sub_zero]


/-- C5: double-write compaction reaches a fixed point.  Whenever a
defragmentation run succeeds and its result is swapped in, the swapped-in
state has wasted counter 0, and a second run succeeds and produces the
byte-identical state (every object at the same offset, same sizes, same
counter). -/
theorem C5_defrag_fixed_point (s s1 : St)
    (h : sr_shmmain_ext_defrag s = Except.ok s1) :
    s1.wasted = 0 ∧ sr_shmmain_ext_defrag s1 = Except.ok s1 := by
  unfold sr_shmmain_ext_defrag at h
  by_cases hcond : (defragBuild s).2 = s.ext_size - s.wasted
  · rw [if_pos hcond] at h
    have hs1 : s1 = (defragBuild s).1 := (Except.ok.inj h).symm
    subst hs1
    refine ⟨rfl, ?_⟩
    unfold sr_shmmain_ext_defrag
    have hext : (defragBuild s).1.ext_size = s.ext_size - s.wasted := rfl
    have hw : (defragBuild s).1.wasted = 0 := rfl
    rw [defragBuild_idem s]
    rw [if_pos (show ((defragBuild s).1, (defragBuild s).2).2
        = (defragBuild s).1.ext_size - (defragBuild s).1.wasted by
      show (defragBuild s).2 = (defragBuild s).1.ext_size - (defragBuild s).1.wasted
      rw [hext, hw, Nat.sub_zero]
      exact hcond)]
  · rw [if_neg hcond] at h
    cases h

/-- Witness for C5: on the compact fixture state the first defragmentation
succeeds, and the second run reproduces its output with wasted 0. -/
theorem C5_defrag_fixed_point_witness :
    sr_shmmain_ext_defrag w2St = Except.ok (defragBuild w2St).1
    ∧ (defragBuild w2St).1.wasted = 0
    ∧ sr_shmmain_ext_defrag (defragBuild w2St).1
        = Except.ok (defragBuild w2St).1 := by
  have hcnd : (defragBuild w2St).2 = w2St.ext_size - w2St.wasted := by decide
  have h : sr_shmmain_ext_defrag w2St = Except.ok (defragBuild w2St).1 := by
    unfold sr_shmmain_ext_defrag
    rw [if_pos hcnd]
  have h2 := C5_defrag_fixed_point w2St (defragBuild w2St).1 h
  exact ⟨h, h2.1, h2.2⟩

/-! ## Recovery sweep: step characterizations -/

/-- A live record at the cursor advances the sweep. -/
theorem recoverLoop_step_live (live : Nat → Bool) (s : St) (i : Nat)
    (h : i < s.main.conn_state.items.length)
    (hl : live (s.main.conn_state.items[i]).pid = true) :
    recoverLoop live s i = recoverLoop live s (i + 1) := by
  conv_lhs => rw [recoverLoop]
  rw [dif_pos h]
  simp only [hl, if_true]

/-- A dead record at the cursor is recovered and the cursor retested, provided
the recovery shrank the array. -/
theorem recoverLoop_step_dead (live : Nat → Bool) (s : St) (i : Nat)
    (h : i < s.main.conn_state.items.length)
    (hl : live (s.main.conn_state.items[i]).pid = false)
    (h2 : (recoverDeadConn s i (s.main.conn_state.items[i])).main.conn_state.items.length
          < s.main.conn_state.items.length) :
    recoverLoop live s i
      = recoverLoop live (recoverDeadConn s i (s.main.conn_state.items[i])) i := by
  conv_lhs => rw [recoverLoop]
  rw [dif_pos h]
  simp only [hl, Bool.false_eq_true, if_false]
  rw [dif_pos h2]

/-- The sweep stops at the end of the connection array. -/
theorem recoverLoop_end (live : Nat → Bool) (s : St) (i : Nat)
    (h : ¬ i < s.main.conn_state.items.length) :
    recoverLoop live s i = s := by
  conv_lhs => rw [recoverLoop]
  rw [dif_neg h]

/-- The sweep climbs over any run of live records. -/
theorem recoverLoop_live_run (live : Nat → Bool) :
    ∀ (k i : Nat) (s : St),
    i + k ≤ s.main.conn_state.items.length →
    (∀ j, i ≤ j → j < i + k → ∀ cj,
      s.main.conn_state.items[j]? = Option.some cj → live cj.pid = true) →
    recoverLoop live s i = recoverLoop live s (i + k) := by
  intro k
  induction k with
  | zero => intro i s _ _; rfl
  | succ m ih =>
    intro i s hle hl
    have hi : i < s.main.conn_state.items.length := by omega
    have hgl : live (s.main.conn_state.items[i]).pid = true := by
      exact hl i (Nat.le_refl i) (by omega) _ (List.getElem?_eq_getElem hi)
    rw [recoverLoop_step_live live s i hi hgl]
    have := ih (i + 1) s (by omega)
      (fun j h1 h2 cj hj => hl j (by omega) (by omega) cj hj)
    rw [this]
    have harr : i + 1 + m = i + (m + 1) := by omega
    rw [harr]

/-- The first index satisfying the predicate, when the only hit is the final
element. -/
theorem idxOf?_last {α : Type} (p : α → Bool) :
    ∀ (l : List α) (n : Nat) (c : α),
    l.length = n + 1 → l[n]? = Option.some c → p c = true →
    (∀ j cj, j < n → l[j]? = Option.some cj → p cj = false) →
    idxOf? p l = Option.some (n, c) := by
  intro l
  induction l with
  | nil => intro n c h; simp at h
  | cons a t ih =>
    intro n c hlen hget hp hmiss
    cases n with
    | zero =>
      have hac : a = c := by
        simpa using hget
      subst hac
      simp [idxOf?, hp]
    | succ m =>
      have hpa : p a = false := by
        exact hmiss 0 a (by omega) (by simp)
      have hlt : t.length = m + 1 := by simpa using hlen
      have hgt : t[m]? = Option.some c := by simpa using hget
      have hmt : ∀ j cj, j < m → t[j]? = Option.some cj → p cj = false := by
        intro j cj hj hjeq
        exact hmiss (j + 1) cj (by omega) (by simpa using hjeq)
      simp [idxOf?, hpa, ih m c hlt hgt hp hmt]

/-- Setting the final element is invisible after `dropLast`. -/
theorem dropLast_set_last {α : Type} :
    ∀ (l : List α) (n : Nat) (x : α),
    l.length = n + 1 → (l.set n x).dropLast = l.dropLast := by
  intro l
  induction l with
  | nil => intro n x h; simp at h
  | cons a t ih =>
    intro n x h
    cases n with
    | zero =>
      have ht : t = [] := by
        cases t with
        | nil => rfl
        | cons b u => simp at h
      subst ht; rfl
    | succ m =>
      have hm : t.length = m + 1 := by simpa using h
      have hne : t ≠ [] := by
        intro hc; rw [hc] at hm; simp at hm
      have hne2 : t.set m x ≠ [] := by
        intro hc
        have hcl := congrArg List.length hc
        simp [hm] at hcl
      show (a :: t.set m x).dropLast = (a :: t).dropLast
      rw [List.dropLast_cons_of_ne_nil hne2, List.dropLast_cons_of_ne_nil hne,
        ih m x hm]

/-- Swap-removing the final element just drops it. -/
theorem swapRemove_last {α : Type} (l : List α) (n : Nat) (h : l.length = n + 1) :
    swapRemove l n = l.dropLast := by
  have hne : l ≠ [] := by
    intro hc; rw [hc] at h; simp at h
  unfold swapRemove
  rw [List.getLast?_eq_getLast l hne]
  exact dropLast_set_last l n _ h

/-- Setting index `k` is invisible after `drop (k + 1)`. -/
theorem drop_succ_set {α : Type} :
    ∀ (l : List α) (k : Nat) (a : α), (l.set k a).drop (k + 1) = l.drop (k + 1) := by
  intro l
  induction l with
  | nil => intro k a; rfl
  | cons b t ih =>
    intro k a
    cases k with
    | zero => rfl
    | succ m => exact ih m a

/-- Taking `k + 1` elements after setting index `k` appends the new element to
the first `k`. -/
theorem take_succ_set {α : Type} :
    ∀ (l : List α) (k : Nat) (a : α), k < l.length →
    (l.set k a).take (k + 1) = l.take k ++ [a] := by
  intro l
  induction l with
  | nil => intro k a h; simp at h
  | cons b t ih =>
    intro k a h
    cases k with
    | zero => rfl
    | succ m =>
      have hm : m < t.length := by simpa using h
      show b :: (t.set m a).take (m + 1) = (b :: t.take m) ++ [a]
      rw [ih m a hm]
      rfl

theorem recoverRpcLoop_succ (s : St) (ev k fuel : Nat) :
    recoverRpcLoop s ev k (fuel + 1)
      = if h : k < s.main.rpc.items.length then
          let r := s.main.rpc.items[k]
          let rdel := sr_shmmain_rpc_subscription_del s k "" 0 ev true
          let s2 := if rdel.2.1 then (sr_shmmain_del_rpc_by_off rdel.1 r.op_path.off).1
            else rdel.1
          recoverRpcLoop s2 ev (k + 1) fuel
        else s := rfl

theorem recoverRpcLoop_zero (s : St) (ev k : Nat) :
    recoverRpcLoop s ev k 0 = s := rfl

theorem rpcEvDel_nodel (ev : Nat) (r : Rpc)
    (h2 : (sweepDel (fun u => u.evpipe_num == ev) r.subs.items 0).2.isEmpty = true) :
    rpcEvDel ev r = (r, 0) := by
  unfold rpcEvDel
  simp only [h2, if_true]

theorem rpcEvDel_del (ev : Nat) (r : Rpc)
    (h2 : (sweepDel (fun u => u.evpipe_num == ev) r.subs.items 0).2.isEmpty = false)
    (h1 : (sweepDel (fun u => u.evpipe_num == ev) r.subs.items 0).1.isEmpty = false) :
    rpcEvDel ev r
      = ({ r with subs := ⟨r.subs.off,
            (sweepDel (fun u => u.evpipe_num == ev) r.subs.items 0).1⟩ },
         ((sweepDel (fun u => u.evpipe_num == ev) r.subs.items 0).2.map rpcSubWasted).sum) := by
  unfold rpcEvDel
  simp only [h2, h1, Bool.false_eq_true, if_false]

theorem rpc_sub_del_ev_nodel (s : St) (k ev : Nat) (r : Rpc)
    (hk : s.main.rpc.items[k]? = Option.some r)
    (h2 : (sweepDel (fun u => u.evpipe_num == ev) r.subs.items 0).2.isEmpty = true) :
    sr_shmmain_rpc_subscription_del s k "" 0 ev true = (s, false, Option.none) := by
  unfold sr_shmmain_rpc_subscription_del
  rw [hk]
  simp only [h2, if_true]

theorem rpc_sub_del_ev_del (s : St) (k ev : Nat) (r : Rpc)
    (hk : s.main.rpc.items[k]? = Option.some r)
    (h2 : (sweepDel (fun u => u.evpipe_num == ev) r.subs.items 0).2.isEmpty = false)
    (h1 : (sweepDel (fun u => u.evpipe_num == ev) r.subs.items 0).1.isEmpty = false) :
    sr_shmmain_rpc_subscription_del s k "" 0 ev true
      = ({ s with
           wasted := s.wasted
             + ((sweepDel (fun u => u.evpipe_num == ev) r.subs.items 0).2.map rpcSubWasted).sum
           main := { s.main with rpc :=
             ⟨s.main.rpc.off,
              s.main.rpc.items.set k { r with subs :=
                ⟨r.subs.off, (sweepDel (fun u => u.evpipe_num == ev) r.subs.items 0).1⟩ }⟩ } },
         false, Option.none) := by
  unfold sr_shmmain_rpc_subscription_del
  rw [hk]
  simp only [h2, h1, Bool.false_eq_true, if_false]
  rw [if_pos trivial]


theorem recoverRpcLoop_keep (ev : Nat) :
    ∀ (fuel k : Nat) (s : St),
    s.main.rpc.items.length ≤ k + fuel →
    (∀ r ∈ s.main.rpc.items.drop k,
      (sweepDel (fun u => u.evpipe_num == ev) r.subs.items 0).1 ≠ []) →
    (recoverRpcLoop s ev k fuel).main.rpc.items
        = s.main.rpc.items.take k
          ++ (s.main.rpc.items.drop k).map (fun r => (rpcEvDel ev r).1)
    ∧ (recoverRpcLoop s ev k fuel).main.rpc.off = s.main.rpc.off
    ∧ (recoverRpcLoop s ev k fuel).main.conn_state = s.main.conn_state
    ∧ (recoverRpcLoop s ev k fuel).main.readers = s.main.readers
    ∧ (recoverRpcLoop s ev k fuel).mods = s.mods
    ∧ (recoverRpcLoop s ev k fuel).ext_size = s.ext_size
    ∧ (recoverRpcLoop s ev k fuel).oper_data = s.oper_data
    ∧ (recoverRpcLoop s ev k fuel).wasted
        = s.wasted
          + ((s.main.rpc.items.drop k).map (fun r => (rpcEvDel ev r).2)).sum := by
  intro fuel
  induction fuel with
  | zero =>
    intro k s hle _
    have hdrop : s.main.rpc.items.drop k = [] := by
      apply List.drop_eq_nil_of_le; omega
    have htake : s.main.rpc.items.take k = s.main.rpc.items := by
      apply List.take_of_length_le; omega
    rw [recoverRpcLoop_zero, hdrop, htake]
    exact ⟨by simp, rfl, rfl, rfl, rfl, rfl, rfl, by simp⟩
  | succ fuel ih =>
    intro k s hle hkeep
    by_cases h : k < s.main.rpc.items.length
    case neg =>
      have hstop : recoverRpcLoop s ev k (fuel + 1) = s := by
        rw [recoverRpcLoop_succ, dif_neg h]
      have hdrop : s.main.rpc.items.drop k = [] := by
        apply List.drop_eq_nil_of_le; omega
      have htake : s.main.rpc.items.take k = s.main.rpc.items := by
        apply List.take_of_length_le; omega
      rw [hstop, hdrop, htake]
      exact ⟨by simp, rfl, rfl, rfl, rfl, rfl, rfl, by simp⟩
    case pos =>
      have hk : s.main.rpc.items[k]? = Option.some (s.main.rpc.items[k]) :=
        List.getElem?_eq_getElem h
      have hdropk : s.main.rpc.items.drop k
          = s.main.rpc.items[k] :: s.main.rpc.items.drop (k + 1) :=
        List.drop_eq_getElem_cons h
      have hrkeep : (sweepDel (fun u => u.evpipe_num == ev)
          (s.main.rpc.items[k]).subs.items 0).1 ≠ [] := by
        apply hkeep
        rw [hdropk]
        exact List.mem_cons_self _ _
      have hr1 : (sweepDel (fun u => u.evpipe_num == ev)
          (s.main.rpc.items[k]).subs.items 0).1.isEmpty = false := by
        rcases hx : (sweepDel (fun u => u.evpipe_num == ev)
            (s.main.rpc.items[k]).subs.items 0).1 with _ | ⟨a, t⟩
        · exact absurd hx hrkeep
        · rw [hx]; rfl
      by_cases hk2 : (sweepDel (fun u => u.evpipe_num == ev)
          (s.main.rpc.items[k]).subs.items 0).2.isEmpty = true
      case pos =>
        have hdel := rpc_sub_del_ev_nodel s k ev (s.main.rpc.items[k]) hk hk2
        have hstep : recoverRpcLoop s ev k (fuel + 1) = recoverRpcLoop s ev (k + 1) fuel := by
          rw [recoverRpcLoop_succ, dif_pos h]
          simp only [hdel, Bool.false_eq_true, if_false]
        have hval := rpcEvDel_nodel ev (s.main.rpc.items[k]) hk2
        obtain ⟨i1, i2, i3, i4, i5, i6, i7, i8⟩ := ih (k + 1) s (by omega)
          (fun r hr => hkeep r (by rw [hdropk]; exact List.mem_cons_of_mem _ hr))
        have htk : s.main.rpc.items.take (k + 1)
            = s.main.rpc.items.take k ++ [s.main.rpc.items[k]] := by
          rw [List.take_succ, List.getElem?_eq_getElem h]
          rfl
        rw [hstep]
        refine ⟨?_, i2, i3, i4, i5, i6, i7, ?_⟩
        · rw [i1, htk, hdropk, List.map_cons, List.append_assoc]
          simp only [hval]
          rfl
        · rw [i8, hdropk, List.map_cons, List.sum_cons]
          simp [hval]
      case neg =>
        have hk2f : (sweepDel (fun u => u.evpipe_num == ev)
            (s.main.rpc.items[k]).subs.items 0).2.isEmpty = false := by
          cases hx : (sweepDel (fun u => u.evpipe_num == ev)
              (s.main.rpc.items[k]).subs.items 0).2.isEmpty
          · rfl
          · exact absurd hx hk2
        have hdel := rpc_sub_del_ev_del s k ev (s.main.rpc.items[k]) hk hk2f hr1
        have hval := rpcEvDel_del ev (s.main.rpc.items[k]) hk2f hr1
        set r2 : Rpc := { s.main.rpc.items[k] with subs :=
          ⟨(s.main.rpc.items[k]).subs.off,
           (sweepDel (fun u => u.evpipe_num == ev) (s.main.rpc.items[k]).subs.items 0).1⟩ }
          with hr2
        set s2 : St := { s with
          wasted := s.wasted
            + ((sweepDel (fun u => u.evpipe_num == ev)
                (s.main.rpc.items[k]).subs.items 0).2.map rpcSubWasted).sum
          main := { s.main with rpc :=
            ⟨s.main.rpc.off, s.main.rpc.items.set k r2⟩ } } with hs2
        have hstep : recoverRpcLoop s ev k (fuel + 1) = recoverRpcLoop s2 ev (k + 1) fuel := by
          rw [recoverRpcLoop_succ, dif_pos h]
          simp only [hdel, Bool.false_eq_true, if_false]
        have hs2items : s2.main.rpc.items = s.main.rpc.items.set k r2 := rfl
        have hs2drop : s2.main.rpc.items.drop (k + 1) = s.main.rpc.items.drop (k + 1) := by
          rw [hs2items, drop_succ_set]
        have hs2take : s2.main.rpc.items.take (k + 1)
            = s.main.rpc.items.take k ++ [r2] := by
          rw [hs2items, take_succ_set _ _ _ h]
        obtain ⟨i1, i2, i3, i4, i5, i6, i7, i8⟩ := ih (k + 1) s2 (by
            rw [hs2items]; simp only [List.length_set]; omega)
          (fun r hr => by
            rw [hs2drop] at hr
            exact hkeep r (by rw [hdropk]; exact List.mem_cons_of_mem _ hr))
        rw [hstep]
        refine ⟨?_, ?_, ?_, ?_, ?_, ?_, ?_, ?_⟩
        · rw [i1, hs2take, hs2drop, hdropk, List.map_cons, List.append_assoc]
          simp only [hval]
          rfl
        · exact i2
        · exact i3
        · exact i4
        · exact i5
        · exact i6
        · exact i7
        · rw [i8, hs2drop, hdropk, List.map_cons, List.sum_cons]
          have hw2 : s2.wasted = s.wasted
              + ((sweepDel (fun u => u.evpipe_num == ev)
                  (s.main.rpc.items[k]).subs.items 0).2.map rpcSubWasted).sum := rfl
          rw [hw2]
          simp only [hval]
          omega


theorem recoverEvpipe_keep (s : St) (ev : Nat)
    (hkeep : ∀ r ∈ s.main.rpc.items,
      (sweepDel (fun u => u.evpipe_num == ev) r.subs.items 0).1 ≠ []) :
    (recoverEvpipe s ev).main.rpc.items
        = s.main.rpc.items.map (fun r => (rpcEvDel ev r).1)
    ∧ (recoverEvpipe s ev).main.rpc.off = s.main.rpc.off
    ∧ (recoverEvpipe s ev).main.conn_state = s.main.conn_state
    ∧ (recoverEvpipe s ev).main.readers = s.main.readers
    ∧ (recoverEvpipe s ev).mods = s.mods.map (fun m => (modDelEvpipe m ev).1)
    ∧ (recoverEvpipe s ev).ext_size = s.ext_size
    ∧ (recoverEvpipe s ev).oper_data = s.oper_data
    ∧ (recoverEvpipe s ev).wasted
        = s.wasted + (s.mods.map (fun m => (modDelEvpipe m ev).2)).sum
          + (s.main.rpc.items.map (fun r => (rpcEvDel ev r).2)).sum := by
  unfold recoverEvpipe
  set s1 : St := { s with
    mods := (s.mods.map (fun m => modDelEvpipe m ev)).map Prod.fst
    wasted := s.wasted + ((s.mods.map (fun m => modDelEvpipe m ev)).map Prod.snd).sum }
    with hs1
  have hs1rpc : s1.main.rpc.items = s.main.rpc.items := rfl
  obtain ⟨i1, i2, i3, i4, i5, i6, i7, i8⟩ :=
    recoverRpcLoop_keep ev s1.main.rpc.items.length 0 s1 (by omega)
      (by intro r hr; simp only [List.drop_zero] at hr; exact hkeep r hr)
  refine ⟨?_, i2, i3, i4, ?_, i6, i7, ?_⟩
  · rw [i1]
    simp
  · rw [i5, hs1]
    simp [List.map_map]
  · rw [i8]
    have hw1 : s1.wasted = s.wasted
        + ((s.mods.map (fun m => modDelEvpipe m ev)).map Prod.snd).sum := rfl
    rw [hw1]
    simp [List.map_map]
    rfl


theorem del_conn_last (s : St) (n : Nat) (c : ConnState)
    (hlen : s.main.conn_state.items.length = n + 1)
    (hc : s.main.conn_state.items[n]? = Option.some c)
    (hnodup : ∀ j cj, j < n → s.main.conn_state.items[j]? = Option.some cj →
      connMatch c.conn_ctx c.pid cj = false) :
    sr_shmmain_state_del_conn s c.conn_ctx c.pid
      = { s with
          wasted := s.wasted + c.evpipes.items.length * szU32 + szConn
          main := { s.main with conn_state :=
            ⟨if s.main.conn_state.items.dropLast.isEmpty then 0
              else s.main.conn_state.off, s.main.conn_state.items.dropLast⟩ } } := by
  have hidx : idxOf? (connMatch c.conn_ctx c.pid) s.main.conn_state.items
      = Option.some (n, c) := by
    apply idxOf?_last _ _ n c hlen hc
    · simp [connMatch]
    · exact hnodup
  unfold sr_shmmain_state_del_conn
  simp only [hidx]
  rw [swapRemove_last _ _ hlen]

/-- The bulk-delete scan `sweepDel` keeps, up to permutation, exactly the
elements that do not satisfy the predicate (given that the already-scanned
prefix holds no match — trivially true at the loop entry `i = 0`). -/
theorem sweepDel_kept_perm {α : Type} (p : α → Bool) (l : List α) (i : Nat)
    (hpre : ∀ j (hj : j < l.length), j < i → p l[j] = false) :
    ((sweepDel p l i).1).Perm (l.filter (fun x => !p x)) := by
  rw [sweepDel]
  by_cases h : i < l.length
  case neg =>
    rw [dif_neg h]
    have hall : ∀ x ∈ l, (!p x) = true := by
      intro x hx
      obtain ⟨j, hj, hget⟩ := List.mem_iff_getElem.mp hx
      have hpj := hpre j hj (by omega)
      rw [hget] at hpj
      simp [hpj]
    rw [List.filter_eq_self.mpr hall]
  case pos =>
    rw [dif_pos h]
    have hne : l ≠ [] := by intro hcon; subst hcon; simp at h
    cases hp : p l[i] with
    | true =>
      simp only [hp, if_true]
      obtain ⟨x, hx⟩ : ∃ x, l.getLast? = Option.some x := by
        cases hxx : l.getLast? with
        | none => exact absurd (List.getLast?_eq_none_iff.mp hxx) hne
        | some x => exact ⟨x, rfl⟩
      have hlen : (swapRemove l i).length = l.length - 1 := swapRemove_length l i hne
      have hpre2 : ∀ j (hj : j < (swapRemove l i).length), j < i →
          p (swapRemove l i)[j] = false := by
        intro j hj hji
        have hjl : j < l.length := by omega
        have hgl : (swapRemove l i)[j] = l[j] := by
          have e1 : swapRemove l i = (l.set i x).dropLast :=
            swapRemove_eq_of_getLast l i x hx
          have h2 : (swapRemove l i)[j]? = l[j]? := by
            rw [e1, List.dropLast_eq_take, List.getElem?_take, List.length_set]
            rw [if_pos (by omega : j < l.length - 1)]
            exact List.getElem?_set_ne (by omega)
          have h3 := List.getElem?_eq_getElem hj
          have h4 := List.getElem?_eq_getElem hjl
          rw [h3, h4] at h2
          exact Option.some.inj h2
        rw [hgl]
        exact hpre j hjl hji
      have ihp := sweepDel_kept_perm p (swapRemove l i) i hpre2
      have h1 : ((swapRemove l i).filter (fun y => !p y)).Perm
          ((l.eraseIdx i).filter (fun y => !p y)) :=
        (swapRemove_perm l i h).filter _
      have h2 : (l.filter (fun y => !p y)).Perm
          ((l.eraseIdx i).filter (fun y => !p y)) := by
        have h3 := (perm_getElem_cons_eraseIdx l i h).filter (fun y => !p y)
        simpa [List.filter_cons, hp] using h3
      exact (ihp.trans h1).trans h2.symm
    | false =>
      simp only [hp, Bool.false_eq_true, if_false]
      have hpre2 : ∀ j (hj : j < l.length), j < i + 1 → p l[j] = false := by
        intro j hj hji
        by_cases hje : j < i
        · exact hpre j hj hje
        · have : j = i := by omega
          subst this
          exact hp
      exact sweepDel_kept_perm p l (i + 1) hpre2
termination_by (l.length, l.length - i)
decreasing_by
  all_goals first
    | exact Prod.Lex.right _ (by omega)
    | exact Prod.Lex.left _ _ (by
        have hlen2 : (swapRemove l i).length = l.length - 1 :=
          swapRemove_length l i hne
        omega)

/-- A subscription that does not match the predicate survives the bulk scan,
so the kept array is nonempty. -/
theorem sweepDel_kept_ne_nil {α : Type} (p : α → Bool) (l : List α) (u : α)
    (hu : u ∈ l) (hp : p u = false) : (sweepDel p l 0).1 ≠ [] := by
  have hperm := sweepDel_kept_perm p l 0 (fun j hj hcon => absurd hcon (by omega))
  intro hnil
  rw [hnil] at hperm
  have hfil : l.filter (fun x => !p x) = [] := hperm.symm.eq_nil
  have hmem : u ∈ l.filter (fun x => !p x) := List.mem_filter.mpr ⟨hu, by simp [hp]⟩
  rw [hfil] at hmem
  exact absurd hmem (List.not_mem_nil u)

/-- A subscription with a foreign evpipe id is still present after the bulk
delete of one evpipe. -/
theorem rpcEvDel_sub_mem (ev : Nat) (r : Rpc) (u : RpcSub)
    (hu : u ∈ r.subs.items) (hne : (u.evpipe_num == ev) = false) :
    u ∈ (rpcEvDel ev r).1.subs.items := by
  unfold rpcEvDel
  by_cases h2 : (sweepDel (fun x => x.evpipe_num == ev) r.subs.items 0).2.isEmpty = true
  · simp only [h2, if_true]
    exact hu
  · have h2f : (sweepDel (fun x => x.evpipe_num == ev) r.subs.items 0).2.isEmpty = false := by
      cases hx : (sweepDel (fun x => x.evpipe_num == ev) r.subs.items 0).2.isEmpty
      · rfl
      · exact absurd hx h2
    simp only [h2f, Bool.false_eq_true, if_false]
    show u ∈ (sweepDel (fun x => x.evpipe_num == ev) r.subs.items 0).1
    have hperm := sweepDel_kept_perm (fun x => x.evpipe_num == ev) r.subs.items 0
      (fun j hj hcon => absurd hcon (by omega))
    apply hperm.mem_iff.mpr
    exact List.mem_filter.mpr ⟨hu, by simp [hne]⟩

/-- Splitting the waste accumulator out of the iterated RPC bulk delete. -/
theorem rpcEvDelList_acc (evs : List Nat) :
    ∀ (r : Rpc) (w : Nat),
    (evs.foldl (fun q ev => ((rpcEvDel ev q.1).1, q.2 + (rpcEvDel ev q.1).2)) (r, w)).1
      = (rpcEvDelList evs r).1
    ∧ (evs.foldl (fun q ev => ((rpcEvDel ev q.1).1, q.2 + (rpcEvDel ev q.1).2)) (r, w)).2
      = w + (rpcEvDelList evs r).2 := by
  induction evs with
  | nil =>
    intro r w
    exact ⟨rfl, by simp [rpcEvDelList]⟩
  | cons ev t ih =>
    intro r w
    simp only [List.foldl_cons]
    obtain ⟨a1, a2⟩ := ih (rpcEvDel ev r).1 (w + (rpcEvDel ev r).2)
    obtain ⟨b1, b2⟩ := ih (rpcEvDel ev r).1 (0 + (rpcEvDel ev r).2)
    constructor
    · rw [a1]
      have hR : (rpcEvDelList (ev :: t) r).1 = (rpcEvDelList t (rpcEvDel ev r).1).1 := by
        show (t.foldl _ ((rpcEvDel ev r).1, 0 + (rpcEvDel ev r).2)).1 = _
        rw [b1]
      rw [hR]
    · rw [a2]
      have hR : (rpcEvDelList (ev :: t) r).2
          = (rpcEvDel ev r).2 + (rpcEvDelList t (rpcEvDel ev r).1).2 := by
        show (t.foldl _ ((rpcEvDel ev r).1, 0 + (rpcEvDel ev r).2)).2 = _
        rw [b2]
        omega
      rw [hR]
      omega

/-- One step of the iterated RPC bulk delete. -/
theorem rpcEvDelList_cons (ev : Nat) (evs : List Nat) (r : Rpc) :
    (rpcEvDelList (ev :: evs) r).1 = (rpcEvDelList evs (rpcEvDel ev r).1).1
    ∧ (rpcEvDelList (ev :: evs) r).2
        = (rpcEvDel ev r).2 + (rpcEvDelList evs (rpcEvDel ev r).1).2 := by
  obtain ⟨b1, b2⟩ := rpcEvDelList_acc evs (rpcEvDel ev r).1 (0 + (rpcEvDel ev r).2)
  constructor
  · show (evs.foldl _ ((rpcEvDel ev r).1, 0 + (rpcEvDel ev r).2)).1 = _
    rw [b1]
  · show (evs.foldl _ ((rpcEvDel ev r).1, 0 + (rpcEvDel ev r).2)).2 = _
    rw [b2]
    omega

/-- Splitting the waste accumulator out of the iterated module bulk delete. -/
theorem modEvDelList_acc (evs : List Nat) :
    ∀ (m : SrMod) (w : Nat),
    (evs.foldl (fun q ev => ((modDelEvpipe q.1 ev).1, q.2 + (modDelEvpipe q.1 ev).2)) (m, w)).1
      = (modEvDelList evs m).1
    ∧ (evs.foldl (fun q ev => ((modDelEvpipe q.1 ev).1, q.2 + (modDelEvpipe q.1 ev).2)) (m, w)).2
      = w + (modEvDelList evs m).2 := by
  induction evs with
  | nil =>
    intro m w
    exact ⟨rfl, by simp [modEvDelList]⟩
  | cons ev t ih =>
    intro m w
    simp only [List.foldl_cons]
    obtain ⟨a1, a2⟩ := ih (modDelEvpipe m ev).1 (w + (modDelEvpipe m ev).2)
    obtain ⟨b1, b2⟩ := ih (modDelEvpipe m ev).1 (0 + (modDelEvpipe m ev).2)
    constructor
    · rw [a1]
      have hR : (modEvDelList (ev :: t) m).1 = (modEvDelList t (modDelEvpipe m ev).1).1 := by
        show (t.foldl _ ((modDelEvpipe m ev).1, 0 + (modDelEvpipe m ev).2)).1 = _
        rw [b1]
      rw [hR]
    · rw [a2]
      have hR : (modEvDelList (ev :: t) m).2
          = (modDelEvpipe m ev).2 + (modEvDelList t (modDelEvpipe m ev).1).2 := by
        show (t.foldl _ ((modDelEvpipe m ev).1, 0 + (modDelEvpipe m ev).2)).2 = _
        rw [b2]
        omega
      rw [hR]
      omega

/-- One step of the iterated module bulk delete. -/
theorem modEvDelList_cons (ev : Nat) (evs : List Nat) (m : SrMod) :
    (modEvDelList (ev :: evs) m).1 = (modEvDelList evs (modDelEvpipe m ev).1).1
    ∧ (modEvDelList (ev :: evs) m).2
        = (modDelEvpipe m ev).2 + (modEvDelList evs (modDelEvpipe m ev).1).2 := by
  obtain ⟨b1, b2⟩ := modEvDelList_acc evs (modDelEvpipe m ev).1 (0 + (modDelEvpipe m ev).2)
  constructor
  · show (evs.foldl _ ((modDelEvpipe m ev).1, 0 + (modDelEvpipe m ev).2)).1 = _
    rw [b1]
  · show (evs.foldl _ ((modDelEvpipe m ev).1, 0 + (modDelEvpipe m ev).2)).2 = _
    rw [b2]
    omega

/-- A sum over a pointwise sum of maps splits. -/
theorem sum_map_add {α : Type} (f g : α → Nat) :
    ∀ (l : List α),
    (l.map (fun x => f x + g x)).sum = (l.map f).sum + (l.map g).sum := by
  intro l
  induction l with
  | nil => rfl
  | cons a t ih =>
    simp only [List.map_cons, List.sum_cons, ih]
    omega

/-- The evpipe loop of the recovery sweep (lines 926-963), iterated over any
list of dead evpipes, provided every RPC record keeps a subscription whose
evpipe id is none of them: modules and RPC records are mapped through the
cumulative bulk deletes, nothing else changes, and the waste adds up. -/
theorem foldl_recoverEvpipe_keep (evs : List Nat) :
    ∀ (s : St),
    (∀ r ∈ s.main.rpc.items, ∃ u ∈ r.subs.items,
      evs.contains u.evpipe_num = false) →
    (evs.foldl recoverEvpipe s).main.rpc.items
        = s.main.rpc.items.map (fun r => (rpcEvDelList evs r).1)
    ∧ (evs.foldl recoverEvpipe s).main.rpc.off = s.main.rpc.off
    ∧ (evs.foldl recoverEvpipe s).main.conn_state = s.main.conn_state
    ∧ (evs.foldl recoverEvpipe s).main.readers = s.main.readers
    ∧ (evs.foldl recoverEvpipe s).mods = s.mods.map (fun m => (modEvDelList evs m).1)
    ∧ (evs.foldl recoverEvpipe s).ext_size = s.ext_size
    ∧ (evs.foldl recoverEvpipe s).oper_data = s.oper_data
    ∧ (evs.foldl recoverEvpipe s).wasted
        = s.wasted + (s.mods.map (fun m => (modEvDelList evs m).2)).sum
          + (s.main.rpc.items.map (fun r => (rpcEvDelList evs r).2)).sum := by
  induction evs with
  | nil =>
    intro s _
    refine ⟨?_, rfl, rfl, rfl, ?_, rfl, rfl, ?_⟩
    · show s.main.rpc.items = _
      simp [rpcEvDelList]
    · show s.mods = _
      simp [modEvDelList]
    · show s.wasted = _
      simp [rpcEvDelList, modEvDelList]
  | cons ev evs ih =>
    intro s hkeep
    simp only [List.foldl_cons]
    have hstep : ∀ r ∈ s.main.rpc.items,
        (sweepDel (fun u => u.evpipe_num == ev) r.subs.items 0).1 ≠ [] := by
      intro r hr
      obtain ⟨u, hu, hcon⟩ := hkeep r hr
      rw [List.contains_cons] at hcon
      exact sweepDel_kept_ne_nil _ _ u hu (Bool.or_eq_false_iff.mp hcon).1
    obtain ⟨i1, i2, i3, i4, i5, i6, i7, i8⟩ := recoverEvpipe_keep s ev hstep
    have hkeep2 : ∀ r2 ∈ (recoverEvpipe s ev).main.rpc.items, ∃ u ∈ r2.subs.items,
        evs.contains u.evpipe_num = false := by
      intro r2 hr2
      rw [i1] at hr2
      obtain ⟨r, hr, hre⟩ := List.mem_map.mp hr2
      obtain ⟨u, hu, hcon⟩ := hkeep r hr
      rw [List.contains_cons] at hcon
      refine ⟨u, ?_, (Bool.or_eq_false_iff.mp hcon).2⟩
      rw [← hre]
      exact rpcEvDel_sub_mem ev r u hu (Bool.or_eq_false_iff.mp hcon).1
    obtain ⟨j1, j2, j3, j4, j5, j6, j7, j8⟩ := ih (recoverEvpipe s ev) hkeep2
    refine ⟨?_, ?_, ?_, ?_, ?_, ?_, ?_, ?_⟩
    · rw [j1, i1, List.map_map]
      exact List.map_congr_left (fun r _ => ((rpcEvDelList_cons ev evs r).1).symm)
    · rw [j2, i2]
    · rw [j3, i3]
    · rw [j4, i4]
    · rw [j5, i5, List.map_map]
      exact List.map_congr_left (fun m _ => ((modEvDelList_cons ev evs m).1).symm)
    · rw [j6, i6]
    · rw [j7, i7]
    · rw [j8, i8, i1, i5, List.map_map, List.map_map]
      have hm : s.mods.map (fun m => (modEvDelList (ev :: evs) m).2)
          = s.mods.map (fun m => (modDelEvpipe m ev).2
              + (modEvDelList evs (modDelEvpipe m ev).1).2) :=
        List.map_congr_left (fun m _ => (modEvDelList_cons ev evs m).2)
      have hr : s.main.rpc.items.map (fun r => (rpcEvDelList (ev :: evs) r).2)
          = s.main.rpc.items.map (fun r => (rpcEvDel ev r).2
              + (rpcEvDelList evs (rpcEvDel ev r).1).2) :=
        List.map_congr_left (fun r _ => (rpcEvDelList_cons ev evs r).2)
      rw [hm, hr, sum_map_add, sum_map_add]
      simp only [Function.comp_def]
      omega

theorem recoverDeadConn_last (s : St) (n : Nat) (c : ConnState)
    (hlen : s.main.conn_state.items.length = n + 1)
    (hc : s.main.conn_state.items[n]? = Option.some c)
    (hnodup : ∀ j cj, j < n → s.main.conn_state.items[j]? = Option.some cj →
      connMatch c.conn_ctx c.pid cj = false)
    (hkeep : ∀ r ∈ s.main.rpc.items, ∃ u ∈ r.subs.items,
      c.evpipes.items.contains u.evpipe_num = false) :
    (recoverDeadConn s n c).main.readers = deadReaders s c
    ∧ (recoverDeadConn s n c).main.conn_state.items = s.main.conn_state.items.dropLast
    ∧ (recoverDeadConn s n c).main.conn_state.off
        = (if s.main.conn_state.items.dropLast.isEmpty then 0 else s.main.conn_state.off)
    ∧ (recoverDeadConn s n c).mods
        = s.mods.map (fun m => (modEvDelList c.evpipes.items m).1)
    ∧ (recoverDeadConn s n c).main.rpc.off = s.main.rpc.off
    ∧ (recoverDeadConn s n c).main.rpc.items
        = s.main.rpc.items.map (fun r => (rpcEvDelList c.evpipes.items r).1)
    ∧ (recoverDeadConn s n c).oper_data
        = s.oper_data.filter (fun p => !(p.1 == c.conn_ctx && p.2 == c.pid))
    ∧ (recoverDeadConn s n c).ext_size = s.ext_size
    ∧ (recoverDeadConn s n c).wasted
        = s.wasted + (s.mods.map (fun m => (modEvDelList c.evpipes.items m).2)).sum
          + (s.main.rpc.items.map (fun r => (rpcEvDelList c.evpipes.items r).2)).sum
          + c.evpipes.items.length * szU32 + szConn := by
  have h0 : recoverDeadConn s n c
      = sr_shmmod_oper_stored_del_conn
          (sr_shmmain_state_del_conn
            (c.evpipes.items.foldl recoverEvpipe
              { s with main := { s.main with readers := deadReaders s c } })
            c.conn_ctx c.pid)
          (match (sr_shmmain_state_del_conn
            (c.evpipes.items.foldl recoverEvpipe
              { s with main := { s.main with readers := deadReaders s c } })
            c.conn_ctx c.pid).main.conn_state.items[n]? with
           | Option.some c2 => (c2.conn_ctx, c2.pid)
           | Option.none => (c.conn_ctx, c.pid)).1
          (match (sr_shmmain_state_del_conn
            (c.evpipes.items.foldl recoverEvpipe
              { s with main := { s.main with readers := deadReaders s c } })
            c.conn_ctx c.pid).main.conn_state.items[n]? with
           | Option.some c2 => (c2.conn_ctx, c2.pid)
           | Option.none => (c.conn_ctx, c.pid)).2 := rfl
  rw [h0]
  set s1 : St := { s with main := { s.main with readers := deadReaders s c } } with hs1
  obtain ⟨i1, i2, i3, i4, i5, i6, i7, i8⟩ :=
    foldl_recoverEvpipe_keep c.evpipes.items s1 (fun r hr => hkeep r hr)
  set s2 : St := c.evpipes.items.foldl recoverEvpipe s1 with hs2
  have hc3 : s2.main.conn_state.items = s.main.conn_state.items :=
    congrArg ShmArr.items i3
  have hlen2 : s2.main.conn_state.items.length = n + 1 := by rw [hc3]; exact hlen
  have hc2 : s2.main.conn_state.items[n]? = Option.some c := by rw [hc3]; exact hc
  have hnodup2 : ∀ j cj, j < n → s2.main.conn_state.items[j]? = Option.some cj →
      connMatch c.conn_ctx c.pid cj = false := by
    intro j cj hj hjeq
    rw [hc3] at hjeq
    exact hnodup j cj hj hjeq
  rw [del_conn_last s2 n c hlen2 hc2 hnodup2]
  have hnone : s2.main.conn_state.items.dropLast[n]? = Option.none := by
    apply List.getElem?_eq_none
    rw [List.length_dropLast, hc3, hlen]
    omega
  simp only [hnone]
  unfold sr_shmmod_oper_stored_del_conn
  have hoff : s2.main.conn_state.off = s.main.conn_state.off :=
    congrArg ShmArr.off i3
  have i1s : s2.main.rpc.items
      = s.main.rpc.items.map (fun r => (rpcEvDelList c.evpipes.items r).1) := i1
  have i2s : s2.main.rpc.off = s.main.rpc.off := i2
  have i4s : s2.main.readers = deadReaders s c := i4
  have i5s : s2.mods = s.mods.map (fun m => (modEvDelList c.evpipes.items m).1) := i5
  have i6s : s2.ext_size = s.ext_size := i6
  have i7s : s2.oper_data = s.oper_data := i7
  have i8s : s2.wasted
      = s.wasted + (s.mods.map (fun m => (modEvDelList c.evpipes.items m).2)).sum
        + (s.main.rpc.items.map (fun r => (rpcEvDelList c.evpipes.items r).2)).sum := i8
  refine ⟨i4s, by rw [hc3], by rw [hc3, hoff], i5s, i2s, i1s, by rw [i7s], i6s, ?_⟩
  rw [i8s]

/-- C1 (amended): for a dead connection record sitting at the end of the
connection array whose bulk deletes empty no RPC subscription array (every
RPC keeps a subscription whose evpipe id is none of the dead connection's),
one recovery sweep subtracts the recorded reader count of a held read lock
from the Main lock reader counter, removes from every module and every RPC
exactly the subscriptions matching the dead connection's evpipes, deletes the
connection record (wasting its K-entry evpipe array and the record), and
erases the stored operational data under the dead connection's key; every
live connection's entries are untouched and Ext never grows. -/
theorem C1_recover (live : Nat → Bool) (s : St) (n : Nat) (c : ConnState)
    (hlen : s.main.conn_state.items.length = n + 1)
    (hc : s.main.conn_state.items[n]? = Option.some c)
    (hlive : ∀ j cj, j < n → s.main.conn_state.items[j]? = Option.some cj →
      live cj.pid = true)
    (hdead : live c.pid = false)
    (hkeep : ∀ r ∈ s.main.rpc.items, ∃ u ∈ r.subs.items,
      c.evpipes.items.contains u.evpipe_num = false) :
    (sr_shmmain_state_recover live s).main.readers = deadReaders s c
    ∧ (sr_shmmain_state_recover live s).main.conn_state.items
        = s.main.conn_state.items.dropLast
    ∧ (sr_shmmain_state_recover live s).main.conn_state.off
        = (if s.main.conn_state.items.dropLast.isEmpty then 0 else s.main.conn_state.off)
    ∧ (sr_shmmain_state_recover live s).mods
        = s.mods.map (fun m => (modEvDelList c.evpipes.items m).1)
    ∧ (sr_shmmain_state_recover live s).main.rpc.off = s.main.rpc.off
    ∧ (sr_shmmain_state_recover live s).main.rpc.items
        = s.main.rpc.items.map (fun r => (rpcEvDelList c.evpipes.items r).1)
    ∧ (sr_shmmain_state_recover live s).oper_data
        = s.oper_data.filter (fun p => !(p.1 == c.conn_ctx && p.2 == c.pid))
    ∧ (sr_shmmain_state_recover live s).ext_size = s.ext_size
    ∧ (sr_shmmain_state_recover live s).wasted
        = s.wasted + (s.mods.map (fun m => (modEvDelList c.evpipes.items m).2)).sum
          + (s.main.rpc.items.map (fun r => (rpcEvDelList c.evpipes.items r).2)).sum
          + c.evpipes.items.length * szU32 + szConn := by
  have hnodup : ∀ j cj, j < n → s.main.conn_state.items[j]? = Option.some cj →
      connMatch c.conn_ctx c.pid cj = false := by
    intro j cj hj hjeq
    cases hcm : connMatch c.conn_ctx c.pid cj with
    | false => rfl
    | true =>
      exfalso
      have hl := hlive j cj hj hjeq
      unfold connMatch at hcm
      have hpid : cj.pid = c.pid := by
        have h2 := (Bool.and_eq_true_iff.mp hcm).2
        simpa using h2
      rw [hpid, hdead] at hl
      exact Bool.false_ne_true hl
  have hn : n < s.main.conn_state.items.length := by omega
  have hgn : s.main.conn_state.items[n] = c := by
    have h1 := List.getElem?_eq_getElem hn
    rw [hc] at h1
    exact (Option.some.inj h1).symm
  obtain ⟨d1, d2, d3, d4, d5, d6, d7, d8, d9⟩ :=
    recoverDeadConn_last s n c hlen hc hnodup hkeep
  have hrun : recoverLoop live s 0 = recoverLoop live s n := by
    have h2 := recoverLoop_live_run live n 0 s (by omega)
      (fun j h1 h2 cj hj => hlive j cj (by omega) hj)
    rw [Nat.zero_add] at h2
    exact h2
  have hdead2 : live (s.main.conn_state.items[n]).pid = false := by
    rw [hgn]; exact hdead
  have hshrink : (recoverDeadConn s n (s.main.conn_state.items[n])).main.conn_state.items.length
      < s.main.conn_state.items.length := by
    rw [hgn, d2, List.length_dropLast]
    omega
  have hstep := recoverLoop_step_dead live s n hn hdead2 hshrink
  rw [hgn] at hstep
  have hterm : recoverLoop live (recoverDeadConn s n c) n = recoverDeadConn s n c := by
    apply recoverLoop_end
    simp only [d2, List.length_dropLast, hlen]
    omega
  have hfin : sr_shmmain_state_recover live s = recoverDeadConn s n c := by
    unfold sr_shmmain_state_recover
    rw [hrun, hstep, hterm]
  rw [hfin]
  exact ⟨d1, d2, d3, d4, d5, d6, d7, d8, d9⟩

/-- C1 witness: the amended theorem evaluated on a two-connection state whose
dead connection (client 1, PID 100, two recursive read locks, evpipes 7 and
9) sits last, the one RPC keeping a third subscription for foreign evpipe 11:
the record is gone, its stored operational data erased, and the reader
counter drops from 3 to 1. -/
theorem C1_recover_witness :
    (sr_shmmain_state_recover (fun p => p != 100) wC1St).main.conn_state.items = [c1Live]
    ∧ (sr_shmmain_state_recover (fun p => p != 100) wC1St).oper_data = [(2, 200)]
    ∧ (sr_shmmain_state_recover (fun p => p != 100) wC1St).main.readers = 1 := by
  obtain ⟨d1, d2, d3, d4, d5, d6, d7, d8, d9⟩ :=
    C1_recover (fun p => p != 100) wC1St 1 wC1Dead rfl rfl
      (by
        intro j cj hj hcj
        have hj0 : j = 0 := by omega
        subst hj0
        have h1 : wC1St.main.conn_state.items[0]? = Option.some c1Live := rfl
        have h2 : c1Live = cj := Option.some.inj (h1.symm.trans hcj)
        rw [← h2]
        decide)
      (by decide)
      (by
        intro r hr
        have hr1 : r = ⟨⟨40, "/a:x"⟩,
            ⟨60, [⟨⟨80, "/a"⟩, 0, 0, 7⟩, ⟨⟨96, "/c"⟩, 0, 0, 9⟩,
                  ⟨⟨112, "/d"⟩, 0, 0, 11⟩]⟩⟩ := by
          simpa [wC1St] using hr
        subst hr1
        exact ⟨⟨⟨112, "/d"⟩, 0, 0, 11⟩, by decide, by decide⟩)
  refine ⟨?_, ?_, ?_⟩
  · rw [d2]; rfl
  · rw [d7]; rfl
  · rw [d1]; rfl

/-- C1 counterexample (refutes the claim as stated, for every-state scope):
on `c1St` the dead connection (client 1, PID 100) sits first and both RPCs
lose their last subscription.  The sweep erases the stored operational data
of the LIVE connection (client 2, PID 200) and keeps the dead one's — lines
966-969 re-read slot `i` after the deletion, finding the swapped-in live
record — and the second RPC keeps its subscription for the dead evpipe 7:
the `++k` skips the RPC swapped into the removed slot (lines 949-962). -/
theorem C1_recover_counterexample :
    (sr_shmmain_state_recover (fun p => p != 100) c1St).oper_data = [(1, 100)]
    ∧ (sr_shmmain_state_recover (fun p => p != 100) c1St).main.rpc.items
        = [⟨⟨90, "/b:y"⟩, ⟨110, [⟨⟨130, "/b"⟩, 0, 0, 7⟩]⟩⟩]
    ∧ (sr_shmmain_state_recover (fun p => p != 100) c1St).main.conn_state.items
        = [c1Live] := by
  refine ⟨?_, ?_, ?_⟩ <;>
    simp [sr_shmmain_state_recover, recoverLoop, recoverDeadConn, recoverEvpipe,
      recoverRpcLoop, modDelEvpipe, sr_shmmain_rpc_subscription_del,
      sr_shmmain_del_rpc_by_off, sr_shmmain_state_del_conn,
      sr_shmmod_oper_stored_del_conn, sweepDel, swapRemove, idxOf?, connMatch,
      c1St, c1Dead, c1Live, rpcSubWasted, shmlen]

end Sysrepo
